import Mathlib

/-!
Verification development for the ipam4cloud prefix-management engine.

The definitions below are a shallow embedding of the Python sources:

* `containers/app/models.py` — the prefix store (`PrefixManager`), the
  conflict validator, the allocator and the SQLAlchemy table declarations
  (primary keys, unique constraints, foreign keys, check constraints).
* `containers/app/aws_vpc_sync.py` — the VPC subnet reconciler.
* `containers/app/idempotency_service.py` — the idempotency layer.

Python `snake_case` functions keep their names in `camelCase`
(`create_manual_prefix` becomes `createManualPrefix`, and so on).
Machine-level values are modelled with `Nat`: an IP network is its integer
network address plus a mask length, reduced modulo the address width where
the arithmetic requires it.  Database rows are Lean structures; a database
session is explicit state passing over the `DB` structure; Python
exceptions are `Except` errors.

Two pieces of behaviour are decided by database schema code
(`containers/postgres/init.sql`) that is not part of the Python sources:
the parent-validation performed when a prefix row is written, and the
materialisation of `indentation_level`.  Those two definitions are
modelled from the specification text and carry a doc comment starting
with `Modelled from the spec:`; everything else is translated from the
Python sources directly.
-/

namespace Ipam

/-- An IP network in CIDR form: `bits` is the address width (32 for IPv4,
128 for IPv6, Python's `max_prefixlen`), `addr` the integer network
address, `len` the mask length. -/
structure Cidr where
  bits : Nat
  addr : Nat
  len : Nat
deriving DecidableEq, Repr

/-- Number of host bits of a network. -/
def Cidr.hostBits (c : Cidr) : Nat := c.bits - c.len

/-- Number of addresses covered by a network. -/
def Cidr.size (c : Cidr) : Nat := 2 ^ c.hostBits

/-- Last address of a network (Python's `broadcast_address`). -/
def Cidr.lastAddr (c : Cidr) : Nat := c.addr + c.size - 1

/-- Python `ipaddress` `overlaps`: false across address families
(`__contains__` returns `False` on a version mismatch), range
intersection within one family. -/
def Cidr.overlaps (a b : Cidr) : Bool :=
  a.bits == b.bits && decide (a.addr ≤ b.lastAddr) && decide (b.addr ≤ a.lastAddr)

/-- Python `ipaddress` `subnet_of`: the first network lies inside the
second (not necessarily strictly). -/
def Cidr.subnetOf (a b : Cidr) : Bool :=
  a.bits == b.bits && decide (b.addr ≤ a.addr) && decide (a.lastAddr ≤ b.lastAddr)

/-- Strict containment: `subnet_of` but not equal, the reading the spec
uses for parent containment. -/
def Cidr.strictSubnetOf (a b : Cidr) : Bool :=
  a.subnetOf b && !(a == b)

/-- Tag maps.  Python stores tags as JSON objects (string keys); the
operations the engine performs on them only ever read and write string
values, so a tag map is an association list with `dict` update
semantics (`Tags.set` keeps the position of an existing key). -/
abbrev Tags := List (String × String)

/-- Dictionary lookup, `tags.get(k)`. -/
def Tags.get (ts : Tags) (k : String) : Option String :=
  (List.find? (fun p => p.1 == k) ts).map Prod.snd

/-- Dictionary membership, `k in tags`. -/
def Tags.hasKey (ts : Tags) (k : String) : Bool :=
  List.any ts (fun p => p.1 == k)

/-- Dictionary write, `tags[k] = v`: replaces an existing key in place,
otherwise appends. -/
def Tags.set (ts : Tags) (k : String) (v : String) : Tags :=
  if Tags.hasKey ts k then List.map (fun p => if p.1 == k then (k, v) else p) ts
  else ts ++ [(k, v)]

/-- Dictionary `pop(k, None)`: removes the key if present. -/
def Tags.erase (ts : Tags) (k : String) : Tags :=
  List.filter (fun p => !(p.1 == k)) ts

/-- `prefix_source` enum of the `prefix` table. -/
inductive Source where
  | manual
  | vpc
deriving DecidableEq, Repr

/-- A row of the `vrf` table. -/
structure VRF where
  vrf_id : String
  description : Option String
  tags : Tags
  routable_flag : Bool
  is_default : Bool
deriving DecidableEq, Repr

/-- A row of the `vpc` table (`vpc_id` is the surrogate UUID rendered as
a string). -/
structure VPC where
  vpc_id : String
  description : Option String
  provider : String
  provider_account_id : Option String
  provider_vpc_id : String
  region : Option String
  tags : Tags
deriving DecidableEq, Repr

/-- A row of the `prefix` table. -/
structure Prefix where
  prefix_id : String
  vrf_id : String
  cidr : Cidr
  tags : Tags
  indentation_level : Nat
  parent_prefix_id : Option String
  source : Source
  routable : Bool
  vpc_children_type_flag : Bool
  vpc_id : Option String
deriving DecidableEq, Repr

/-- A row of the `vpc_prefix_association` table. -/
structure VPCPrefixAssociation where
  association_id : String
  vpc_id : String
  vpc_prefix_cidr : Cidr
  routable : Bool
  parent_prefix_id : String
deriving DecidableEq, Repr

/-- The relational state the prefix engine manipulates. -/
structure DB where
  vrfs : List VRF
  vpcs : List VPC
  prefixes : List Prefix
  associations : List VPCPrefixAssociation
deriving DecidableEq, Repr

/-- Typed errors.  Python raises `ValueError` with a message; the
constructor records which check fired. -/
inductive Err where
  | duplicateCIDR
  | siblingOverlap
  | parentMismatch
  | invalidSubnetSize
  | notFound (what : String)
  | cannotMutateVpcSourced
  | cannotDeleteWithChildren
  | noSpaceAvailable
  | constraintViolation (what : String)
deriving DecidableEq, Repr

/-- Row lookup by primary key (`query(Prefix).filter(prefix_id == id).first()`). -/
def DB.findPrefixById (db : DB) (pid : String) : Option Prefix :=
  List.find? (fun p => p.prefix_id == pid) db.prefixes

/-- Children query (`filter(Prefix.parent_prefix_id == parent_id)`). -/
def DB.childrenOf (db : DB) (pid : String) : List Prefix :=
  List.filter (fun p => p.parent_prefix_id == some pid) db.prefixes

/-- One octet of an IPv4 address (big-endian position `i` of four). -/
def ipv4Octet (addr i : Nat) : Nat := addr / 2 ^ (8 * (3 - i)) % 256

/-- One hex digit, lowercase, as Python's `%x` formatting produces. -/
def hexDigit (n : Nat) : Char :=
  if n < 10 then Char.ofNat (48 + n) else Char.ofNat (87 + n)

/-- Fixed-width lowercase hex rendering (used for the exploded IPv6 form
and for SHA-256 digests). -/
def hexFixed (width n : Nat) : String :=
  String.mk (List.map (fun i => hexDigit (n / 16 ^ (width - 1 - i) % 16)) (List.range width))

/-- Python `PrefixManager.format_cidr_for_id`: dash the canonical string
form of the network.  IPv4 stays dotted-decimal with `.` and `/` turned
into `-`; IPv6 is the fully exploded lowercase form with `:` and `/`
turned into `-`. -/
def formatCidrForId (c : Cidr) : String :=
  if c.bits == 32 then
    String.intercalate "-"
      (List.map (fun i => toString (ipv4Octet c.addr i)) (List.range 4) ++ [toString c.len])
  else
    String.intercalate "-"
      (List.map (fun i => hexFixed 4 (c.addr / 2 ^ (16 * (7 - i)) % 65536)) (List.range 8)
        ++ [toString c.len])

/-- Python `PrefixManager.validate_prefix_conflicts`: reject an exact
`(vrf_id, cidr)` duplicate, then reject overlap with any sibling, where
the siblings are the prefixes of the same VRF with the same
`parent_prefix_id` (`None` for roots).  The `Cidr` argument is the
already-parsed network, so the `InvalidCIDR` branch of the Python code
(a failing `ip_network` parse) has no counterpart here. -/
def validatePrefixConflicts (db : DB) (vrf_id : String) (cidr : Cidr)
    (parent_prefix_id : Option String) : Except Err Unit :=
  if List.any db.prefixes (fun p => p.vrf_id == vrf_id && p.cidr == cidr) then
    .error .duplicateCIDR
  else
    let siblings := List.filter
      (fun p => p.vrf_id == vrf_id && p.parent_prefix_id == parent_prefix_id) db.prefixes
    if List.any siblings (fun s => cidr.overlaps s.cidr) then .error .siblingOverlap
    else .ok ()

/-- Modelled from the spec: the parent validation the database schema
(`containers/postgres/init.sql`, not part of `src/`) performs when a
manually created prefix row names a parent — "If `parent_prefix_id`
given, verify same VRF, same IP family, strict containment", failing
with `ParentMismatch`.  The Python caller only hints at it ("This will
fail at database level"). -/
def dbParentCheck (db : DB) (child_vrf : String) (child_cidr : Cidr) :
    Option String → Except Err Unit
  | none => .ok ()
  | some pid =>
    match db.findPrefixById pid with
    | none => .error (.notFound "parent")
    | some par =>
      if par.vrf_id ≠ child_vrf then .error .parentMismatch
      else if par.cidr.bits ≠ child_cidr.bits then .error .parentMismatch
      else if !(child_cidr.strictSubnetOf par.cidr) then .error .parentMismatch
      else .ok ()

/-- Modelled from the spec: "`indentation_level` is materialized on
write as `parent.indentation_level + 1` (0 when root)" — computed by the
database schema (not part of `src/`) when a prefix row is inserted. -/
def materializeIndentation (db : DB) : Option String → Nat
  | none => 0
  | some pid =>
    match db.findPrefixById pid with
    | none => 0
    | some par => par.indentation_level + 1

/-- The `source = 'vpc' ⇔ vpc_id IS NOT NULL` table check constraint
(`vpc_fields_when_vpc_source` in `models.py`). -/
def sourceVpcCheck (p : Prefix) : Bool :=
  match p.source, p.vpc_id with
  | .vpc, some _ => true
  | .manual, none => true
  | _, _ => false

/-- Raw insert of a prefix row: the declared constraints of the `prefix`
table (primary key, `UNIQUE(vrf_id, cidr)`, the VRF and parent foreign
keys, the source/vpc check constraint), with `indentation_level`
materialized on write.  Mirrors `session.add(prefix); session.commit()`. -/
def dbInsertPrefix (db : DB) (p : Prefix) : Except Err (Prefix × DB) :=
  if List.any db.prefixes (fun q => q.prefix_id == p.prefix_id) then
    .error (.constraintViolation "prefix_pkey")
  else if List.any db.prefixes (fun q => q.vrf_id == p.vrf_id && q.cidr == p.cidr) then
    .error (.constraintViolation "unique_vrf_cidr")
  else if !(List.any db.vrfs (fun v => v.vrf_id == p.vrf_id)) then
    .error (.constraintViolation "fk_vrf")
  else if !(match p.parent_prefix_id with
            | none => true
            | some pid => (db.findPrefixById pid).isSome) then
    .error (.constraintViolation "fk_parent")
  else if !(sourceVpcCheck p) then
    .error (.constraintViolation "vpc_fields_when_vpc_source")
  else
    let row := { p with indentation_level := materializeIndentation db p.parent_prefix_id }
    .ok (row, { db with prefixes := db.prefixes ++ [row] })

/-- Python `PrefixManager.create_manual_prefix`: validate conflicts,
derive the deterministic `manual-{vrf}-{dashed cidr}` identifier, insert
a `source='manual'` row.  The database-level parent validation
(`dbParentCheck`) sits between the Python validator and the insert. -/
def createManualPrefix (db : DB) (vrf_id : String) (cidr : Cidr)
    (parent_prefix_id : Option String) (tags : Tags) (routable : Bool)
    (vpc_children_type_flag : Bool) : Except Err (Prefix × DB) := do
  validatePrefixConflicts db vrf_id cidr parent_prefix_id
  dbParentCheck db vrf_id cidr parent_prefix_id
  let pid := "manual-" ++ vrf_id ++ "-" ++ formatCidrForId cidr
  dbInsertPrefix db
    { prefix_id := pid
      vrf_id := vrf_id
      cidr := cidr
      tags := tags
      indentation_level := 0
      parent_prefix_id := parent_prefix_id
      source := .manual
      routable := routable
      vpc_children_type_flag := vpc_children_type_flag
      vpc_id := none }

/-- Python `PrefixManager._tags_match_strictly`: every required key is
present with exactly the required value; no required tags matches
anything. -/
def tagsMatchStrictly (prefix_tags required : Tags) : Bool :=
  List.all required (fun kv => Tags.get prefix_tags kv.1 == some kv.2)

/-- Python `PrefixManager.find_matching_parent_prefixes`: the manual
prefixes of the VRF (restricted to the given id when one is supplied),
filtered by strict tag match, in the order the store returns them — the
query carries no `order_by`. -/
def findMatchingParentPrefixes (db : DB) (vrf_id : String) (tags : Tags)
    (parent_prefix_id : Option String) : List Prefix :=
  let q := List.filter (fun p => p.vrf_id == vrf_id && p.source == Source.manual) db.prefixes
  let q := match parent_prefix_id with
    | some pid => List.filter (fun p => p.prefix_id == pid) q
    | none => q
  List.filter (fun p => tagsMatchStrictly p.tags tags) q

/-- All subnets of mask length `m` inside `parent`, in ascending address
order (Python `parent_network.subnets(new_prefix=m)`). -/
def enumSubnets (parent : Cidr) (m : Nat) : List Cidr :=
  List.map (fun i => { bits := parent.bits, addr := parent.addr + i * 2 ^ (parent.bits - m), len := m })
    (List.range (2 ^ (m - parent.len)))

/-- Python `PrefixManager.calculate_available_subnets`: enumerate the
subnets of the requested size inside the parent in address order and
keep those overlapping no existing child of the parent.  A request whose
mask is shorter than the parent's or longer than the address width makes
`subnets(new_prefix=...)` raise, surfaced as `ValueError`.  When more
than 100 subnets are possible the Python code iterates lazily and stops
after collecting 16 available ones, i.e. it returns the first 16
elements of the same filtered enumeration. -/
def calculateAvailableSubnets (db : DB) (parentPfx : Prefix) (subnet_size : Nat) :
    Except Err (List Cidr) :=
  if subnet_size < parentPfx.cidr.len ∨ parentPfx.cidr.bits < subnet_size then
    .error .invalidSubnetSize
  else
    let existing := List.map (fun p => p.cidr) (db.childrenOf parentPfx.prefix_id)
    let avail := List.filter (fun s => !(List.any existing (fun e => Cidr.overlaps s e)))
      (enumSubnets parentPfx.cidr subnet_size)
    if 2 ^ (subnet_size - parentPfx.cidr.len) > 100 then .ok (List.take 16 avail)
    else .ok avail

/-- The dictionary `allocate_subnet` returns on success. -/
structure Allocation where
  allocated_cidr : Cidr
  parent_prefix_id : String
  prefix_id : String
  available_count : Nat
  parent_cidr : Cidr
  tags : Tags
  routable : Bool
deriving DecidableEq, Repr

/-- The tag map `allocate_subnet` attaches to the prefix it creates: the
request tags, plus `description` when one was supplied, plus
`allocated_from` and `allocation_timestamp` (`now` stands for
`str(datetime.now())`). -/
def allocationTags (tags : Tags) (description : Option String) (parentId now : String) : Tags :=
  let t := match description with
    | some d => Tags.set tags "description" d
    | none => tags
  Tags.set (Tags.set t "allocated_from" parentId) "allocation_timestamp" now

/-- The `for parent in parent_prefixes` loop of `allocate_subnet`: skip
non-routable parents when a routable subnet is required, compute the
available subnets, allocate the first one through `createManualPrefix`,
and on any `ValueError` fall through to the next parent. -/
def allocateFrom (db : DB) (vrf_id : String) (subnet_size : Nat) (tags : Tags)
    (routable : Bool) (description : Option String) (vpc_children_type_flag : Bool)
    (now : String) : List Prefix → Except Err (Allocation × DB)
  | [] => .error .noSpaceAvailable
  | par :: rest =>
    if routable && !par.routable then
      allocateFrom db vrf_id subnet_size tags routable description vpc_children_type_flag now rest
    else
      match calculateAvailableSubnets db par subnet_size with
      | .error _ =>
        allocateFrom db vrf_id subnet_size tags routable description vpc_children_type_flag now rest
      | .ok [] =>
        allocateFrom db vrf_id subnet_size tags routable description vpc_children_type_flag now rest
      | .ok (first :: more) =>
        let subnet_tags := allocationTags tags description par.prefix_id now
        match createManualPrefix db vrf_id first (some par.prefix_id) subnet_tags routable
            vpc_children_type_flag with
        | .error _ =>
          allocateFrom db vrf_id subnet_size tags routable description vpc_children_type_flag now rest
        | .ok (row, db') =>
          .ok ({ allocated_cidr := first
                 parent_prefix_id := par.prefix_id
                 prefix_id := row.prefix_id
                 available_count := (first :: more).length - 1
                 parent_cidr := par.cidr
                 tags := row.tags
                 routable := row.routable }, db')

/-- Python `PrefixManager.allocate_subnet`: resolve the candidate parent
set with `findMatchingParentPrefixes`, fail when it is empty, then walk
it with `allocateFrom`. -/
def allocateSubnet (db : DB) (vrf_id : String) (subnet_size : Nat) (tags : Tags)
    (routable : Bool) (parent_prefix_id : Option String) (description : Option String)
    (vpc_children_type_flag : Bool) (now : String) : Except Err (Allocation × DB) :=
  let parents := findMatchingParentPrefixes db vrf_id tags parent_prefix_id
  if parents.isEmpty then .error (.notFound "parent prefixes")
  else allocateFrom db vrf_id subnet_size tags routable description vpc_children_type_flag now parents

/-- A value carried by one `**kwargs` entry of the update operations.
The typed API layer (`PrefixUpdate` / `VPCUpdate` pydantic models in the
backend) only produces values of the field's own type, which is what the
constructors cover. -/
inductive AttrVal where
  | str (s : String)
  | cidrVal (c : Cidr)
  | tagsVal (t : Tags)
  | boolVal (b : Bool)
deriving DecidableEq, Repr

/-- A `**kwargs` map: each entry is a key with either a value or
Python's `None`. -/
abbrev Kwargs := List (String × Option AttrVal)

/-- Python `setattr(prefix, key, value)` for the attributes a `Prefix`
row has; a key that is not an attribute (`hasattr` false) leaves the row
unchanged. -/
def setPrefixAttr (p : Prefix) (k : String) (v : AttrVal) : Prefix :=
  if k = "prefix_id" then match v with | .str s => { p with prefix_id := s } | _ => p
  else if k = "vrf_id" then match v with | .str s => { p with vrf_id := s } | _ => p
  else if k = "cidr" then match v with | .cidrVal c => { p with cidr := c } | _ => p
  else if k = "tags" then match v with | .tagsVal t => { p with tags := t } | _ => p
  else if k = "parent_prefix_id" then
    match v with | .str s => { p with parent_prefix_id := some s } | _ => p
  else if k = "routable" then match v with | .boolVal b => { p with routable := b } | _ => p
  else if k = "vpc_children_type_flag" then
    match v with | .boolVal b => { p with vpc_children_type_flag := b } | _ => p
  else if k = "vpc_id" then match v with | .str s => { p with vpc_id := some s } | _ => p
  else p

/-- The update loop of `update_manual_prefix`: `if value is not None and
hasattr(prefix, key): setattr(prefix, key, value)`. -/
def applyPrefixKwargs (p : Prefix) (kwargs : Kwargs) : Prefix :=
  List.foldl (fun acc kv =>
    match kv.2 with
    | none => acc
    | some v => setPrefixAttr acc kv.1 v) p kwargs

/-- The attribute names of a `Prefix` row (`hasattr` is true exactly on
these). -/
def prefixAttrNames : List String :=
  ["prefix_id", "vrf_id", "cidr", "tags", "indentation_level", "parent_prefix_id",
   "source", "routable", "vpc_children_type_flag", "vpc_id", "created_at", "updated_at"]

/-- The attribute names of a `VPC` row. -/
def vpcAttrNames : List String :=
  ["vpc_id", "description", "provider", "provider_account_id", "provider_vpc_id",
   "region", "tags"]

/-- A kwargs entry the update loop skips: value `None`, or a key that is
not an attribute of the record. -/
def ignoredEntry (attrs : List String) (kv : String × Option AttrVal) : Bool :=
  kv.2.isNone || !(List.contains attrs kv.1)

/-- Commit of a modified prefix row: the declared constraints again
(primary-key change only when nothing references the row, unique
`(vrf_id, cidr)` against the other rows, the VRF and parent foreign
keys, the source/vpc check).  The row replaces the old one in place. -/
def dbWritePrefix (db : DB) (oldId : String) (p : Prefix) : Except Err DB :=
  if p.prefix_id ≠ oldId ∧
      (List.any db.prefixes (fun q => q.prefix_id == p.prefix_id) ∨
       List.any db.prefixes (fun q => q.parent_prefix_id == some oldId) ∨
       List.any db.associations (fun a => a.parent_prefix_id == oldId)) then
    .error (.constraintViolation "prefix_pkey")
  else if List.any db.prefixes
      (fun q => !(q.prefix_id == oldId) && q.vrf_id == p.vrf_id && q.cidr == p.cidr) then
    .error (.constraintViolation "unique_vrf_cidr")
  else if !(List.any db.vrfs (fun v => v.vrf_id == p.vrf_id)) then
    .error (.constraintViolation "fk_vrf")
  else if !(match p.parent_prefix_id with
            | none => true
            | some pid => (db.findPrefixById pid).isSome) then
    .error (.constraintViolation "fk_parent")
  else if !(sourceVpcCheck p) then
    .error (.constraintViolation "vpc_fields_when_vpc_source")
  else
    let rows := List.map (fun q => if q.prefix_id == oldId then p else q) db.prefixes
    .ok { db with prefixes := rows }

/-- Python `PrefixManager.update_manual_prefix`: look the row up, refuse
VPC-sourced rows, apply the kwargs loop, commit. -/
def updateManualPrefix (db : DB) (pid : String) (kwargs : Kwargs) :
    Except Err (Prefix × DB) :=
  match db.findPrefixById pid with
  | none => .error (.notFound "prefix")
  | some p =>
    if p.source ≠ Source.manual then .error .cannotMutateVpcSourced
    else
      let p' := applyPrefixKwargs p kwargs
      match dbWritePrefix db pid p' with
      | .error e => .error e
      | .ok db' => .ok (p', db')

/-- Python `PrefixManager.delete_manual_prefix`: refuse a missing row, a
VPC-sourced row, or a row with children; the commit then hits the
`vpc_prefix_association.parent_prefix_id` foreign key, which refuses the
delete while any association references the row. -/
def deleteManualPrefix (db : DB) (pid : String) : Except Err DB :=
  match db.findPrefixById pid with
  | none => .error (.notFound "prefix")
  | some p =>
    if p.source ≠ Source.manual then .error .cannotMutateVpcSourced
    else if (db.childrenOf pid).length > 0 then .error .cannotDeleteWithChildren
    else if List.any db.associations (fun a => a.parent_prefix_id == pid) then
      .error (.constraintViolation "fk_association_parent")
    else .ok { db with prefixes := List.filter (fun q => !(q.prefix_id == pid)) db.prefixes }

/-- Python `setattr(vpc, key, value)` for the attributes a `VPC` row
has. -/
def setVpcAttr (v : VPC) (k : String) (a : AttrVal) : VPC :=
  if k = "vpc_id" then match a with | .str s => { v with vpc_id := s } | _ => v
  else if k = "description" then match a with | .str s => { v with description := some s } | _ => v
  else if k = "provider" then match a with | .str s => { v with provider := s } | _ => v
  else if k = "provider_account_id" then
    match a with | .str s => { v with provider_account_id := some s } | _ => v
  else if k = "provider_vpc_id" then match a with | .str s => { v with provider_vpc_id := s } | _ => v
  else if k = "region" then match a with | .str s => { v with region := some s } | _ => v
  else if k = "tags" then match a with | .tagsVal t => { v with tags := t } | _ => v
  else v

/-- The update loop of `update_vpc`. -/
def applyVpcKwargs (v : VPC) (kwargs : Kwargs) : VPC :=
  List.foldl (fun acc kv =>
    match kv.2 with
    | none => acc
    | some a => setVpcAttr acc kv.1 a) v kwargs



/-- Commit of a modified VPC row: primary-key change only when nothing
references the row, and the `(provider, provider_account_id,
provider_vpc_id)` unique constraint. -/
def dbWriteVpc (db : DB) (oldId : String) (v : VPC) : Except Err DB :=
  if v.vpc_id ≠ oldId ∧
      (List.any db.vpcs (fun w => w.vpc_id == v.vpc_id) ∨
       List.any db.prefixes (fun q => q.vpc_id == some oldId) ∨
       List.any db.associations (fun a => a.vpc_id == oldId)) then
    .error (.constraintViolation "vpc_pkey")
  else if List.any db.vpcs (fun w => !(w.vpc_id == oldId) &&
      w.provider == v.provider && w.provider_account_id == v.provider_account_id &&
      w.provider_vpc_id == v.provider_vpc_id) then
    .error (.constraintViolation "unique_provider_vpc")
  else
    .ok { db with vpcs := List.map (fun w => if w.vpc_id == oldId then v else w) db.vpcs }

/-- Python `PrefixManager.update_vpc`: look the row up, apply the kwargs
loop, commit. -/
def updateVpc (db : DB) (vpcId : String) (kwargs : Kwargs) : Except Err (VPC × DB) :=
  match List.find? (fun w => w.vpc_id == vpcId) db.vpcs with
  | none => .error (.notFound "vpc")
  | some v =>
    let v' := applyVpcKwargs v kwargs
    match dbWriteVpc db vpcId v' with
    | .error e => .error e
    | .ok db' => .ok (v', db')

/-- One subnet record as `fetch_vpc_subnets` emits it: native subnet id,
CIDR, availability zone, state and cloud tag map.  One record is emitted
per IPv4 CIDR and one per associated IPv6 CIDR, so the CIDR identifies
the record within its VPC. -/
structure AwsSubnetInfo where
  subnet_id : String
  cidr_block : Cidr
  availability_zone : String
  state : String
  tags : Tags
deriving DecidableEq, Repr

/-- Replace one prefix row (found by primary key) by a new version, as a
`session.commit()` of an attached, modified row does. -/
def replacePrefixRow (db : DB) (pid : String) (p : Prefix) : DB :=
  { db with prefixes := List.map (fun q => if q.prefix_id == pid then p else q) db.prefixes }

/-- Python `AWSVPCSubnetSync._delete_subnet_prefix`: look the row up by
primary key and add the `deleted_from_aws` / `deletion_reason` tombstone
tags — never a hard delete; a missing row is a logged no-op.  `now`
stands for `datetime.utcnow().isoformat()`.  `tombstonedRow` is the row
as rewritten (same primary key, only the tags change). -/
def tombstonedRow (now : String) (p : Prefix) : Prefix :=
  let t := Tags.set (Tags.set p.tags "deleted_from_aws" now) "deletion_reason" "aws_subnet_not_found"
  { p with tags := t }

def tombstoneSubnetPrefix (now : String) (db : DB) (pid : String) : DB :=
  match db.findPrefixById pid with
  | none => db
  | some p => replacePrefixRow db pid (tombstonedRow now p)

/-- Python `AWSVPCSubnetSync._update_subnet_prefix`: find the stored
`source='vpc'` row of this VPC with the reported CIDR, refresh the AWS
metadata tags, and when the row carries a `deleted_from_aws` marker
strip the deletion markers and record `resurrected_at` (a
resurrection).  `updatedSubnetRow` is the rewritten row (same primary
key, only the tags change). -/
def updatedSubnetRow (now : String) (s : AwsSubnetInfo) (p : Prefix) : Prefix :=
  let was_deleted := (Tags.get p.tags "deleted_from_aws").isSome
  let t1 := Tags.set (Tags.set (Tags.set (Tags.set p.tags "aws_subnet_id" s.subnet_id)
    "availability_zone" s.availability_zone) "state" s.state) "last_sync" now
  let t2 := if was_deleted then
      Tags.set (Tags.erase (Tags.erase t1 "deleted_from_aws") "deletion_reason") "resurrected_at" now
    else t1
  { p with tags := t2 }

def updateSubnetPrefix (now : String) (db : DB) (vpcId : String) (s : AwsSubnetInfo) : DB :=
  match List.find? (fun p => p.vpc_id == some vpcId && p.cidr == s.cidr_block &&
      p.source == Source.vpc) db.prefixes with
  | none => db
  | some p => replacePrefixRow db p.prefix_id (updatedSubnetRow now s p)

/-- The primary keys of a list of prefix rows. -/
def prefixIds (rows : List Prefix) : List String :=
  List.map (fun p => p.prefix_id) rows

/-- Python `AWSVPCSubnetSync._ensure_vpc_vrf`: make sure the
`{provider}_{account}_{provider_vpc_id}` VRF exists, creating it
non-routable when missing; returns its id. -/
def ensureVpcVrf (db : DB) (vpc : VPC) : String × DB :=
  let name := vpc.provider ++ "_" ++ (vpc.provider_account_id.getD "unknown") ++ "_" ++ vpc.provider_vpc_id
  if List.any db.vrfs (fun v => v.vrf_id == name) then (name, db)
  else
    (name, { db with vrfs := db.vrfs ++
      [{ vrf_id := name
         description := some ("Auto VRF for " ++ vpc.provider ++ " VPC " ++ vpc.provider_vpc_id)
         tags := []
         routable_flag := false
         is_default := false }] })

/-- The VRF the discovered subnet is placed into: the parent prefix's
VRF for a routable association, the (possibly freshly created)
VPC-specific VRF for a non-routable one, the `prod-vrf` default
otherwise. -/
def subnetVrfPlacement (db : DB) (vpc : VPC) (vpcCidrPfx : Option Prefix)
    (usable routableFlag : Bool) : String × DB :=
  match vpcCidrPfx, usable, routableFlag with
  | some pfx, true, true => (pfx.vrf_id, db)
  | some _, true, false => ensureVpcVrf db vpc
  | _, _, _ => ("prod-vrf", db)

/-- The metadata tags `_create_subnet_prefix` stacks on top of the cloud
tags of a discovered subnet.  `now` stands for
`datetime.utcnow().isoformat()`. -/
def subnetSyncTags (now : String) (s : AwsSubnetInfo) : Tags :=
  Tags.set (Tags.set (Tags.set (Tags.set (Tags.set s.tags "aws_subnet_id" s.subnet_id)
    "availability_zone" s.availability_zone) "state" s.state)
    "sync_source" "aws_auto_sync") "last_sync" now

/-- Python `AWSVPCSubnetSync._create_subnet_prefix`: derive the
`{vpc_id}-subnet-{dashed cidr}` identifier, resolve the parent through
the VPC's association (dropping it when the subnet is not contained in
the association CIDR), inherit routability and VRF placement from the
association (creating the VPC-specific VRF for non-routable subnets),
and insert the `source='vpc'` row (`subnetRowFor` builds the row and
does the VRF bookkeeping, `createSubnetPrefix` performs the insert).
Any error of the insert is caught and logged, leaving the state as it
was after the VRF bookkeeping. -/
def subnetRowFor (now : String) (db : DB) (vpc : VPC) (s : AwsSubnetInfo) : Prefix × DB :=
  let pid := vpc.vpc_id ++ "-subnet-" ++ formatCidrForId s.cidr_block
  let assoc := List.find? (fun a => a.vpc_id == vpc.vpc_id) db.associations
  let vpcCidrPfx : Option Prefix := match assoc with
    | none => none
    | some a => List.find? (fun p => p.cidr == a.vpc_prefix_cidr && p.vrf_id == "prod-vrf") db.prefixes
  let contained := match assoc with
    | none => false
    | some a => Cidr.subnetOf s.cidr_block a.vpc_prefix_cidr
  let parentId := match vpcCidrPfx with
    | none => none
    | some pfx => if contained then some pfx.prefix_id else none
  let usable := assoc.isSome && vpcCidrPfx.isSome && contained
  let routableFlag := match assoc, usable with
    | some a, true => a.routable
    | _, _ => true
  let vrfAndDb := subnetVrfPlacement db vpc vpcCidrPfx usable routableFlag
  let db1 := vrfAndDb.2
  let row : Prefix :=
    { prefix_id := pid
      vrf_id := vrfAndDb.1
      cidr := s.cidr_block
      tags := subnetSyncTags now s
      indentation_level := 0
      parent_prefix_id := parentId
      source := .vpc
      routable := routableFlag
      vpc_children_type_flag := false
      vpc_id := some vpc.vpc_id }
  (row, db1)

def createSubnetPrefix (now : String) (db : DB) (vpc : VPC) (s : AwsSubnetInfo) : DB :=
  let rd := subnetRowFor now db vpc s
  match dbInsertPrefix rd.2 rd.1 with
  | .error _ => rd.2
  | .ok (_, db2) => db2

/-- Python `AWSVPCSubnetSync.sync_vpc_subnets`: load the stored
`source='vpc'` rows of the VPC, classify the cloud report against them
by CIDR, then create the new subnets, tombstone the disappeared ones and
refresh the still-present ones, in that order. -/
def syncVpcSubnets (now : String) (db : DB) (vpc : VPC) (aws_subnets : List AwsSubnetInfo) : DB :=
  let existing := List.filter
    (fun p => p.vpc_id == some vpc.vpc_id && p.source == Source.vpc) db.prefixes
  let existing_cidrs := List.map (fun p => p.cidr) existing
  let aws_cidrs := List.map (fun s => s.cidr_block) aws_subnets
  let new_subnets := List.filter (fun s => !(List.contains existing_cidrs s.cidr_block)) aws_subnets
  let deleted := List.filter (fun p => !(List.contains aws_cidrs p.cidr)) existing
  let upd := List.filter (fun s => List.contains existing_cidrs s.cidr_block) aws_subnets
  let db1 := List.foldl (fun d s => createSubnetPrefix now d vpc s) db new_subnets
  let db2 := List.foldl (fun d p => tombstoneSubnetPrefix now d p.prefix_id) db1 deleted
  List.foldl (fun d s => updateSubnetPrefix now d vpc.vpc_id s) db2 upd

/-- What one cycle observes about one VPC: the reachability probe's
outcome and, when reachable, the reported subnet records.
`fetch_vpc_subnets` returns `([], False)` whenever the describe call (or
anything after it) raises. -/
structure CloudReport where
  reachable : Bool
  subnets : List AwsSubnetInfo
deriving DecidableEq, Repr

/-- Python `AWSVPCSubnetSync.run_sync_cycle`: walk the AWS VPC registry;
an unreachable VPC is skipped entirely (no tombstoning, no creates, no
updates), a reachable one is synced. -/
def runSyncCycle (now : String) (db : DB) (report : String → CloudReport) : DB :=
  let registry := List.filter (fun v => v.provider == "aws") db.vpcs
  List.foldl (fun d vpc =>
    let r := report vpc.provider_vpc_id
    if !r.reachable then d else syncVpcSubnets now d vpc r.subnets) db registry

/-- The mutating operations of the engine, as data, so that statements
can quantify over operation sequences.  A sync cycle carries its cloud
observations as an association list from `provider_vpc_id` to report; a
VPC absent from the list counts as unreachable, exactly what
`fetch_vpc_subnets` reports when the describe call fails. -/
inductive Op where
  | createManual (vrf_id : String) (cidr : Cidr) (parent_prefix_id : Option String)
      (tags : Tags) (routable : Bool) (vpc_children_type_flag : Bool)
  | allocate (vrf_id : String) (subnet_size : Nat) (tags : Tags) (routable : Bool)
      (parent_prefix_id : Option String) (description : Option String)
      (vpc_children_type_flag : Bool) (now : String)
  | updateManual (pid : String) (kwargs : Kwargs)
  | updateVpcOp (vpcId : String) (kwargs : Kwargs)
  | deleteManual (pid : String)
  | syncCycle (now : String) (reports : List (String × CloudReport))
deriving Repr

/-- Reading the per-VPC observation out of a cycle's report list. -/
def reportFor (reports : List (String × CloudReport)) (providerVpcId : String) : CloudReport :=
  match List.find? (fun r => r.1 == providerVpcId) reports with
  | some r => r.2
  | none => { reachable := false, subnets := [] }

/-- Effect of one operation on the store.  A failing operation leaves
the state unchanged — every Python operation validates before its
single commit, and a raised error rolls the transaction back. -/
def applyOp (db : DB) : Op → DB
  | .createManual vrf cidr parent tags routable flag =>
    match createManualPrefix db vrf cidr parent tags routable flag with
    | .ok (_, db') => db'
    | .error _ => db
  | .allocate vrf size tags routable parent description flag now =>
    match allocateSubnet db vrf size tags routable parent description flag now with
    | .ok (_, db') => db'
    | .error _ => db
  | .updateManual pid kwargs =>
    match updateManualPrefix db pid kwargs with
    | .ok (_, db') => db'
    | .error _ => db
  | .updateVpcOp vpcId kwargs =>
    match updateVpc db vpcId kwargs with
    | .ok (_, db') => db'
    | .error _ => db
  | .deleteManual pid =>
    match deleteManualPrefix db pid with
    | .ok db' => db'
    | .error _ => db
  | .syncCycle now reports => runSyncCycle now db (reportFor reports)

/-- Effect of an operation sequence, first operation first. -/
def applyOps (db : DB) (ops : List Op) : DB :=
  List.foldl applyOp db ops

/-- Whether an update's kwargs touch `parent_prefix_id`: the one kind of
entry that re-parents a prefix after creation. -/
def reparents (kwargs : Kwargs) : Bool :=
  List.any kwargs (fun kv => kv.1 == "parent_prefix_id" && kv.2.isSome)

/-- Operations that never change the parent of an existing prefix:
everything except an update whose kwargs supply `parent_prefix_id`. -/
def preservesParents : Op → Bool
  | .updateManual _ kwargs => !(reparents kwargs)
  | _ => true

/-- Distance from a prefix to the root of its tree, following
`parent_prefix_id` links; the fuel argument bounds the walk (the number
of stored rows always suffices on well-formed states). -/
def distToRoot (db : DB) : Nat → Prefix → Nat
  | 0, _ => 0
  | fuel + 1, p =>
    match p.parent_prefix_id with
    | none => 0
    | some pid =>
      match db.findPrefixById pid with
      | none => 0
      | some q => distToRoot db fuel q + 1

/-- The indentation invariant as a local property: roots carry 0 and
every child row points at an existing parent row and carries the
parent's level plus one; prefix identifiers are unique (primary key). -/
def IndentInv (db : DB) : Prop :=
  (List.map (fun p => p.prefix_id) db.prefixes).Nodup ∧
  ∀ p ∈ db.prefixes,
    (p.parent_prefix_id = none → p.indentation_level = 0) ∧
    (∀ pid, p.parent_prefix_id = some pid →
      ∃ q ∈ db.prefixes, q.prefix_id = pid ∧ p.indentation_level = q.indentation_level + 1)

mutual

/-- JSON values, the shape of request parameters and responses, as a
mutual family so that every function on them is structurally recursive.
Numbers are integers: the request bodies the façade hashes carry
strings, booleans, integers, nulls, arrays and objects. -/
inductive Json where
  | null
  | boolVal (b : Bool)
  | num (n : Int)
  | str (s : String)
  | arr (xs : JsonList)
  | obj (fields : JsonFields)

/-- Spine of a JSON array. -/
inductive JsonList where
  | nil
  | cons (hd : Json) (tl : JsonList)

/-- Spine of a JSON object: ordered key/value fields, as a Python dict
is ordered. -/
inductive JsonFields where
  | nil
  | cons (k : String) (v : Json) (tl : JsonFields)

end

/-- The keys of an object, in order. -/
def JsonFields.keys : JsonFields → List String
  | .nil => []
  | .cons k _ tl => k :: JsonFields.keys tl

/-- The fields of an object as a list of pairs. -/
def JsonFields.toList : JsonFields → List (String × Json)
  | .nil => []
  | .cons k v tl => (k, v) :: JsonFields.toList tl

/-- Escape of one character inside a JSON string literal, as
`json.dumps` with its default `ensure_ascii=True` renders it. -/
def jsonEscapeChar (c : Char) : String :=
  if c = '"' then "\\\""
  else if c = '\\' then "\\\\"
  else if c = '\n' then "\\n"
  else if c = '\t' then "\\t"
  else if c = '\r' then "\\r"
  else if c.toNat = 8 then "\\b"
  else if c.toNat = 12 then "\\f"
  else if c.toNat < 32 then "\\u" ++ hexFixed 4 c.toNat
  else if c.toNat < 128 then String.mk [c]
  else if c.toNat < 65536 then "\\u" ++ hexFixed 4 c.toNat
  else
    "\\u" ++ hexFixed 4 (55296 + (c.toNat - 65536) / 1024) ++
      "\\u" ++ hexFixed 4 (56320 + (c.toNat - 65536) % 1024)

/-- A JSON string literal. -/
def jsonQuote (s : String) : String :=
  "\"" ++ String.join (List.map jsonEscapeChar s.data) ++ "\""

mutual

/-- Python `json.dumps(x, sort_keys=True)` with the default separators:
arrays joined by `", "`, objects rendered with their keys sorted and
`": "` between key and value.  Sorting the serialized `(key, rendering)`
pairs by key produces the same text as sorting the keys first, since the
comparison only reads the key. -/
def Json.dumps : Json → String
  | .null => "null"
  | .boolVal true => "true"
  | .boolVal false => "false"
  | .num n => toString n
  | .str s => jsonQuote s
  | .arr xs => "[" ++ String.intercalate ", " (JsonList.dumpsList xs) ++ "]"
  | .obj fs =>
    let sorted := List.insertionSort (fun a b => a.1 ≤ b.1) (JsonFields.render fs)
    "\x7b" ++ String.intercalate ", "
      (List.map (fun kv => jsonQuote kv.1 ++ ": " ++ kv.2) sorted) ++ "\x7d"

/-- Renderings of the elements of an array, in order. -/
def JsonList.dumpsList : JsonList → List String
  | .nil => []
  | .cons x xs => Json.dumps x :: JsonList.dumpsList xs

/-- The `(key, rendered value)` pairs of an object, in field order. -/
def JsonFields.render : JsonFields → List (String × String)
  | .nil => []
  | .cons k v tl => (k, Json.dumps v) :: JsonFields.render tl

end

mutual

/-- Keys of every object in the value are distinct, recursively — true
of anything produced from Python dictionaries. -/
def Json.wfKeys : Json → Bool
  | .null => true
  | .boolVal _ => true
  | .num _ => true
  | .str _ => true
  | .arr xs => JsonList.wfList xs
  | .obj fs => decide (List.Nodup (JsonFields.keys fs)) && JsonFields.wfValues fs

/-- `Json.wfKeys` on every element of an array. -/
def JsonList.wfList : JsonList → Bool
  | .nil => true
  | .cons x xs => Json.wfKeys x && JsonList.wfList xs

/-- `Json.wfKeys` on every field value of an object. -/
def JsonFields.wfValues : JsonFields → Bool
  | .nil => true
  | .cons _ v tl => Json.wfKeys v && JsonFields.wfValues tl

end

mutual

/-- Two JSON values equal up to the order of object keys: identical
scalars, pointwise-related arrays, and objects whose field lists agree
pointwise on keys and related values after a permutation. -/
def KeyOrderEq : Json → Json → Prop
  | .null, .null => True
  | .boolVal a, .boolVal b => a = b
  | .num a, .num b => a = b
  | .str a, .str b => a = b
  | .arr xs, .arr ys => KeyOrderEqList xs ys
  | .obj fs, .obj gs => ∃ mid, KeyOrderEqFields fs mid ∧ List.Perm mid (JsonFields.toList gs)
  | _, _ => False

/-- Pointwise `KeyOrderEq` on array elements. -/
def KeyOrderEqList : JsonList → JsonList → Prop
  | .nil, .nil => True
  | .cons x xs, .cons y ys => KeyOrderEq x y ∧ KeyOrderEqList xs ys
  | _, _ => False

/-- Pointwise agreement of an object's fields with a pair list: equal
keys in order, `KeyOrderEq`-related values. -/
def KeyOrderEqFields : JsonFields → List (String × Json) → Prop
  | .nil, [] => True
  | .cons k v tl, m :: rest => m.1 = k ∧ KeyOrderEq v m.2 ∧ KeyOrderEqFields tl rest
  | _, _ => False

end

/-- UTF-8 encoding of one character (`str.encode()` in Python); the
continuation bytes each carry six payload bits. -/
def utf8EncodeChar (c : Char) : List Nat :=
  let n := c.toNat
  let cont := fun k => 128 + n / 64 ^ k % 64
  if n ≤ 127 then [n]
  else if n ≤ 2047 then [192 + n / 64, cont 0]
  else if n ≤ 65535 then [224 + n / 4096, cont 1, cont 0]
  else [240 + n / 262144, cont 2, cont 1, cont 0]

/-- UTF-8 bytes of a string. -/
def strUtf8 (s : String) : List Nat :=
  List.flatten (List.map utf8EncodeChar s.data)

/-- Truncation to a 32-bit word. -/
def w32 (n : Nat) : Nat := n % 2 ^ 32

/-- Right rotation of a 32-bit word, phrased arithmetically: the low
`k` bits move to the top. -/
def spin (x k : Nat) : Nat :=
  let y := w32 x
  y / 2 ^ k + y % 2 ^ k * 2 ^ (32 - k)

/-- SHA-256 choice function: each bit of `e` selects between the
corresponding bits of `f` and `g`. -/
def chooseBits (e f g : Nat) : Nat := g ^^^ (e &&& (f ^^^ g))

/-- SHA-256 majority vote of three words. -/
def voteBits (a b c : Nat) : Nat := (b &&& c) ^^^ (a &&& (b ^^^ c))

/-- Capital sigma-0 state mixer. -/
def mixA (x : Nat) : Nat := spin x 2 ^^^ spin x 13 ^^^ spin x 22

/-- Capital sigma-1 state mixer. -/
def mixE (x : Nat) : Nat := spin x 6 ^^^ spin x 11 ^^^ spin x 25

/-- Lowercase sigma-0 schedule mixer (the last term is a plain shift). -/
def mixW0 (x : Nat) : Nat := spin x 7 ^^^ spin x 18 ^^^ x / 8

/-- Lowercase sigma-1 schedule mixer. -/
def mixW1 (x : Nat) : Nat := spin x 17 ^^^ spin x 19 ^^^ x / 1024

/-- The 64 SHA-256 round constants (fractional parts of the cube roots
of the first 64 primes), written in decimal. -/
def roundK : List Nat :=
  [1116352408, 1899447441, 3049323471, 3921009573,
   961987163, 1508970993, 2453635748, 2870763221,
   3624381080, 310598401, 607225278, 1426881987,
   1925078388, 2162078206, 2614888103, 3248222580,
   3835390401, 4022224774, 264347078, 604807628,
   770255983, 1249150122, 1555081692, 1996064986,
   2554220882, 2821834349, 2952996808, 3210313671,
   3336571891, 3584528711, 113926993, 338241895,
   666307205, 773529912, 1294757372, 1396182291,
   1695183700, 1986661051, 2177026350, 2456956037,
   2730485921, 2820302411, 3259730800, 3345764771,
   3516065817, 3600352804, 4094571909, 275423344,
   430227734, 506948616, 659060556, 883997877,
   958139571, 1322822218, 1537002063, 1747873779,
   1955562222, 2024104815, 2227730452, 2361852424,
   2428436474, 2756734187, 3204031479, 3329325298]

/-- The initial eight-word hash state (fractional parts of the square
roots of the first 8 primes), written in decimal. -/
def hashInit : List Nat :=
  [1779033703, 3144134277, 1013904242, 2773480762,
   1359893119, 2600822924, 528734635, 1541459225]

/-- A number as `k` big-endian bytes, assembled least significant
last. -/
def lenField : Nat → Nat → List Nat
  | 0, _ => []
  | k + 1, n => lenField k (n / 256) ++ [n % 256]

/-- SHA-256 message padding: one `0x80` byte, zeros until the running
length is 56 modulo 64, then the bit length as 8 big-endian bytes. -/
def padBytes (msg : List Nat) : List Nat :=
  let zeros := (64 - (msg.length + 9) % 64) % 64
  msg ++ (128 :: List.replicate zeros 0) ++ lenField 8 (8 * msg.length)

/-- Split into 64-byte blocks; the first argument bounds the recursion
and the byte count always suffices. -/
def blockSplit : Nat → List Nat → List (List Nat)
  | 0, _ => []
  | fuel + 1, l =>
    if l.isEmpty then [] else List.take 64 l :: blockSplit fuel (List.drop 64 l)

/-- Big-endian bytes, four at a time, become 32-bit words. -/
def packWords : List Nat → List Nat
  | b0 :: b1 :: b2 :: b3 :: rest =>
    (((b0 * 256 + b1) * 256 + b2) * 256 + b3) :: packWords rest
  | _ => []

/-- One schedule word from the sliding 16-word window: positions 0, 1,
9 and 14 are the words 16, 15, 7 and 2 places back. -/
def nextWord (window : List Nat) : Nat :=
  w32 (List.getD window 0 0 + mixW0 (List.getD window 1 0) +
    List.getD window 9 0 + mixW1 (List.getD window 14 0))

/-- Produce `n` further schedule words, sliding the window and
appending each new word to the accumulated schedule. -/
def schedLoop : Nat → List Nat → List Nat → List Nat
  | 0, _, acc => acc
  | n + 1, window, acc =>
    let w := nextWord window
    schedLoop n (List.drop 1 window ++ [w]) (acc ++ [w])

/-- The 64-word message schedule of one block. -/
def schedule (ws : List Nat) : List Nat := schedLoop 48 ws ws

/-- One compression round on the eight working variables. -/
def stepRound (st : List Nat) (k w : Nat) : List Nat :=
  match st with
  | [a, b, c, d, e, f, g, h] =>
    let x := w32 (h + mixE e + chooseBits e f g + k + w)
    let y := w32 (mixA a + voteBits a b c)
    [w32 (x + y), a, b, c, w32 (d + x), e, f, g]
  | other => other

/-- Compress one 64-byte block into the running eight-word hash. -/
def crunch (hs block : List Nat) : List Nat :=
  let ws := schedule (packWords block)
  let fin := List.foldl (fun st kw => stepRound st kw.1 kw.2) hs (List.zip roundK ws)
  List.map (fun hv => w32 (hv.1 + hv.2)) (List.zip hs fin)

/-- SHA-256 digest of a byte list, as eight 32-bit words. -/
def digestWords (msg : List Nat) : List Nat :=
  let padded := padBytes msg
  List.foldl crunch hashInit (blockSplit padded.length padded)

/-- Python `hashlib.sha256(s.encode()).hexdigest()`. -/
def sha256Hex (s : String) : String :=
  String.join (List.map (hexFixed 8) (digestWords (strUtf8 s)))

/-- Removal of the `request_id` field of an object. -/
def JsonFields.eraseRequestId : JsonFields → JsonFields
  | .nil => .nil
  | .cons k v tl =>
    if k == "request_id" then JsonFields.eraseRequestId tl
    else .cons k v (JsonFields.eraseRequestId tl)

/-- Python `IdempotencyService._calculate_request_hash`: drop the
`request_id` key from the parameter object before serialising. -/
def stripRequestId : Json → Json
  | .obj fs => .obj (JsonFields.eraseRequestId fs)
  | j => j

/-- Python `IdempotencyService._calculate_request_hash`: SHA-256 of the
canonical (`sort_keys=True`) JSON rendering of the parameters without
`request_id`. -/
def calculateRequestHash (params : Json) : String :=
  sha256Hex (Json.dumps (stripRequestId params))

/-- A row of the `idempotency_record` table.  `expires_at` is the
sentinel far-future timestamp and never read, so it is omitted. -/
structure IdemRecord where
  request_id : String
  endpoint : String
  method : String
  request_hash : String
  request_params : Json
  response_data : Json
  status_code : Nat

/-- Python `IdempotencyService.check_idempotency`: no record means the
request is new; a record with a different endpoint/method or parameter
hash is a `ParameterMismatch`; otherwise the stored response and status
are returned verbatim. -/
def checkIdempotency (recs : List IdemRecord) (request_id endpoint method : String)
    (params : Json) : Except String (Option (Json × Nat)) :=
  match List.find? (fun r => r.request_id == request_id) recs with
  | none => .ok none
  | some r =>
    if r.endpoint ≠ endpoint ∨ r.method ≠ method then .error "parameter_mismatch"
    else if r.request_hash ≠ calculateRequestHash params then .error "parameter_mismatch"
    else .ok (some (r.response_data, r.status_code))

/-- Python `IdempotencyService.store_response`: insert the record; a
unique-key race (`IntegrityError`) is swallowed, leaving the earlier
record in place. -/
def storeResponse (recs : List IdemRecord) (request_id endpoint method : String)
    (params : Json) (response : Json) (status : Nat) : List IdemRecord :=
  if List.any recs (fun r => r.request_id == request_id) then recs
  else recs ++ [{ request_id := request_id, endpoint := endpoint, method := method,
                  request_hash := calculateRequestHash params, request_params := params,
                  response_data := response, status_code := status }]

/-- Python `IdempotencyManager.process_request` for a client-supplied
request id, over an abstract mutable state `σ`: a cached response is
returned without running the processor; a mismatch raises (HTTP 409)
without running it; a fresh id runs the processor once, stores the
outcome with status 200 and returns it.  The result carries the record
table, the mutable state and the response or error. -/
def processRequest {σ : Type} (recs : List IdemRecord) (st : σ)
    (request_id endpoint method : String) (params : Json) (proc : σ → Json × σ) :
    List IdemRecord × σ × Except String (Json × Nat) :=
  match checkIdempotency recs request_id endpoint method params with
  | .error e => (recs, st, .error e)
  | .ok (some cached) => (recs, st, .ok cached)
  | .ok none =>
    let out := proc st
    let recs1 := storeResponse recs request_id endpoint method params out.1 200
    (recs1, out.2, .ok (out.1, 200))

/-- Whether a kwargs map supplies a non-`None` value under the key. -/
def providesValue (kwargs : Kwargs) (key : String) : Bool :=
  List.any kwargs (fun e => e.1 == key && e.2.isSome)

/-! ### Witness fixtures -/

/-- A routable VRF row used by concrete instances. -/
def vrfV : VRF :=
  { vrf_id := "v", description := none, tags := [], routable_flag := true, is_default := false }

/-- 10.0.0.0/24. -/
def cidr24 : Cidr := { bits := 32, addr := 167772160, len := 24 }

/-- 10.0.0.0/23 — contains `cidr24`, not contained in it. -/
def cidr23 : Cidr := { bits := 32, addr := 167772160, len := 23 }

/-- A manual root prefix `10.0.0.0/24` in VRF `v`. -/
def rowP : Prefix :=
  { prefix_id := "p", vrf_id := "v", cidr := cidr24, tags := [], indentation_level := 0,
    parent_prefix_id := none, source := .manual, routable := true,
    vpc_children_type_flag := false, vpc_id := none }

/-- A store holding `vrfV` and `rowP`. -/
def dbP : DB := { vrfs := [vrfV], vpcs := [], prefixes := [rowP], associations := [] }

/-- A kwargs map exercising the update loop: one well-typed entry, one
`None` entry, one unknown key. -/
def kwargsW : Kwargs :=
  [("routable", some (.boolVal false)), ("description", none), ("bogus", some (.str "x"))]

/-- `rowP` after `kwargsW`: only `routable` changes. -/
def rowPupd : Prefix := { rowP with routable := false }

/-- `dbP` after updating `rowP` with `kwargsW`. -/
def dbPupd : DB := { dbP with prefixes := [rowPupd] }

/-- A manual root `10.0.0.0/24` (short mask) listed first in the store. -/
def rowA : Prefix :=
  { prefix_id := "a", vrf_id := "v", cidr := { bits := 32, addr := 167772160, len := 24 },
    tags := [], indentation_level := 0, parent_prefix_id := none, source := .manual,
    routable := true, vpc_children_type_flag := false, vpc_id := none }

/-- A manual root `10.1.0.0/28` (long mask) listed second. -/
def rowB : Prefix :=
  { prefix_id := "b", vrf_id := "v", cidr := { bits := 32, addr := 167837696, len := 28 },
    tags := [], indentation_level := 0, parent_prefix_id := none, source := .manual,
    routable := true, vpc_children_type_flag := false, vpc_id := none }

/-- A store with the two candidate parents in insertion order `[A, B]`. -/
def dbC5 : DB := { vrfs := [vrfV], vpcs := [], prefixes := [rowA, rowB], associations := [] }

/-- The allocation the code produces on `dbC5` for a `/30` request: the
first-listed parent `a`, not the most specific one. -/
def allocC5 : Allocation :=
  { allocated_cidr := { bits := 32, addr := 167772160, len := 30 },
    parent_prefix_id := "a", prefix_id := "manual-v-10-0-0-0-30",
    available_count := 63, parent_cidr := { bits := 32, addr := 167772160, len := 24 },
    tags := [("allocated_from", "a"), ("allocation_timestamp", "t")], routable := true }

/-- The row that allocation creates. -/
def rowC5new : Prefix :=
  { prefix_id := "manual-v-10-0-0-0-30", vrf_id := "v",
    cidr := { bits := 32, addr := 167772160, len := 30 },
    tags := [("allocated_from", "a"), ("allocation_timestamp", "t")],
    indentation_level := 1, parent_prefix_id := some "a", source := .manual,
    routable := true, vpc_children_type_flag := false, vpc_id := none }

/-- `dbC5` after the allocation. -/
def dbC5after : DB := { dbC5 with prefixes := [rowA, rowB, rowC5new] }

/-- The VPC registry entry for the sync fixtures. -/
def vpcC8 : VPC :=
  { vpc_id := "V1", description := none, provider := "aws",
    provider_account_id := some "123", provider_vpc_id := "vpc-abc",
    region := some "us-east-1", tags := [] }

/-- A stored `source='vpc'` subnet row of `vpcC8`. -/
def rowP8 : Prefix :=
  { prefix_id := "p8", vrf_id := "prod-vrf", cidr := cidr24, tags := [],
    indentation_level := 0, parent_prefix_id := none, source := .vpc,
    routable := true, vpc_children_type_flag := false, vpc_id := some "V1" }

/-- A store holding only `rowP8`. -/
def dbC8 : DB := { vrfs := [vrfV], vpcs := [vpcC8], prefixes := [rowP8], associations := [] }

/-- `rowP8` already tombstoned by an earlier cycle. -/
def rowP8t : Prefix :=
  { rowP8 with tags := [("deleted_from_aws", "t1"), ("deletion_reason", "aws_subnet_not_found")] }

/-- A store holding the tombstoned row. -/
def dbC8t : DB := { dbC8 with prefixes := [rowP8t] }

/-- The cloud report record re-announcing `rowP8`'s CIDR. -/
def subC8 : AwsSubnetInfo :=
  { subnet_id := "subnet-1", cidr_block := cidr24, availability_zone := "us-east-1a",
    state := "available", tags := [] }

/-- A cycle-wide report marking every VPC unreachable. -/
def repC9 : String → CloudReport := fun _ => { reachable := false, subnets := [] }


/-- An empty store holding only the VRF `v`, the base state of the C6
operation sequences. -/
def dbV0 : DB := { vrfs := [vrfV], vpcs := [], prefixes := [], associations := [] }

/-- Four manual creates (a `/8` root, a `/10` and `/12` under it, a
`/16` under the `/12`), then a re-parenting update: the `/12` is moved
under the `/10` through `update_manual_prefix`, which never recomputes
`indentation_level`. -/
def opsC6 : List Op :=
  [ .createManual "v" { bits := 32, addr := 167772160, len := 8 } none [] true false,
    .createManual "v" { bits := 32, addr := 167772160, len := 10 }
      (some "manual-v-10-0-0-0-8") [] true false,
    .createManual "v" { bits := 32, addr := 171966464, len := 12 }
      (some "manual-v-10-0-0-0-8") [] true false,
    .createManual "v" { bits := 32, addr := 171966464, len := 16 }
      (some "manual-v-10-64-0-0-12") [] true false,
    .updateManual "manual-v-10-64-0-0-12"
      [("parent_prefix_id", some (.str "manual-v-10-0-0-0-10"))] ]

/-- The same sequence without the re-parenting update. -/
def opsC6w : List Op :=
  [ .createManual "v" { bits := 32, addr := 167772160, len := 8 } none [] true false,
    .createManual "v" { bits := 32, addr := 167772160, len := 10 }
      (some "manual-v-10-0-0-0-8") [] true false,
    .createManual "v" { bits := 32, addr := 171966464, len := 12 }
      (some "manual-v-10-0-0-0-8") [] true false,
    .createManual "v" { bits := 32, addr := 171966464, len := 16 }
      (some "manual-v-10-64-0-0-12") [] true false ]


/-- An empty idempotency record table. -/
def recsC3 : List IdemRecord := []

/-- A request parameter map carrying its `request_id`. -/
def paramsC3 : Json :=
  .obj (.cons "request_id" (.str "r1")
    (.cons "vrf_id" (.str "v") (.cons "cidr" (.str "10.0.0.0/24") .nil)))

/-- A processor over a counter state: returns a response and bumps the
counter, so a re-execution is visible in the state. -/
def procC3 : Nat → Json × Nat := fun n => (.str "created", n + 1)

/-! ### Theorems -/

theorem allocateFrom_ok {db : DB} {vrf : String} {size : Nat} {tags : Tags}
    {routable : Bool} {desc : Option String} {flag : Bool} {now : String}
    {parents : List Prefix} {alloc : Allocation} {db2 : DB}
    (h : allocateFrom db vrf size tags routable desc flag now parents = .ok (alloc, db2)) :
    ∃ par more row, par ∈ parents ∧
      alloc.parent_prefix_id = par.prefix_id ∧
      alloc.parent_cidr = par.cidr ∧
      (routable = true → par.routable = true) ∧
      calculateAvailableSubnets db par size = .ok (alloc.allocated_cidr :: more) ∧
      alloc.available_count = more.length ∧
      createManualPrefix db vrf alloc.allocated_cidr (some par.prefix_id)
        (allocationTags tags desc par.prefix_id now) routable flag = .ok (row, db2) ∧
      alloc.prefix_id = row.prefix_id ∧ alloc.tags = row.tags ∧ alloc.routable = row.routable := by
  induction parents with
  | nil => exact absurd h (by unfold allocateFrom; simp)
  | cons par rest ih =>
    unfold allocateFrom at h
    split at h
    · rename_i hskip
      obtain ⟨p2, m2, r2, hmem, hrest⟩ := ih h
      refine ⟨p2, m2, r2, List.mem_cons_of_mem _ hmem, ?_⟩
      rcases hrest with ⟨h1, h2, h3, h4, h5, h6, h7, h8⟩
      have hnr : ¬ (routable = true → p2.routable = true) ∨ True := Or.inr trivial
      refine ⟨h1, h2, ?_, h4, h5, h6, h7, h8⟩
      intro hr
      exact h3 hr
    · rename_i hskip
      split at h
      · obtain ⟨p2, m2, r2, hmem, hrest⟩ := ih h
        exact ⟨p2, m2, r2, List.mem_cons_of_mem _ hmem, hrest⟩
      · rename_i hcalc
        obtain ⟨p2, m2, r2, hmem, hrest⟩ := ih h
        exact ⟨p2, m2, r2, List.mem_cons_of_mem _ hmem, hrest⟩
      · rename_i first more hcalc
        dsimp only at h
        split at h
        · obtain ⟨p2, m2, r2, hmem, hrest⟩ := ih h
          exact ⟨p2, m2, r2, List.mem_cons_of_mem _ hmem, hrest⟩
        · rename_i row db' hcreate
          rw [Except.ok.injEq, Prod.mk.injEq] at h
          obtain ⟨halloc, hdb⟩ := h
          subst halloc
          subst hdb
          refine ⟨par, more, row, List.mem_cons_self _ _, rfl, rfl, ?_, hcalc, ?_, hcreate, rfl, rfl, rfl⟩
          · intro hr
            by_contra hnr
            simp [hr, hnr] at hskip
          · simp

theorem validate_ok_iff {db : DB} {vrf : String} {cidr : Cidr} {parent : Option String} :
    validatePrefixConflicts db vrf cidr parent = .ok () ↔
      ((¬ ∃ p ∈ db.prefixes, p.vrf_id = vrf ∧ p.cidr = cidr) ∧
       ¬ ∃ s ∈ db.prefixes, s.vrf_id = vrf ∧ s.parent_prefix_id = parent ∧
         Cidr.overlaps cidr s.cidr = true) := by
  unfold validatePrefixConflicts
  constructor
  · intro h
    split at h
    · exact absurd h (by simp)
    · dsimp only at h
      split at h
      · exact absurd h (by simp)
      · rename_i hdup hov
        constructor
        · intro ⟨p, hp, h1, h2⟩
          exact hdup (by refine List.any_eq_true.mpr ⟨p, hp, ?_⟩; simp [h1, h2])
        · intro ⟨q, hq, h1, h2, h3⟩
          refine hov (List.any_eq_true.mpr ⟨q, ?_, h3⟩)
          exact List.mem_filter.mpr ⟨hq, by simp [h1, h2]⟩
  · intro ⟨h1, h2⟩
    have hd : List.any db.prefixes (fun p => p.vrf_id == vrf && p.cidr == cidr) = false := by
      rw [List.any_eq_false]
      intro p hp hcontra
      simp only [Bool.and_eq_true, beq_iff_eq] at hcontra
      exact h1 ⟨p, hp, hcontra.1, hcontra.2⟩
    have ho : List.any (List.filter
        (fun p => p.vrf_id == vrf && p.parent_prefix_id == parent) db.prefixes)
        (fun s => Cidr.overlaps cidr s.cidr) = false := by
      rw [List.any_eq_false]
      intro q hq hcontra
      have hq' := List.mem_filter.mp hq
      simp only [Bool.and_eq_true, beq_iff_eq] at hq'
      exact h2 ⟨q, hq'.1, hq'.2.1, hq'.2.2, hcontra⟩
    simp only [hd, ho]
    simp

theorem createManualPrefix_ok {db : DB} {vrf : String} {cidr : Cidr} {parent : Option String}
    {tags : Tags} {r f : Bool} {row : Prefix} {db2 : DB}
    (h : createManualPrefix db vrf cidr parent tags r f = .ok (row, db2)) :
    validatePrefixConflicts db vrf cidr parent = .ok () ∧
    dbParentCheck db vrf cidr parent = .ok () ∧
    db2 = { db with prefixes := db.prefixes ++ [row] } ∧
    row.vrf_id = vrf ∧ row.cidr = cidr ∧ row.parent_prefix_id = parent ∧
    row.source = .manual ∧ row.routable = r ∧ row.vpc_children_type_flag = f ∧
    row.tags = tags ∧ row.vpc_id = none ∧
    row.indentation_level = materializeIndentation db parent := by
  unfold createManualPrefix at h
  cases hv : validatePrefixConflicts db vrf cidr parent with
  | error e => rw [hv] at h; exact absurd h (by simp [Bind.bind, Except.bind])
  | ok u =>
    cases u
    rw [hv] at h
    cases hp : dbParentCheck db vrf cidr parent with
    | error e => rw [hp] at h; exact absurd h (by simp [Bind.bind, Except.bind])
    | ok u =>
      cases u
      rw [hp] at h
      simp only [Bind.bind, Except.bind] at h
      unfold dbInsertPrefix at h
      split at h
      · exact absurd h (by simp)
      · split at h
        · exact absurd h (by simp)
        · split at h
          · exact absurd h (by simp)
          · split at h
            · exact absurd h (by simp)
            · split at h
              · exact absurd h (by simp)
              · rw [Except.ok.injEq, Prod.mk.injEq] at h
                obtain ⟨hrow, hdb⟩ := h
                subst hrow
                refine ⟨rfl, rfl, hdb.symm, ?_⟩
                simp

/-- Claim C1: every create of a prefix — the manual create and the
create the allocator performs, both `createManualPrefix` — runs the two
conflict checks of `validatePrefixConflicts`: it fails on an existing
`(vrf_id, cidr)` duplicate and on an overlap with any sibling (same
VRF, same `parent_prefix_id`, `None` for roots); when neither condition
holds the two checks pass.  The third conjunct shows an allocation that
succeeded passed the same two checks for the subnet it created. -/
theorem claim_C1_conflict_validation (db : DB) (vrf : String) (cidr : Cidr)
    (parent : Option String) :
    (validatePrefixConflicts db vrf cidr parent = .ok () ↔
      ((¬ ∃ p ∈ db.prefixes, p.vrf_id = vrf ∧ p.cidr = cidr) ∧
       ¬ ∃ s ∈ db.prefixes, s.vrf_id = vrf ∧ s.parent_prefix_id = parent ∧
         Cidr.overlaps cidr s.cidr = true)) ∧
    (∀ tags r f out, validatePrefixConflicts db vrf cidr parent ≠ .ok () →
      createManualPrefix db vrf cidr parent tags r f ≠ .ok out) ∧
    (∀ size tags r pidOpt desc f now alloc db2,
      allocateSubnet db vrf size tags r pidOpt desc f now = .ok (alloc, db2) →
      validatePrefixConflicts db vrf alloc.allocated_cidr (some alloc.parent_prefix_id) = .ok ()) := by
  refine ⟨validate_ok_iff, ?_, ?_⟩
  · intro tags r f out hv hok
    obtain ⟨out1, out2⟩ := out
    exact hv (createManualPrefix_ok hok).1
  · intro size tags r pidOpt desc f now alloc db2 h
    unfold allocateSubnet at h
    dsimp only at h
    split at h
    · exact absurd h (by simp)
    · obtain ⟨par, more, row, hmem, hpid, hrest⟩ := allocateFrom_ok h
      rw [hpid]
      exact (createManualPrefix_ok hrest.2.2.2.2.1).1

/-- Witness for C1: at the concrete store `dbP`, the equivalence holds,
and both checks pass for a fresh non-overlapping network. -/
theorem claim_C1_witness :
    ((validatePrefixConflicts dbP "v" { bits := 32, addr := 167772672, len := 24 } none = .ok ()) ↔
      ((¬ ∃ p ∈ dbP.prefixes, p.vrf_id = "v" ∧ p.cidr = { bits := 32, addr := 167772672, len := 24 }) ∧
       ¬ ∃ s ∈ dbP.prefixes, s.vrf_id = "v" ∧ s.parent_prefix_id = none ∧
         Cidr.overlaps { bits := 32, addr := 167772672, len := 24 } s.cidr = true)) ∧
    validatePrefixConflicts dbP "v" { bits := 32, addr := 167772672, len := 24 } none = .ok () :=
  ⟨(claim_C1_conflict_validation dbP "v" { bits := 32, addr := 167772672, len := 24 } none).1,
   by rfl⟩

theorem dbParentCheck_ok {db : DB} {vrf : String} {cidr : Cidr} {pid : String}
    (h : dbParentCheck db vrf cidr (some pid) = .ok ()) :
    ∃ par, db.findPrefixById pid = some par ∧ par.vrf_id = vrf ∧
      par.cidr.bits = cidr.bits ∧ Cidr.strictSubnetOf cidr par.cidr = true := by
  cases hf : db.findPrefixById pid with
  | none => simp only [dbParentCheck, hf] at h; exact absurd h (by simp)
  | some par =>
    simp only [dbParentCheck, hf] at h
    by_cases h1 : par.vrf_id ≠ vrf
    · simp [h1] at h
    · by_cases h2 : par.cidr.bits ≠ cidr.bits
      · simp [h1, h2] at h
      · by_cases h3 : Cidr.strictSubnetOf cidr par.cidr = true
        · exact ⟨par, rfl, not_not.mp h1, not_not.mp h2, h3⟩
        · have h3f : Cidr.strictSubnetOf cidr par.cidr = false := by
            revert h3; cases Cidr.strictSubnetOf cidr par.cidr <;> simp
          simp [h1, h2, h3f] at h

/-- Claim C4: a create that supplies `parent_prefix_id` succeeds only
when the parent exists, sits in the same VRF and address family, and
strictly contains the new network; when the Python conflict checks pass
but any of those parent conditions fails, the create fails with
`ParentMismatch`. -/
theorem claim_C4_parent_checks (db : DB) (vrf : String) (cidr : Cidr) (pid : String)
    (tags : Tags) (r f : Bool) :
    (∀ row db2, createManualPrefix db vrf cidr (some pid) tags r f = .ok (row, db2) →
      ∃ par, db.findPrefixById pid = some par ∧ par.vrf_id = vrf ∧
        par.cidr.bits = cidr.bits ∧ Cidr.strictSubnetOf cidr par.cidr = true) ∧
    (validatePrefixConflicts db vrf cidr (some pid) = .ok () →
      ∀ par, db.findPrefixById pid = some par →
      (par.vrf_id ≠ vrf ∨ par.cidr.bits ≠ cidr.bits ∨ Cidr.strictSubnetOf cidr par.cidr = false) →
      createManualPrefix db vrf cidr (some pid) tags r f = .error .parentMismatch) := by
  constructor
  · intro row db2 h
    exact dbParentCheck_ok (createManualPrefix_ok h).2.1
  · intro hv par hfind hbad
    have hpc : dbParentCheck db vrf cidr (some pid) = .error .parentMismatch := by
      simp only [dbParentCheck, hfind]
      rcases hbad with hb | hb | hb
      · simp [hb]
      · by_cases h1 : par.vrf_id ≠ vrf
        · simp [h1]
        · simp [h1, hb]
      · by_cases h1 : par.vrf_id ≠ vrf
        · simp [h1]
        · by_cases h2 : par.cidr.bits ≠ cidr.bits
          · simp [h1, h2]
          · simp [h1, h2, hb]
    unfold createManualPrefix
    rw [hv, hpc]
    rfl

/-- Witness for C4: in `dbP`, creating `10.0.0.0/23` under parent `p`
(= `10.0.0.0/24`) is rejected with `ParentMismatch`: the child is not
strictly contained in the parent. -/
theorem claim_C4_witness :
    createManualPrefix dbP "v" cidr23 (some "p") [] true false = .error .parentMismatch :=
  (claim_C4_parent_checks dbP "v" cidr23 "p" [] true false).2 (by rfl) rowP (by rfl)
    (by decide)

/-- Claim C7: for an existing prefix, `deleteManualPrefix` succeeds
exactly when the prefix is not VPC-sourced, has no child prefixes, and
no `VPCPrefixAssociation` references it as parent; refusal deletes
nothing (an error returns no new state), and success removes exactly
that row. -/
theorem claim_C7_delete_refusals (db : DB) (pid : String) (p : Prefix)
    (hfind : db.findPrefixById pid = some p) :
    ((∃ db2, deleteManualPrefix db pid = .ok db2) ↔
      (p.source ≠ Source.vpc ∧ db.childrenOf pid = [] ∧
       ¬ ∃ a ∈ db.associations, a.parent_prefix_id = pid)) ∧
    (∀ db2, deleteManualPrefix db pid = .ok db2 →
      db2 = { db with prefixes := List.filter (fun q => !(q.prefix_id == pid)) db.prefixes }) := by
  have hsrc : (p.source ≠ Source.manual) ↔ (p.source = Source.vpc) := by
    cases p.source <;> simp
  by_cases c1 : p.source ≠ Source.manual
  · have hdel : deleteManualPrefix db pid = .error .cannotMutateVpcSourced := by
      simp only [deleteManualPrefix, hfind]
      simp [c1]
    rw [hdel]
    constructor
    · constructor
      · intro ⟨db2, h⟩
        exact absurd h (by simp)
      · intro ⟨hs, _, _⟩
        exact absurd (hsrc.mp c1) hs
    · intro db2 h
      exact absurd h (by simp)
  · by_cases c2 : (db.childrenOf pid).length > 0
    · have hdel : deleteManualPrefix db pid = .error .cannotDeleteWithChildren := by
        simp only [deleteManualPrefix, hfind]
        simp [c1, c2]
      rw [hdel]
      constructor
      · constructor
        · intro ⟨db2, h⟩
          exact absurd h (by simp)
        · intro ⟨_, hnil, _⟩
          rw [hnil] at c2
          exact absurd c2 (by simp)
      · intro db2 h
        exact absurd h (by simp)
    · by_cases c3 : List.any db.associations (fun a => a.parent_prefix_id == pid) = true
      · have hdel : deleteManualPrefix db pid =
            .error (.constraintViolation "fk_association_parent") := by
          simp only [deleteManualPrefix, hfind]
          simp [c1, c2, c3]
        rw [hdel]
        constructor
        · constructor
          · intro ⟨db2, h⟩
            exact absurd h (by simp)
          · intro ⟨_, _, hna⟩
            obtain ⟨a, ha, hpa⟩ := List.any_eq_true.mp c3
            exact absurd ⟨a, ha, by simpa using hpa⟩ hna
        · intro db2 h
          exact absurd h (by simp)
      · have hdel : deleteManualPrefix db pid =
            .ok { db with prefixes := List.filter (fun q => !(q.prefix_id == pid)) db.prefixes } := by
          simp only [deleteManualPrefix, hfind]
          simp [c1, c2, c3]
        rw [hdel]
        constructor
        · constructor
          · intro _
            refine ⟨fun hv => c1 (hsrc.mpr hv), ?_, ?_⟩
            · have h0 : (db.childrenOf pid).length = 0 := by omega
              exact List.eq_nil_of_length_eq_zero h0
            · intro ⟨a, ha, hpa⟩
              exact c3 (List.any_eq_true.mpr ⟨a, ha, by simp [hpa]⟩)
          · intro _
            exact ⟨_, rfl⟩
        · intro db2 h
          exact ((Except.ok.injEq _ _).mp h).symm

/-- Witness for C7: `rowP` in `dbP` is manual, childless and
unreferenced, so its delete succeeds and removes the row. -/
theorem claim_C7_witness :
    ((∃ db2, deleteManualPrefix dbP "p" = .ok db2) ↔
      (rowP.source ≠ Source.vpc ∧ dbP.childrenOf "p" = [] ∧
       ¬ ∃ a ∈ dbP.associations, a.parent_prefix_id = "p")) ∧
    (∀ db2, deleteManualPrefix dbP "p" = .ok db2 →
      db2 = { dbP with prefixes := List.filter (fun q => !(q.prefix_id == "p")) dbP.prefixes }) :=
  claim_C7_delete_refusals dbP "p" rowP (by rfl)

theorem setPrefixAttr_unknown (q : Prefix) (k : String) (v : AttrVal)
    (hk : List.contains prefixAttrNames k = false) : setPrefixAttr q k v = q := by
  have hmem : ¬ k ∈ prefixAttrNames := by simpa using hk
  simp only [prefixAttrNames, List.mem_cons, List.not_mem_nil, or_false, not_or] at hmem
  unfold setPrefixAttr
  split_ifs <;> simp_all

theorem applyPrefixKwargs_cons (p : Prefix) (e : String × Option AttrVal) (rest : Kwargs) :
    applyPrefixKwargs p (e :: rest) =
      applyPrefixKwargs (match e.2 with | none => p | some v => setPrefixAttr p e.1 v) rest := by
  obtain ⟨k, ov⟩ := e
  cases ov <;> rfl

theorem applyPrefixKwargs_proj {α : Type} (proj : Prefix → α) (key : String)
    (hstable : ∀ q k v, k ≠ key → proj (setPrefixAttr q k v) = proj q)
    (kwargs : Kwargs) (p : Prefix) (h : providesValue kwargs key = false) :
    proj (applyPrefixKwargs p kwargs) = proj p := by
  induction kwargs generalizing p with
  | nil => rfl
  | cons e rest ih =>
    simp only [providesValue, List.any_cons, Bool.or_eq_false_iff, Bool.and_eq_false_iff] at h
    have hrest : providesValue rest key = false := h.2
    rw [applyPrefixKwargs_cons]
    cases hv : e.2 with
    | none => exact ih p hrest
    | some v =>
      have hk : e.1 ≠ key := by
        rcases h.1 with hk | hk
        · intro hc; rw [hc] at hk; simp at hk
        · rw [hv] at hk; simp at hk
      rw [ih _ hrest, hstable p e.1 v hk]

theorem applyPrefixKwargs_proj_all {α : Type} (proj : Prefix → α)
    (hstable : ∀ q k v, proj (setPrefixAttr q k v) = proj q)
    (kwargs : Kwargs) (p : Prefix) :
    proj (applyPrefixKwargs p kwargs) = proj p := by
  induction kwargs generalizing p with
  | nil => rfl
  | cons e rest ih =>
    rw [applyPrefixKwargs_cons]
    cases e.2 with
    | none => exact ih p
    | some v => rw [ih _, hstable]

theorem setVpcAttr_unknown (q : VPC) (k : String) (a : AttrVal)
    (hk : List.contains vpcAttrNames k = false) : setVpcAttr q k a = q := by
  have hmem : ¬ k ∈ vpcAttrNames := by simpa using hk
  simp only [vpcAttrNames, List.mem_cons, List.not_mem_nil, or_false, not_or] at hmem
  unfold setVpcAttr
  split_ifs <;> simp_all

theorem applyVpcKwargs_cons (w : VPC) (e : String × Option AttrVal) (rest : Kwargs) :
    applyVpcKwargs w (e :: rest) =
      applyVpcKwargs (match e.2 with | none => w | some a => setVpcAttr w e.1 a) rest := by
  obtain ⟨k, ov⟩ := e
  cases ov <;> rfl

theorem applyVpcKwargs_proj {α : Type} (proj : VPC → α) (key : String)
    (hstable : ∀ q k a, k ≠ key → proj (setVpcAttr q k a) = proj q)
    (kwargs : Kwargs) (w : VPC) (h : providesValue kwargs key = false) :
    proj (applyVpcKwargs w kwargs) = proj w := by
  induction kwargs generalizing w with
  | nil => rfl
  | cons e rest ih =>
    simp only [providesValue, List.any_cons, Bool.or_eq_false_iff, Bool.and_eq_false_iff] at h
    have hrest : providesValue rest key = false := h.2
    rw [applyVpcKwargs_cons]
    cases hv : e.2 with
    | none => exact ih w hrest
    | some a =>
      have hk : e.1 ≠ key := by
        rcases h.1 with hk | hk
        · intro hc; rw [hc] at hk; simp at hk
        · rw [hv] at hk; simp at hk
      rw [ih _ hrest, hstable w e.1 a hk]

theorem applyPrefixKwargs_parent_none (kwargs : Kwargs) (p : Prefix)
    (h : (applyPrefixKwargs p kwargs).parent_prefix_id = none) :
    p.parent_prefix_id = none := by
  induction kwargs generalizing p with
  | nil => exact h
  | cons e rest ih =>
    rw [applyPrefixKwargs_cons] at h
    obtain ⟨k, ov⟩ := e
    cases ov with
    | none => exact ih p h
    | some v =>
      have h2 := ih _ h
      revert h2
      unfold setPrefixAttr
      split_ifs <;> (try cases v) <;> simp_all

theorem applyPrefixKwargs_vpcid_none (kwargs : Kwargs) (p : Prefix)
    (h : (applyPrefixKwargs p kwargs).vpc_id = none) :
    p.vpc_id = none := by
  induction kwargs generalizing p with
  | nil => exact h
  | cons e rest ih =>
    rw [applyPrefixKwargs_cons] at h
    obtain ⟨k, ov⟩ := e
    cases ov with
    | none => exact ih p h
    | some v =>
      have h2 := ih _ h
      revert h2
      unfold setPrefixAttr
      split_ifs <;> (try cases v) <;> simp_all

theorem applyVpcKwargs_opt_none (proj : VPC → Option String)
    (hstable : ∀ q k a, proj (setVpcAttr q k a) = none → proj q = none)
    (kwargs : Kwargs) (w : VPC)
    (h : proj (applyVpcKwargs w kwargs) = none) : proj w = none := by
  induction kwargs generalizing w with
  | nil => exact h
  | cons e rest ih =>
    rw [applyVpcKwargs_cons] at h
    obtain ⟨k, ov⟩ := e
    cases ov with
    | none => exact ih w h
    | some a => exact hstable _ _ _ (ih _ h)

theorem applyPrefixKwargs_filter (kwargs : Kwargs) (p : Prefix) :
    applyPrefixKwargs p kwargs =
      applyPrefixKwargs p (List.filter (fun e => !(ignoredEntry prefixAttrNames e)) kwargs) := by
  induction kwargs generalizing p with
  | nil => rfl
  | cons e rest ih =>
    obtain ⟨k, ov⟩ := e
    by_cases hi : ignoredEntry prefixAttrNames (k, ov) = true
    · rw [List.filter_cons_of_neg (by simp [hi])]
      cases ov with
      | none => rw [applyPrefixKwargs_cons]; exact ih p
      | some v =>
        have hc : List.contains prefixAttrNames k = false := by
          simp only [ignoredEntry, Option.isNone_some, Bool.false_or,
            Bool.not_eq_true', Bool.not_eq_false] at hi
          simpa using hi
        rw [applyPrefixKwargs_cons]
        dsimp only
        rw [setPrefixAttr_unknown _ _ _ hc]
        exact ih p
    · rw [List.filter_cons_of_pos (by simp [hi])]
      rw [applyPrefixKwargs_cons, applyPrefixKwargs_cons]
      exact ih _

theorem applyVpcKwargs_filter (kwargs : Kwargs) (w : VPC) :
    applyVpcKwargs w kwargs =
      applyVpcKwargs w (List.filter (fun e => !(ignoredEntry vpcAttrNames e)) kwargs) := by
  induction kwargs generalizing w with
  | nil => rfl
  | cons e rest ih =>
    obtain ⟨k, ov⟩ := e
    by_cases hi : ignoredEntry vpcAttrNames (k, ov) = true
    · rw [List.filter_cons_of_neg (by simp [hi])]
      cases ov with
      | none => rw [applyVpcKwargs_cons]; exact ih w
      | some a =>
        have hc : List.contains vpcAttrNames k = false := by
          simp only [ignoredEntry, Option.isNone_some, Bool.false_or,
            Bool.not_eq_true', Bool.not_eq_false] at hi
          simpa using hi
        rw [applyVpcKwargs_cons]
        dsimp only
        rw [setVpcAttr_unknown _ _ _ hc]
        exact ih w
    · rw [List.filter_cons_of_pos (by simp [hi])]
      rw [applyVpcKwargs_cons, applyVpcKwargs_cons]
      exact ih _

theorem updateManualPrefix_ok {db : DB} {pid : String} {kwargs : Kwargs}
    {p2 : Prefix} {db2 : DB} {p : Prefix}
    (hf : db.findPrefixById pid = some p)
    (h : updateManualPrefix db pid kwargs = .ok (p2, db2)) :
    p.source = Source.manual ∧ p2 = applyPrefixKwargs p kwargs := by
  simp only [updateManualPrefix, hf] at h
  by_cases hs : p.source ≠ Source.manual
  · simp [hs] at h
  · refine ⟨not_not.mp hs, ?_⟩
    simp only [hs, if_false] at h
    cases hw : dbWritePrefix db pid (applyPrefixKwargs p kwargs) with
    | error e => rw [hw] at h; exact absurd h (by simp)
    | ok db3 =>
      rw [hw] at h
      exact ((Prod.mk.injEq _ _ _ _).mp ((Except.ok.injEq _ _).mp h)).1.symm

theorem updateVpc_ok {db : DB} {vid : String} {kwargs : Kwargs}
    {v2 : VPC} {db2 : DB} {w : VPC}
    (hf : List.find? (fun x => x.vpc_id == vid) db.vpcs = some w)
    (h : updateVpc db vid kwargs = .ok (v2, db2)) :
    v2 = applyVpcKwargs w kwargs := by
  simp only [updateVpc, hf] at h
  cases hw : dbWriteVpc db vid (applyVpcKwargs w kwargs) with
  | error e => rw [hw] at h; exact absurd h (by simp)
  | ok db3 =>
    rw [hw] at h
    exact ((Prod.mk.injEq _ _ _ _).mp ((Except.ok.injEq _ _).mp h)).1.symm

theorem setPrefixAttr_fields (q : Prefix) (k : String) (v : AttrVal) :
    (k ≠ "prefix_id" → (setPrefixAttr q k v).prefix_id = q.prefix_id) ∧
    (k ≠ "vrf_id" → (setPrefixAttr q k v).vrf_id = q.vrf_id) ∧
    (k ≠ "cidr" → (setPrefixAttr q k v).cidr = q.cidr) ∧
    (k ≠ "tags" → (setPrefixAttr q k v).tags = q.tags) ∧
    (k ≠ "parent_prefix_id" → (setPrefixAttr q k v).parent_prefix_id = q.parent_prefix_id) ∧
    (k ≠ "routable" → (setPrefixAttr q k v).routable = q.routable) ∧
    (k ≠ "vpc_children_type_flag" →
      (setPrefixAttr q k v).vpc_children_type_flag = q.vpc_children_type_flag) ∧
    (k ≠ "vpc_id" → (setPrefixAttr q k v).vpc_id = q.vpc_id) ∧
    (setPrefixAttr q k v).indentation_level = q.indentation_level ∧
    (setPrefixAttr q k v).source = q.source := by
  unfold setPrefixAttr
  split_ifs <;> (try cases v) <;> simp_all

theorem setVpcAttr_fields (q : VPC) (k : String) (a : AttrVal) :
    (k ≠ "vpc_id" → (setVpcAttr q k a).vpc_id = q.vpc_id) ∧
    (k ≠ "description" → (setVpcAttr q k a).description = q.description) ∧
    (k ≠ "provider" → (setVpcAttr q k a).provider = q.provider) ∧
    (k ≠ "provider_account_id" →
      (setVpcAttr q k a).provider_account_id = q.provider_account_id) ∧
    (k ≠ "provider_vpc_id" → (setVpcAttr q k a).provider_vpc_id = q.provider_vpc_id) ∧
    (k ≠ "region" → (setVpcAttr q k a).region = q.region) ∧
    (k ≠ "tags" → (setVpcAttr q k a).tags = q.tags) ∧
    ((setVpcAttr q k a).description = none → q.description = none) ∧
    ((setVpcAttr q k a).provider_account_id = none → q.provider_account_id = none) ∧
    ((setVpcAttr q k a).region = none → q.region = none) := by
  unfold setVpcAttr
  split_ifs <;> (try cases a) <;> simp_all

/-- Claim C10: in `updateManualPrefix` and `updateVpc`, a kwargs entry
whose value is `None` or whose key is not an attribute of the record is
silently ignored (the update equals the update on the filtered kwargs);
after a successful update every field not supplied with a non-`None`
value keeps its prior value, and no nullable field can be cleared to
null by the update. -/
theorem claim_C10_update_none_ignored (db : DB) (pid vid : String) (kwargs : Kwargs) :
    (∀ p, applyPrefixKwargs p kwargs =
       applyPrefixKwargs p (List.filter (fun e => !(ignoredEntry prefixAttrNames e)) kwargs)) ∧
    (∀ w, applyVpcKwargs w kwargs =
       applyVpcKwargs w (List.filter (fun e => !(ignoredEntry vpcAttrNames e)) kwargs)) ∧
    (∀ p p2 db2, db.findPrefixById pid = some p →
      updateManualPrefix db pid kwargs = .ok (p2, db2) →
      ((providesValue kwargs "prefix_id" = false → p2.prefix_id = p.prefix_id) ∧
       (providesValue kwargs "vrf_id" = false → p2.vrf_id = p.vrf_id) ∧
       (providesValue kwargs "cidr" = false → p2.cidr = p.cidr) ∧
       (providesValue kwargs "tags" = false → p2.tags = p.tags) ∧
       (providesValue kwargs "parent_prefix_id" = false →
         p2.parent_prefix_id = p.parent_prefix_id) ∧
       (providesValue kwargs "routable" = false → p2.routable = p.routable) ∧
       (providesValue kwargs "vpc_children_type_flag" = false →
         p2.vpc_children_type_flag = p.vpc_children_type_flag) ∧
       (providesValue kwargs "vpc_id" = false → p2.vpc_id = p.vpc_id) ∧
       p2.indentation_level = p.indentation_level ∧
       p2.source = p.source ∧
       (p2.parent_prefix_id = none → p.parent_prefix_id = none) ∧
       (p2.vpc_id = none → p.vpc_id = none))) ∧
    (∀ w v2 db2, List.find? (fun x => x.vpc_id == vid) db.vpcs = some w →
      updateVpc db vid kwargs = .ok (v2, db2) →
      ((providesValue kwargs "vpc_id" = false → v2.vpc_id = w.vpc_id) ∧
       (providesValue kwargs "description" = false → v2.description = w.description) ∧
       (providesValue kwargs "provider" = false → v2.provider = w.provider) ∧
       (providesValue kwargs "provider_account_id" = false →
         v2.provider_account_id = w.provider_account_id) ∧
       (providesValue kwargs "provider_vpc_id" = false →
         v2.provider_vpc_id = w.provider_vpc_id) ∧
       (providesValue kwargs "region" = false → v2.region = w.region) ∧
       (providesValue kwargs "tags" = false → v2.tags = w.tags) ∧
       (v2.description = none → w.description = none) ∧
       (v2.provider_account_id = none → w.provider_account_id = none) ∧
       (v2.region = none → w.region = none))) := by
  refine ⟨fun p => applyPrefixKwargs_filter kwargs p,
          fun w => applyVpcKwargs_filter kwargs w, ?_, ?_⟩
  · intro p p2 db2 hf h
    obtain ⟨hsrc, hp2⟩ := updateManualPrefix_ok hf h
    subst hp2
    refine ⟨fun hk => applyPrefixKwargs_proj _ _
        (fun q k v hne => (setPrefixAttr_fields q k v).1 hne) kwargs p hk,
      fun hk => applyPrefixKwargs_proj _ _
        (fun q k v hne => (setPrefixAttr_fields q k v).2.1 hne) kwargs p hk,
      fun hk => applyPrefixKwargs_proj _ _
        (fun q k v hne => (setPrefixAttr_fields q k v).2.2.1 hne) kwargs p hk,
      fun hk => applyPrefixKwargs_proj _ _
        (fun q k v hne => (setPrefixAttr_fields q k v).2.2.2.1 hne) kwargs p hk,
      fun hk => applyPrefixKwargs_proj _ _
        (fun q k v hne => (setPrefixAttr_fields q k v).2.2.2.2.1 hne) kwargs p hk,
      fun hk => applyPrefixKwargs_proj _ _
        (fun q k v hne => (setPrefixAttr_fields q k v).2.2.2.2.2.1 hne) kwargs p hk,
      fun hk => applyPrefixKwargs_proj _ _
        (fun q k v hne => (setPrefixAttr_fields q k v).2.2.2.2.2.2.1 hne) kwargs p hk,
      fun hk => applyPrefixKwargs_proj _ _
        (fun q k v hne => (setPrefixAttr_fields q k v).2.2.2.2.2.2.2.1 hne) kwargs p hk,
      applyPrefixKwargs_proj_all _
        (fun q k v => (setPrefixAttr_fields q k v).2.2.2.2.2.2.2.2.1) kwargs p,
      applyPrefixKwargs_proj_all _
        (fun q k v => (setPrefixAttr_fields q k v).2.2.2.2.2.2.2.2.2) kwargs p,
      fun hn => applyPrefixKwargs_parent_none kwargs p hn,
      fun hn => applyPrefixKwargs_vpcid_none kwargs p hn⟩
  · intro w v2 db2 hf h
    have hv2 := updateVpc_ok hf h
    subst hv2
    refine ⟨fun hk => applyVpcKwargs_proj _ _
        (fun q k a hne => (setVpcAttr_fields q k a).1 hne) kwargs w hk,
      fun hk => applyVpcKwargs_proj _ _
        (fun q k a hne => (setVpcAttr_fields q k a).2.1 hne) kwargs w hk,
      fun hk => applyVpcKwargs_proj _ _
        (fun q k a hne => (setVpcAttr_fields q k a).2.2.1 hne) kwargs w hk,
      fun hk => applyVpcKwargs_proj _ _
        (fun q k a hne => (setVpcAttr_fields q k a).2.2.2.1 hne) kwargs w hk,
      fun hk => applyVpcKwargs_proj _ _
        (fun q k a hne => (setVpcAttr_fields q k a).2.2.2.2.1 hne) kwargs w hk,
      fun hk => applyVpcKwargs_proj _ _
        (fun q k a hne => (setVpcAttr_fields q k a).2.2.2.2.2.1 hne) kwargs w hk,
      fun hk => applyVpcKwargs_proj _ _
        (fun q k a hne => (setVpcAttr_fields q k a).2.2.2.2.2.2.1 hne) kwargs w hk,
      fun hn => applyVpcKwargs_opt_none _
        (fun q k a => (setVpcAttr_fields q k a).2.2.2.2.2.2.2.1) kwargs w hn,
      fun hn => applyVpcKwargs_opt_none _
        (fun q k a => (setVpcAttr_fields q k a).2.2.2.2.2.2.2.2.1) kwargs w hn,
      fun hn => applyVpcKwargs_opt_none _
        (fun q k a => (setVpcAttr_fields q k a).2.2.2.2.2.2.2.2.2) kwargs w hn⟩

/-- Witness for C10: updating `rowP` with a well-typed `routable`
entry, a `None`-valued entry and an unknown key changes only
`routable`; every frame hypothesis evaluates on the concrete store. -/
theorem claim_C10_witness :
    (providesValue kwargsW "prefix_id" = false → rowPupd.prefix_id = rowP.prefix_id) ∧
    (providesValue kwargsW "vrf_id" = false → rowPupd.vrf_id = rowP.vrf_id) ∧
    (providesValue kwargsW "cidr" = false → rowPupd.cidr = rowP.cidr) ∧
    (providesValue kwargsW "tags" = false → rowPupd.tags = rowP.tags) ∧
    (providesValue kwargsW "parent_prefix_id" = false →
      rowPupd.parent_prefix_id = rowP.parent_prefix_id) ∧
    (providesValue kwargsW "routable" = false → rowPupd.routable = rowP.routable) ∧
    (providesValue kwargsW "vpc_children_type_flag" = false →
      rowPupd.vpc_children_type_flag = rowP.vpc_children_type_flag) ∧
    (providesValue kwargsW "vpc_id" = false → rowPupd.vpc_id = rowP.vpc_id) ∧
    rowPupd.indentation_level = rowP.indentation_level ∧
    rowPupd.source = rowP.source ∧
    (rowPupd.parent_prefix_id = none → rowP.parent_prefix_id = none) ∧
    (rowPupd.vpc_id = none → rowP.vpc_id = none) :=
  (claim_C10_update_none_ignored dbP "p" "x" kwargsW).2.2.1 rowP rowPupd dbPupd (by rfl) (by rfl)

/-- Counterexample for C5 as stated: on `dbC5` both roots match the
request, `b` is more specific than `a` and has free space, yet the
allocator serves the request from `a` — the first candidate in store
order — because `find_matching_parent_prefixes` applies no ordering. -/
theorem claim_C5_counterexample :
    allocateSubnet dbC5 "v" 30 [] true none none false "t" = .ok (allocC5, dbC5after) ∧
    allocC5.parent_prefix_id = "a" ∧
    rowA ∈ findMatchingParentPrefixes dbC5 "v" [] none ∧
    rowB ∈ findMatchingParentPrefixes dbC5 "v" [] none ∧
    rowB.routable = true ∧
    rowA.cidr.len < rowB.cidr.len ∧
    calculateAvailableSubnets dbC5 rowB 30 ≠ .ok [] := by
  refine ⟨by rfl, by rfl, by decide, by decide, by rfl, by decide, ?_⟩
  intro h
  have heval : calculateAvailableSubnets dbC5 rowB 30 =
      .ok [{ bits := 32, addr := 167837696, len := 30 },
           { bits := 32, addr := 167837700, len := 30 },
           { bits := 32, addr := 167837704, len := 30 },
           { bits := 32, addr := 167837708, len := 30 }] := by rfl
  rw [heval] at h
  exact absurd ((Except.ok.injEq _ _).mp h) (by simp)

/-- Claim C5 (amended): the candidate parent set contains exactly the
`source='manual'` prefixes of the requested VRF whose tags strictly
match the required tags (the singleton given prefix when a parent id is
supplied); the candidates are tried in the order the store returns them
(`find_matching_parent_prefixes` applies no ordering, the result is a
sublist of the store in store order); and when the request requires
`routable=true` the allocation never comes from a non-routable
candidate. -/
theorem claim_C5_candidates_amended (db : DB) (vrf : String) (tags : Tags)
    (pidOpt : Option String) :
    (∀ p, p ∈ findMatchingParentPrefixes db vrf tags pidOpt ↔
      (p ∈ db.prefixes ∧ p.vrf_id = vrf ∧ p.source = Source.manual ∧
       tagsMatchStrictly p.tags tags = true ∧
       (∀ pid, pidOpt = some pid → p.prefix_id = pid))) ∧
    List.Sublist (findMatchingParentPrefixes db vrf tags pidOpt) db.prefixes ∧
    (∀ size routable desc flag now alloc db2,
      allocateSubnet db vrf size tags routable pidOpt desc flag now = .ok (alloc, db2) →
      routable = true →
      ∃ par ∈ db.prefixes, par.prefix_id = alloc.parent_prefix_id ∧ par.routable = true) := by
  have hmem : ∀ p, p ∈ findMatchingParentPrefixes db vrf tags pidOpt ↔
      (p ∈ db.prefixes ∧ p.vrf_id = vrf ∧ p.source = Source.manual ∧
       tagsMatchStrictly p.tags tags = true ∧
       (∀ pid, pidOpt = some pid → p.prefix_id = pid)) := by
    intro p
    unfold findMatchingParentPrefixes
    cases pidOpt with
    | none =>
      simp only [List.mem_filter, Bool.and_eq_true, beq_iff_eq]
      constructor
      · intro ⟨⟨hm, h1, h2⟩, h3⟩
        exact ⟨hm, h1, h2, h3, fun pid hc => by cases hc⟩
      · intro ⟨hm, h1, h2, h3, _⟩
        exact ⟨⟨hm, h1, h2⟩, h3⟩
    | some pid =>
      simp only [List.mem_filter, Bool.and_eq_true, beq_iff_eq]
      constructor
      · intro ⟨⟨⟨hm, h1, h2⟩, h4⟩, h3⟩
        exact ⟨hm, h1, h2, h3, fun pid2 hc => by cases hc; exact h4⟩
      · intro ⟨hm, h1, h2, h3, h4⟩
        exact ⟨⟨⟨hm, h1, h2⟩, h4 pid rfl⟩, h3⟩
  refine ⟨hmem, ?_, ?_⟩
  · unfold findMatchingParentPrefixes
    cases pidOpt with
    | none => exact ((List.filter_sublist _).trans (List.filter_sublist _))
    | some pid =>
      exact ((List.filter_sublist _).trans ((List.filter_sublist _).trans (List.filter_sublist _)))
  · intro size routable desc flag now alloc db2 h hr
    unfold allocateSubnet at h
    dsimp only at h
    split at h
    · exact absurd h (by simp)
    · obtain ⟨par, more, row, hmem2, hpid, _, hrout, _⟩ := allocateFrom_ok h
      have hin := (hmem par).mp hmem2
      exact ⟨par, hin.1, hpid.symm, hrout hr⟩

/-- Witness for the amended C5, instantiated on `dbC5`: the membership
characterisation, the store-order sublist property, and the concrete
fact that the request was served by a routable candidate. -/
theorem claim_C5_amended_witness :
    (rowB ∈ findMatchingParentPrefixes dbC5 "v" [] none ↔
      (rowB ∈ dbC5.prefixes ∧ rowB.vrf_id = "v" ∧ rowB.source = Source.manual ∧
       tagsMatchStrictly rowB.tags [] = true ∧
       (∀ pid, (none : Option String) = some pid → rowB.prefix_id = pid))) ∧
    List.Sublist (findMatchingParentPrefixes dbC5 "v" [] none) dbC5.prefixes ∧
    (∃ par ∈ dbC5.prefixes, par.prefix_id = allocC5.parent_prefix_id ∧ par.routable = true) :=
  ⟨(claim_C5_candidates_amended dbC5 "v" [] none).1 rowB,
   (claim_C5_candidates_amended dbC5 "v" [] none).2.1,
   (claim_C5_candidates_amended dbC5 "v" [] none).2.2 30 true none false "t" allocC5 dbC5after
     (by rfl) rfl⟩

theorem enumSubnets_mem {parent : Cidr} {m : Nat} {c : Cidr}
    (hc : c ∈ enumSubnets parent m) :
    c.bits = parent.bits ∧ c.len = m ∧
    ∃ i, i < 2 ^ (m - parent.len) ∧ c.addr = parent.addr + i * 2 ^ (parent.bits - m) := by
  unfold enumSubnets at hc
  obtain ⟨i, hi, heq⟩ := List.mem_map.mp hc
  have hir := List.mem_range.mp hi
  exact ⟨by rw [← heq], by rw [← heq], i, hir, by rw [← heq]⟩

theorem enumSubnets_subnetOf {parent : Cidr} {m : Nat} {c : Cidr}
    (hlen : parent.len ≤ m) (hm : m ≤ parent.bits) (hc : c ∈ enumSubnets parent m) :
    Cidr.subnetOf c parent = true := by
  obtain ⟨hbits, hclen, i, hi, haddr⟩ := enumSubnets_mem hc
  have hP : (1 : Nat) ≤ 2 ^ (parent.bits - m) := Nat.one_le_two_pow
  have hR : 2 ^ (m - parent.len) * 2 ^ (parent.bits - m) = 2 ^ (parent.bits - parent.len) := by
    rw [← pow_add]
    congr 1
    omega
  have hmul : (i + 1) * 2 ^ (parent.bits - m) ≤
      2 ^ (m - parent.len) * 2 ^ (parent.bits - m) :=
    Nat.mul_le_mul_right _ hi
  unfold Cidr.subnetOf Cidr.lastAddr Cidr.size Cidr.hostBits
  rw [hbits, hclen, haddr]
  simp only [beq_self_eq_true, Bool.true_and, Bool.and_eq_true, decide_eq_true_eq]
  constructor
  · omega
  · rw [add_one_mul] at hmul
    rw [hR] at hmul
    omega

theorem enumSubnets_sorted (parent : Cidr) (m : Nat) :
    List.Pairwise (fun a b => a.addr ≤ b.addr) (enumSubnets parent m) := by
  unfold enumSubnets
  rw [List.pairwise_map]
  refine (List.pairwise_lt_range _).imp ?_
  intro a b hab
  simp only
  have : a * 2 ^ (parent.bits - m) ≤ b * 2 ^ (parent.bits - m) :=
    Nat.mul_le_mul_right _ (Nat.le_of_lt hab)
  omega

theorem take_eq_cons {n : Nat} {l t : List Cidr} {a : Cidr}
    (h : List.take n l = a :: t) : ∃ t2, l = a :: t2 := by
  cases l with
  | nil => simp at h
  | cons b rest =>
    cases n with
    | zero => simp at h
    | succ n2 =>
      rw [List.take_succ_cons] at h
      exact ⟨rest, by rw [(List.cons.injEq _ _ _ _).mp h |>.1]⟩

theorem calc_ok_cons {db : DB} {parentPfx : Prefix} {size : Nat} {first : Cidr}
    {more : List Cidr}
    (h : calculateAvailableSubnets db parentPfx size = .ok (first :: more)) :
    parentPfx.cidr.len ≤ size ∧ size ≤ parentPfx.cidr.bits ∧
    ∃ tail, List.filter (fun s => !(List.any
        (List.map (fun p => p.cidr) (db.childrenOf parentPfx.prefix_id))
        (fun e => Cidr.overlaps s e))) (enumSubnets parentPfx.cidr size) = first :: tail := by
  unfold calculateAvailableSubnets at h
  split at h
  · exact absurd h (by simp)
  · rename_i hsz
    push_neg at hsz
    refine ⟨hsz.1, hsz.2, ?_⟩
    dsimp only at h
    split at h
    · have ht := (Except.ok.injEq _ _).mp h
      obtain ⟨t2, ht2⟩ := take_eq_cons ht
      exact ⟨t2, ht2⟩
    · exact ⟨more, (Except.ok.injEq _ _).mp h⟩

/-- Claim C2: when an allocation succeeds (with no description
supplied), the allocated subnet has exactly the requested mask length,
is contained in the chosen parent's CIDR, overlaps no existing child of
that parent, and is the numerically lowest subnet of that mask length
inside the parent with that property; the created row is
`source='manual'`, records the chosen parent as `parent_prefix_id`, and
carries the request tags plus `allocated_from` and the timestamp. -/
theorem claim_C2_first_fit (db : DB) (vrf : String) (size : Nat) (tags : Tags)
    (routable : Bool) (pidOpt : Option String) (flag : Bool) (now : String)
    (alloc : Allocation) (db2 : DB)
    (h : allocateSubnet db vrf size tags routable pidOpt none flag now = .ok (alloc, db2)) :
    ∃ par ∈ db.prefixes, par.prefix_id = alloc.parent_prefix_id ∧
      alloc.allocated_cidr.len = size ∧
      Cidr.subnetOf alloc.allocated_cidr par.cidr = true ∧
      alloc.allocated_cidr ∈ enumSubnets par.cidr size ∧
      (∀ child ∈ db.childrenOf par.prefix_id,
        Cidr.overlaps alloc.allocated_cidr child.cidr = false) ∧
      (∀ c ∈ enumSubnets par.cidr size,
        (∀ child ∈ db.childrenOf par.prefix_id, Cidr.overlaps c child.cidr = false) →
        alloc.allocated_cidr.addr ≤ c.addr) ∧
      ∃ row ∈ db2.prefixes, row.prefix_id = alloc.prefix_id ∧
        row.source = Source.manual ∧
        row.parent_prefix_id = some alloc.parent_prefix_id ∧
        row.cidr = alloc.allocated_cidr ∧
        row.tags = Tags.set (Tags.set tags "allocated_from" alloc.parent_prefix_id)
          "allocation_timestamp" now := by
  unfold allocateSubnet at h
  dsimp only at h
  split at h
  · exact absurd h (by simp)
  · obtain ⟨par, more, row, hmem, hpid, hpcidr, hrout, hcalc, hcount, hcreate, hrid, htags, hrtbl⟩ :=
      allocateFrom_ok h
    have hpar_in : par ∈ db.prefixes := by
      have hs : List.Sublist (findMatchingParentPrefixes db vrf tags pidOpt) db.prefixes := by
        unfold findMatchingParentPrefixes
        cases pidOpt with
        | none => exact ((List.filter_sublist _).trans (List.filter_sublist _))
        | some pid =>
          exact ((List.filter_sublist _).trans
            ((List.filter_sublist _).trans (List.filter_sublist _)))
      exact hs.mem hmem
    obtain ⟨hlen, hbits, tail, hfilter⟩ := calc_ok_cons hcalc
    have hhead : alloc.allocated_cidr ∈ List.filter (fun s => !(List.any
        (List.map (fun p => p.cidr) (db.childrenOf par.prefix_id))
        (fun e => Cidr.overlaps s e))) (enumSubnets par.cidr size) := by
      rw [hfilter]
      exact List.mem_cons_self _ _
    have hmemf := List.mem_filter.mp hhead
    have hfree : ∀ child ∈ db.childrenOf par.prefix_id,
        Cidr.overlaps alloc.allocated_cidr child.cidr = false := by
      have := hmemf.2
      simp only [Bool.not_eq_true', List.any_eq_false, List.mem_map] at this
      intro child hchild
      simpa using this _ ⟨child, hchild, rfl⟩
    obtain ⟨hvp, hpchk, hdb2, hrvrf, hrcidr, hrparent, hrsrc, hrr, hrf, hrtags, hrvpc, hrind⟩ :=
      createManualPrefix_ok hcreate
    refine ⟨par, hpar_in, hpid.symm, (enumSubnets_mem hmemf.1).2.1, ?_, hmemf.1, hfree, ?_, ?_⟩
    · exact enumSubnets_subnetOf hlen hbits hmemf.1
    · intro c hc hcfree
      have hcin : c ∈ List.filter (fun s => !(List.any
          (List.map (fun p => p.cidr) (db.childrenOf par.prefix_id))
          (fun e => Cidr.overlaps s e))) (enumSubnets par.cidr size) := by
        refine List.mem_filter.mpr ⟨hc, ?_⟩
        simp only [Bool.not_eq_true', List.any_eq_false, List.mem_map]
        intro e ⟨child, hchild, hec⟩
        rw [← hec]
        simp [hcfree child hchild]
      have hsorted : List.Pairwise (fun a b => a.addr ≤ b.addr)
          (List.filter (fun s => !(List.any
            (List.map (fun p => p.cidr) (db.childrenOf par.prefix_id))
            (fun e => Cidr.overlaps s e))) (enumSubnets par.cidr size)) :=
        (enumSubnets_sorted par.cidr size).sublist (List.filter_sublist _)
      rw [hfilter] at hcin hsorted
      rcases List.mem_cons.mp hcin with hceq | hctail
      · rw [hceq]
      · exact (List.pairwise_cons.mp hsorted).1 c hctail
    · refine ⟨row, ?_, hrid.symm, hrsrc, ?_, hrcidr, ?_⟩
      · rw [hdb2]
        simp
      · rw [hrparent, hpid]
      · rw [hrtags]
        unfold allocationTags
        rw [hpid]

/-- Witness for C2: the concrete allocation on `dbC5` — a `/30` out of
parent `a` — satisfies every conclusion, with the allocate hypothesis
discharged by evaluation. -/
theorem claim_C2_witness :
    ∃ par ∈ dbC5.prefixes, par.prefix_id = allocC5.parent_prefix_id ∧
      allocC5.allocated_cidr.len = 30 ∧
      Cidr.subnetOf allocC5.allocated_cidr par.cidr = true ∧
      allocC5.allocated_cidr ∈ enumSubnets par.cidr 30 ∧
      (∀ child ∈ dbC5.childrenOf par.prefix_id,
        Cidr.overlaps allocC5.allocated_cidr child.cidr = false) ∧
      (∀ c ∈ enumSubnets par.cidr 30,
        (∀ child ∈ dbC5.childrenOf par.prefix_id, Cidr.overlaps c child.cidr = false) →
        allocC5.allocated_cidr.addr ≤ c.addr) ∧
      ∃ row ∈ dbC5after.prefixes, row.prefix_id = allocC5.prefix_id ∧
        row.source = Source.manual ∧
        row.parent_prefix_id = some allocC5.parent_prefix_id ∧
        row.cidr = allocC5.allocated_cidr ∧
        row.tags = Tags.set (Tags.set [] "allocated_from" allocC5.parent_prefix_id)
          "allocation_timestamp" "t" :=
  claim_C2_first_fit dbC5 "v" 30 [] true none false "t" allocC5 dbC5after (by rfl)

/-! #### Tag-map and row-replacement algebra for the reconciler -/

theorem find_append_none {α : Type} {p : α → Bool} {l₁ l₂ : List α}
    (h : List.find? p l₁ = none) : List.find? p (l₁ ++ l₂) = List.find? p l₂ := by
  induction l₁ with
  | nil => rfl
  | cons a tl ih =>
    cases hc : p a with
    | true => simp only [List.find?_cons, hc] at h; exact absurd h (by simp)
    | false =>
      simp only [List.find?_cons, hc] at h
      simp only [List.cons_append, List.find?_cons, hc]
      exact ih h

theorem find_append_some {α : Type} {p : α → Bool} {l₁ l₂ : List α} {a : α}
    (h : List.find? p l₁ = some a) : List.find? p (l₁ ++ l₂) = some a := by
  induction l₁ with
  | nil => simp at h
  | cons b tl ih =>
    cases hc : p b with
    | true =>
      simp only [List.find?_cons, hc] at h
      simp only [List.cons_append, List.find?_cons, hc]
      exact h
    | false =>
      simp only [List.find?_cons, hc] at h
      simp only [List.cons_append, List.find?_cons, hc]
      exact ih h

theorem find_set_map_self {ts : Tags} {k v : String} :
    List.find? (fun p => p.1 == k) (List.map (fun p => if p.1 == k then (k, v) else p) ts) =
      Option.map (fun _ => (k, v)) (List.find? (fun p => p.1 == k) ts) := by
  induction ts with
  | nil => rfl
  | cons a tl ih =>
    cases hb : (a.1 == k) with
    | true =>
      have h1 : ((if a.1 == k then (k, v) else a) : String × String) = (k, v) := by simp [hb]
      simp only [List.map_cons, List.find?_cons, h1, hb]
      simp
    | false =>
      have h1 : ((if a.1 == k then (k, v) else a) : String × String) = a := by simp [hb]
      simp only [List.map_cons, List.find?_cons, h1]
      simp only [hb]
      exact ih

theorem find_set_map_ne {ts : Tags} {k k' v : String} (h : k' ≠ k) :
    List.find? (fun p => p.1 == k') (List.map (fun p => if p.1 == k then (k, v) else p) ts) =
      List.find? (fun p => p.1 == k') ts := by
  induction ts with
  | nil => rfl
  | cons a tl ih =>
    cases hb : (a.1 == k) with
    | true =>
      have hc : a.1 = k := by simpa using hb
      have h1 : ((if a.1 == k then (k, v) else a) : String × String) = (k, v) := by simp [hb]
      have h2 : ((k, v).1 == k') = false := by simp [Ne.symm h]
      have h3 : (a.1 == k') = false := by rw [hc]; simp [Ne.symm h]
      simp only [List.map_cons, List.find?_cons, h1, h2, h3]
      exact ih
    | false =>
      have h1 : ((if a.1 == k then (k, v) else a) : String × String) = a := by simp [hb]
      simp only [List.map_cons, List.find?_cons, h1]
      cases hck : (a.1 == k') with
      | true => rfl
      | false => exact ih

theorem Tags.get_set_self (ts : Tags) (k v : String) : Tags.get (Tags.set ts k v) k = some v := by
  unfold Tags.set
  by_cases h : Tags.hasKey ts k
  · rw [if_pos h]
    unfold Tags.get
    rw [find_set_map_self]
    unfold Tags.hasKey at h
    obtain ⟨x, hx, hpx⟩ := List.any_eq_true.mp h
    cases hf : List.find? (fun p => p.1 == k) ts with
    | none => exact absurd hpx (List.find?_eq_none.mp hf x hx)
    | some y => rfl
  · rw [if_neg h]
    unfold Tags.get
    have hn : List.find? (fun p => p.1 == k) ts = none := by
      rw [List.find?_eq_none]
      intro x hx hpx
      exact h (List.any_eq_true.mpr ⟨x, hx, hpx⟩)
    rw [find_append_none hn]
    simp

theorem Tags.get_set_ne (ts : Tags) {k k' : String} (v : String) (h : k' ≠ k) :
    Tags.get (Tags.set ts k v) k' = Tags.get ts k' := by
  unfold Tags.set
  by_cases hk : Tags.hasKey ts k
  · rw [if_pos hk]
    unfold Tags.get
    rw [find_set_map_ne h]
  · rw [if_neg hk]
    unfold Tags.get
    cases hf : List.find? (fun p => p.1 == k') ts with
    | none =>
      rw [find_append_none hf]
      simp [List.find?_cons, Ne.symm h]
    | some y => rw [find_append_some hf]

theorem Tags.get_erase_self (ts : Tags) (k : String) : Tags.get (Tags.erase ts k) k = none := by
  unfold Tags.erase Tags.get
  have hn : List.find? (fun p => p.1 == k) (List.filter (fun p => !(p.1 == k)) ts) = none := by
    rw [List.find?_eq_none]
    intro x hx
    have h2 := (List.mem_filter.mp hx).2
    simp at h2 ⊢
    exact h2
  rw [hn]
  rfl

theorem Tags.get_erase_ne (ts : Tags) {k k' : String} (h : k' ≠ k) :
    Tags.get (Tags.erase ts k) k' = Tags.get ts k' := by
  unfold Tags.erase Tags.get
  induction ts with
  | nil => rfl
  | cons a tl ih =>
    cases hb : (a.1 == k) with
    | true =>
      have hc : a.1 = k := by simpa using hb
      have h3 : (a.1 == k') = false := by rw [hc]; simp [Ne.symm h]
      have h1 : (!(a.1 == k)) = false := by simp [hb]
      simp only [List.filter_cons, h1, Bool.false_eq_true, if_false, List.find?_cons, h3]
      exact ih
    | false =>
      have h1 : (!(a.1 == k)) = true := by simp [hb]
      simp only [List.filter_cons, h1, if_true, List.find?_cons]
      cases hck : (a.1 == k') with
      | true => simp only [hck]
      | false => simp only [hck]; exact ih

theorem replaceRows_filter {rows : List Prefix} {pid : String} {new : Prefix} {Vid : String}
    (hall : ∀ q ∈ rows, q.prefix_id = pid → (q.vpc_id == some Vid) = false)
    (hnew : (new.vpc_id == some Vid) = false) :
    List.filter (fun p => p.vpc_id == some Vid)
        (List.map (fun q => if q.prefix_id == pid then new else q) rows) =
      List.filter (fun p => p.vpc_id == some Vid) rows := by
  induction rows with
  | nil => rfl
  | cons a tl ih =>
    have htl := fun q hq => hall q (List.mem_cons_of_mem a hq)
    cases hb : (a.prefix_id == pid) with
    | true =>
      have hc : a.prefix_id = pid := by simpa using hb
      have ha := hall a (List.mem_cons_self a tl) hc
      have h1 : ((if a.prefix_id == pid then new else a) : Prefix) = new := by simp [hb]
      simp only [List.map_cons, List.filter_cons, h1, hnew, ha, Bool.false_eq_true, if_false]
      exact ih htl
    | false =>
      have h1 : ((if a.prefix_id == pid then new else a) : Prefix) = a := by simp [hb]
      simp only [List.map_cons, List.filter_cons, h1]
      cases hv : (a.vpc_id == some Vid) with
      | true => simp only [hv, if_true]; rw [ih htl]
      | false => simp only [hv, Bool.false_eq_true, if_false]; exact ih htl

theorem replaceRows_ids {rows : List Prefix} {pid : String} {new : Prefix}
    (hid : new.prefix_id = pid) :
    List.map (fun p => p.prefix_id) (List.map (fun q => if q.prefix_id == pid then new else q) rows) =
      List.map (fun p => p.prefix_id) rows := by
  induction rows with
  | nil => rfl
  | cons a tl ih =>
    cases hb : (a.prefix_id == pid) with
    | true =>
      have hc : a.prefix_id = pid := by simpa using hb
      have h1 : ((if a.prefix_id == pid then new else a) : Prefix) = new := by simp [hb]
      simp only [List.map_cons, h1, ih]
      rw [hid, hc]
    | false =>
      have h1 : ((if a.prefix_id == pid then new else a) : Prefix) = a := by simp [hb]
      simp only [List.map_cons, h1, ih]

theorem replaceRows_keep {rows : List Prefix} {pid : String} {new q : Prefix}
    (hq : q ∈ rows) (hne : q.prefix_id ≠ pid) :
    q ∈ List.map (fun x => if x.prefix_id == pid then new else x) rows := by
  have h := List.mem_map_of_mem (fun x => if x.prefix_id == pid then new else x) hq
  simpa [hne] using h

theorem replaceRows_hit {rows : List Prefix} {pid : String} {new p : Prefix}
    (hp : p ∈ rows) (hpid : p.prefix_id = pid) :
    new ∈ List.map (fun x => if x.prefix_id == pid then new else x) rows := by
  have h := List.mem_map_of_mem (fun x => if x.prefix_id == pid then new else x) hp
  simpa [hpid] using h

theorem replacePrefixRow_filter {db : DB} {pid : String} {new : Prefix} {Vid : String}
    (hall : ∀ q ∈ db.prefixes, q.prefix_id = pid → (q.vpc_id == some Vid) = false)
    (hnew : (new.vpc_id == some Vid) = false) :
    List.filter (fun p => p.vpc_id == some Vid) (replacePrefixRow db pid new).prefixes =
      List.filter (fun p => p.vpc_id == some Vid) db.prefixes :=
  replaceRows_filter hall hnew

theorem replacePrefixRow_ids {db : DB} {pid : String} {new : Prefix}
    (hid : new.prefix_id = pid) :
    prefixIds (replacePrefixRow db pid new).prefixes = prefixIds db.prefixes :=
  replaceRows_ids hid

theorem replacePrefixRow_keep {db : DB} {pid : String} {new q : Prefix}
    (hq : q ∈ db.prefixes) (hne : q.prefix_id ≠ pid) :
    q ∈ (replacePrefixRow db pid new).prefixes :=
  replaceRows_keep hq hne

theorem replacePrefixRow_hit {db : DB} {pid : String} {new p : Prefix}
    (hp : p ∈ db.prefixes) (hpid : p.prefix_id = pid) :
    new ∈ (replacePrefixRow db pid new).prefixes :=
  replaceRows_hit hp hpid

theorem find_by_id_nodup {rows : List Prefix} {p : Prefix} {pid : String}
    (hnd : (prefixIds rows).Nodup) (hp : p ∈ rows) (hpid : p.prefix_id = pid) :
    List.find? (fun q => q.prefix_id == pid) rows = some p := by
  induction rows with
  | nil => cases hp
  | cons a tl ih =>
    have hnd' := hnd
    rw [show prefixIds (a :: tl) = a.prefix_id :: prefixIds tl from rfl,
      List.nodup_cons] at hnd'
    obtain ⟨hna, hndtl⟩ := hnd'
    by_cases hc : a.prefix_id = pid
    · have hap : a = p := by
        rcases List.mem_cons.mp hp with h | h
        · exact h.symm
        · exfalso
          apply hna
          rw [hc, ← hpid]
          exact List.mem_map_of_mem _ h
      have hpd : (p.prefix_id == pid) = true := by simp [hpid]
      simp only [List.find?_cons, hap, hpd]
    · have hbc : (a.prefix_id == pid) = false := by simp [hc]
      simp only [List.find?_cons, hbc]
      have hptl : p ∈ tl := by
        rcases List.mem_cons.mp hp with h | h
        · exact absurd (h ▸ hpid) hc
        · exact h
      exact ih hndtl hptl

theorem find_first_of_unique {α : Type} {f : α → Bool} {rows : List α} {p : α}
    (hp : p ∈ rows) (hfp : f p = true)
    (huniq : ∀ q ∈ rows, f q = true → q = p) :
    List.find? f rows = some p := by
  induction rows with
  | nil => cases hp
  | cons a tl ih =>
    by_cases hc : f a = true
    · have hap := huniq a (List.mem_cons_self a tl) hc
      simp only [List.find?_cons, hap, hfp]
    · have hbc : f a = false := by simpa using hc
      simp only [List.find?_cons, hbc]
      have hptl : p ∈ tl := by
        rcases List.mem_cons.mp hp with h | h
        · exact absurd (h ▸ hfp) hc
        · exact h
      exact ih hptl (fun q hq hfq => huniq q (List.mem_cons_of_mem a hq) hfq)

/-! #### Step lemmas for the reconciler mutations -/

theorem ensureVpcVrf_prefixes (db : DB) (vpc : VPC) :
    (ensureVpcVrf db vpc).2.prefixes = db.prefixes := by
  unfold ensureVpcVrf
  dsimp only
  split <;> rfl

theorem subnetVrfPlacement_prefixes (db : DB) (vpc : VPC) (x : Option Prefix) (u r : Bool) :
    (subnetVrfPlacement db vpc x u r).2.prefixes = db.prefixes := by
  unfold subnetVrfPlacement
  split
  · rfl
  · exact ensureVpcVrf_prefixes db vpc
  · rfl

theorem dbInsertPrefix_ok_shape {db : DB} {p row : Prefix} {db2 : DB}
    (h : dbInsertPrefix db p = .ok (row, db2)) :
    db2.prefixes = db.prefixes ++ [row] ∧
    row.prefix_id = p.prefix_id ∧ row.vpc_id = p.vpc_id ∧ row.cidr = p.cidr ∧
    row.source = p.source ∧
    List.any db.prefixes (fun q => q.prefix_id == p.prefix_id) = false := by
  unfold dbInsertPrefix at h
  split at h
  next => exact absurd h (by simp)
  next hc1 =>
    split at h
    next => exact absurd h (by simp)
    next =>
      split at h
      next => exact absurd h (by simp)
      next =>
        split at h
        next => exact absurd h (by simp)
        next =>
          split at h
          next => exact absurd h (by simp)
          next =>
            dsimp only at h
            simp only [Except.ok.injEq, Prod.mk.injEq] at h
            obtain ⟨hrow, hdb⟩ := h
            subst hdb
            subst hrow
            exact ⟨rfl, rfl, rfl, rfl, rfl, by simpa using hc1⟩

theorem subnetRowFor_spec (now : String) (db : DB) (vpc : VPC) (s : AwsSubnetInfo) :
    (subnetRowFor now db vpc s).2.prefixes = db.prefixes ∧
    (subnetRowFor now db vpc s).1.vpc_id = some vpc.vpc_id ∧
    (subnetRowFor now db vpc s).1.cidr = s.cidr_block ∧
    (subnetRowFor now db vpc s).1.source = Source.vpc := by
  unfold subnetRowFor
  dsimp only
  exact ⟨subnetVrfPlacement_prefixes db vpc _ _ _, rfl, rfl, rfl⟩

theorem createSubnetPrefix_shape (now : String) (db : DB) (vpc : VPC) (s : AwsSubnetInfo) :
    (createSubnetPrefix now db vpc s).prefixes = db.prefixes ∨
    ∃ row, (createSubnetPrefix now db vpc s).prefixes = db.prefixes ++ [row] ∧
      row.vpc_id = some vpc.vpc_id ∧ row.source = Source.vpc ∧ row.cidr = s.cidr_block ∧
      List.any db.prefixes (fun q => q.prefix_id == row.prefix_id) = false := by
  obtain ⟨hpre, hvpc, hcid, hsrc⟩ := subnetRowFor_spec now db vpc s
  unfold createSubnetPrefix
  dsimp only
  cases hok : dbInsertPrefix (subnetRowFor now db vpc s).2 (subnetRowFor now db vpc s).1 with
  | error e => left; exact hpre
  | ok pr =>
    obtain ⟨r, db2⟩ := pr
    obtain ⟨h1, hid, hv, hc, hs2, hfresh⟩ := dbInsertPrefix_ok_shape hok
    right
    refine ⟨r, ?_, ?_, ?_, ?_, ?_⟩
    · show db2.prefixes = db.prefixes ++ [r]
      rw [h1, hpre]
    · rw [hv, hvpc]
    · rw [hs2, hsrc]
    · rw [hc, hcid]
    · rw [hpre] at hfresh
      rw [hid]
      exact hfresh

theorem create_fold_shape (now : String) (vpc : VPC) :
    ∀ (ss : List AwsSubnetInfo) (db : DB),
    ∃ suffix : List Prefix,
      (List.foldl (fun d s => createSubnetPrefix now d vpc s) db ss).prefixes =
        db.prefixes ++ suffix ∧
      (∀ r ∈ suffix, r.vpc_id = some vpc.vpc_id ∧ r.source = Source.vpc ∧
        ∃ s ∈ ss, r.cidr = s.cidr_block) ∧
      ((prefixIds db.prefixes).Nodup → (prefixIds (db.prefixes ++ suffix)).Nodup) := by
  intro ss
  induction ss with
  | nil =>
    intro db
    exact ⟨[], by simp, by simp, fun h => by simpa using h⟩
  | cons s tl ih =>
    intro db
    simp only [List.foldl_cons]
    rcases createSubnetPrefix_shape now db vpc s with h1 | ⟨row, h1, hvpc, hsrc, hcid, hfresh⟩
    · obtain ⟨suffix, hs1, hs2, hs3⟩ := ih (createSubnetPrefix now db vpc s)
      refine ⟨suffix, ?_, ?_, ?_⟩
      · rw [hs1, h1]
      · intro r hr
        obtain ⟨ha, hb, s', hs', hc⟩ := hs2 r hr
        exact ⟨ha, hb, s', List.mem_cons_of_mem s hs', hc⟩
      · intro hnd
        have h2 := hs3 (by rw [h1]; exact hnd)
        rw [h1] at h2
        exact h2
    · obtain ⟨suffix, hs1, hs2, hs3⟩ := ih (createSubnetPrefix now db vpc s)
      refine ⟨row :: suffix, ?_, ?_, ?_⟩
      · rw [hs1, h1]
        simp
      · intro r hr
        rcases List.mem_cons.mp hr with h | h
        · subst h
          exact ⟨hvpc, hsrc, s, List.mem_cons_self s tl, hcid⟩
        · obtain ⟨ha, hb, s', hs', hc⟩ := hs2 r h
          exact ⟨ha, hb, s', List.mem_cons_of_mem s hs', hc⟩
      · intro hnd
        have hnd1 : (prefixIds (db.prefixes ++ [row])).Nodup := by
          unfold prefixIds
          rw [List.map_append]
          refine List.Nodup.append hnd (by simp) ?_
          intro a ha hb
          have hae : a = row.prefix_id := by simpa using hb
          subst hae
          obtain ⟨q, hq, hqe⟩ := List.mem_map.mp ha
          have ht : List.any db.prefixes (fun q => q.prefix_id == row.prefix_id) = true :=
            List.any_eq_true.mpr ⟨q, hq, by simp [hqe]⟩
          rw [hfresh] at ht
          exact Bool.noConfusion ht
        have h2 := hs3 (by rw [h1]; exact hnd1)
        rw [h1, List.append_assoc, List.singleton_append] at h2
        exact h2

theorem tombstoneSubnetPrefix_ids (now : String) (db : DB) (pid : String) :
    prefixIds (tombstoneSubnetPrefix now db pid).prefixes = prefixIds db.prefixes := by
  unfold tombstoneSubnetPrefix
  cases hf : db.findPrefixById pid with
  | none => rfl
  | some p =>
    have hpid : p.prefix_id = pid := by simpa using List.find?_some hf
    exact replacePrefixRow_ids hpid

theorem tombstoneSubnetPrefix_filter {now : String} {db : DB} {pid Vid : String}
    (hall : ∀ q ∈ db.prefixes, q.prefix_id = pid → (q.vpc_id == some Vid) = false) :
    List.filter (fun p => p.vpc_id == some Vid) (tombstoneSubnetPrefix now db pid).prefixes =
      List.filter (fun p => p.vpc_id == some Vid) db.prefixes := by
  unfold tombstoneSubnetPrefix
  cases hf : db.findPrefixById pid with
  | none => rfl
  | some p =>
    have hmem : p ∈ db.prefixes := List.mem_of_find?_eq_some hf
    have hpid : p.prefix_id = pid := by simpa using List.find?_some hf
    exact replacePrefixRow_filter hall (hall p hmem hpid)

theorem tombstoneSubnetPrefix_keep {now : String} {db : DB} {pid : String} {r : Prefix}
    (hr : r ∈ db.prefixes) (hne : r.prefix_id ≠ pid) :
    r ∈ (tombstoneSubnetPrefix now db pid).prefixes := by
  unfold tombstoneSubnetPrefix
  cases hf : db.findPrefixById pid with
  | none => exact hr
  | some p => exact replacePrefixRow_keep hr hne

theorem tombstoneSubnetPrefix_hit {now : String} {db : DB} {p : Prefix}
    (hnd : (prefixIds db.prefixes).Nodup) (hp : p ∈ db.prefixes) :
    tombstonedRow now p ∈ (tombstoneSubnetPrefix now db p.prefix_id).prefixes := by
  unfold tombstoneSubnetPrefix
  have hf : db.findPrefixById p.prefix_id = some p := find_by_id_nodup hnd hp rfl
  rw [hf]
  exact replacePrefixRow_hit hp rfl

theorem tombstoneSubnetPrefix_mem {now : String} {db : DB} {pid : String} {q : Prefix}
    (hq : q ∈ (tombstoneSubnetPrefix now db pid).prefixes) :
    q ∈ db.prefixes ∨
      ∃ q0 ∈ db.prefixes, q0.prefix_id = pid ∧ q = tombstonedRow now q0 := by
  revert hq
  unfold tombstoneSubnetPrefix
  cases hf : db.findPrefixById pid with
  | none => exact fun hq => Or.inl hq
  | some p =>
    intro hq
    have hpid : p.prefix_id = pid := by simpa using List.find?_some hf
    have hmem : p ∈ db.prefixes := List.mem_of_find?_eq_some hf
    unfold replacePrefixRow at hq
    dsimp only at hq
    obtain ⟨x, hx, hxe⟩ := List.mem_map.mp hq
    by_cases hc : (x.prefix_id == pid) = true
    · right
      refine ⟨p, hmem, hpid, ?_⟩
      rw [← hxe]
      simp [hc]
    · have hcf : (x.prefix_id == pid) = false := by simpa using hc
      left
      rw [← hxe]
      simp [hcf, hx]

theorem updateSubnetPrefix_ids (now : String) (db : DB) (vpcId : String) (s : AwsSubnetInfo) :
    prefixIds (updateSubnetPrefix now db vpcId s).prefixes = prefixIds db.prefixes := by
  unfold updateSubnetPrefix
  cases hf : List.find? (fun p => p.vpc_id == some vpcId && p.cidr == s.cidr_block &&
      p.source == Source.vpc) db.prefixes with
  | none => rfl
  | some p => exact replacePrefixRow_ids rfl

theorem updateSubnetPrefix_filter {now : String} {db : DB} {vpcId Vid : String} {s : AwsSubnetInfo}
    (hnd : (prefixIds db.prefixes).Nodup) (hne : vpcId ≠ Vid) :
    List.filter (fun p => p.vpc_id == some Vid) (updateSubnetPrefix now db vpcId s).prefixes =
      List.filter (fun p => p.vpc_id == some Vid) db.prefixes := by
  unfold updateSubnetPrefix
  cases hf : List.find? (fun p => p.vpc_id == some vpcId && p.cidr == s.cidr_block &&
      p.source == Source.vpc) db.prefixes with
  | none => rfl
  | some p =>
    have hmem : p ∈ db.prefixes := List.mem_of_find?_eq_some hf
    have hmt := List.find?_some hf
    simp only [Bool.and_eq_true, beq_iff_eq] at hmt
    have hpnv : (p.vpc_id == some Vid) = false := by simp [hmt.1.1, hne]
    have hall : ∀ q ∈ db.prefixes, q.prefix_id = p.prefix_id →
        (q.vpc_id == some Vid) = false := by
      intro q hq hqid
      have hqp : q = p := List.inj_on_of_nodup_map hnd hq hmem hqid
      rw [hqp]
      exact hpnv
    exact replacePrefixRow_filter hall hpnv

theorem updateSubnetPrefix_keep {now : String} {db : DB} {vpcId : String} {s : AwsSubnetInfo}
    {r : Prefix} (hnd : (prefixIds db.prefixes).Nodup) (hr : r ∈ db.prefixes)
    (hcid : s.cidr_block ≠ r.cidr) :
    r ∈ (updateSubnetPrefix now db vpcId s).prefixes := by
  unfold updateSubnetPrefix
  cases hf : List.find? (fun p => p.vpc_id == some vpcId && p.cidr == s.cidr_block &&
      p.source == Source.vpc) db.prefixes with
  | none => exact hr
  | some p =>
    have hmem : p ∈ db.prefixes := List.mem_of_find?_eq_some hf
    have hmt := List.find?_some hf
    simp only [Bool.and_eq_true, beq_iff_eq] at hmt
    have hne2 : r.prefix_id ≠ p.prefix_id := by
      intro he
      have hrp : r = p := List.inj_on_of_nodup_map hnd hr hmem he
      exact hcid (by rw [hrp, hmt.1.2])
    exact replacePrefixRow_keep hr hne2

theorem updateSubnetPrefix_hit {now : String} {db : DB} {vpcId : String} {s : AwsSubnetInfo}
    {p : Prefix} (hp : p ∈ db.prefixes) (hpv : p.vpc_id = some vpcId)
    (hpc : p.cidr = s.cidr_block) (hps : p.source = Source.vpc)
    (huniq : ∀ q ∈ db.prefixes, q.vpc_id = some vpcId → q.cidr = s.cidr_block →
      q.source = Source.vpc → q = p) :
    updatedSubnetRow now s p ∈ (updateSubnetPrefix now db vpcId s).prefixes := by
  unfold updateSubnetPrefix
  have hf : List.find? (fun q => q.vpc_id == some vpcId && q.cidr == s.cidr_block &&
      q.source == Source.vpc) db.prefixes = some p := by
    apply find_first_of_unique hp
    · simp [hpv, hpc, hps]
    · intro q hq hfq
      simp only [Bool.and_eq_true, beq_iff_eq] at hfq
      exact huniq q hq hfq.1.1 hfq.1.2 hfq.2
  rw [hf]
  exact replacePrefixRow_hit hp rfl

theorem updateSubnetPrefix_mem {now : String} {db : DB} {vpcId : String} {s : AwsSubnetInfo}
    {q : Prefix} (hq : q ∈ (updateSubnetPrefix now db vpcId s).prefixes) :
    q ∈ db.prefixes ∨
      ∃ q0 ∈ db.prefixes, q0.vpc_id = some vpcId ∧ q0.cidr = s.cidr_block ∧
        q0.source = Source.vpc ∧ q = updatedSubnetRow now s q0 := by
  revert hq
  unfold updateSubnetPrefix
  cases hf : List.find? (fun p => p.vpc_id == some vpcId && p.cidr == s.cidr_block &&
      p.source == Source.vpc) db.prefixes with
  | none => exact fun hq => Or.inl hq
  | some p =>
    intro hq
    have hmem : p ∈ db.prefixes := List.mem_of_find?_eq_some hf
    have hmt := List.find?_some hf
    simp only [Bool.and_eq_true, beq_iff_eq] at hmt
    unfold replacePrefixRow at hq
    dsimp only at hq
    obtain ⟨x, hx, hxe⟩ := List.mem_map.mp hq
    by_cases hc : (x.prefix_id == p.prefix_id) = true
    · right
      refine ⟨p, hmem, hmt.1.1, hmt.1.2, hmt.2, ?_⟩
      rw [← hxe]
      simp [hc]
    · have hcf : (x.prefix_id == p.prefix_id) = false := by simpa using hc
      left
      rw [← hxe]
      simp [hcf, hx]

/-! #### Fold-level frame lemmas for one VPC sync -/

theorem tombstone_fold_frame {now Vid : String} :
    ∀ (ds : List Prefix) (db : DB),
    (∀ x ∈ ds, ∀ q ∈ db.prefixes, q.prefix_id = x.prefix_id →
      (q.vpc_id == some Vid) = false) →
    List.filter (fun p => p.vpc_id == some Vid)
        (List.foldl (fun d x => tombstoneSubnetPrefix now d x.prefix_id) db ds).prefixes =
      List.filter (fun p => p.vpc_id == some Vid) db.prefixes ∧
    prefixIds (List.foldl (fun d x => tombstoneSubnetPrefix now d x.prefix_id) db ds).prefixes =
      prefixIds db.prefixes := by
  intro ds
  induction ds with
  | nil => intro db _; exact ⟨rfl, rfl⟩
  | cons x tl ih =>
    intro db h
    simp only [List.foldl_cons]
    have hx := h x (List.mem_cons_self x tl)
    have h1 := @tombstoneSubnetPrefix_filter now db x.prefix_id Vid hx
    have h2 := tombstoneSubnetPrefix_ids now db x.prefix_id
    have h' : ∀ y ∈ tl, ∀ q ∈ (tombstoneSubnetPrefix now db x.prefix_id).prefixes,
        q.prefix_id = y.prefix_id → (q.vpc_id == some Vid) = false := by
      intro y hy q hq hqid
      rcases tombstoneSubnetPrefix_mem hq with hold | ⟨q0, hq0, hq0id, hqe⟩
      · exact h y (List.mem_cons_of_mem x hy) q hold hqid
      · have hq0v : (q0.vpc_id == some Vid) = false := hx q0 hq0 hq0id
        rw [hqe]
        exact hq0v
    obtain ⟨ht1, ht2⟩ := ih (tombstoneSubnetPrefix now db x.prefix_id) h'
    exact ⟨ht1.trans h1, ht2.trans h2⟩

theorem update_fold_frame {now vpcId Vid : String} (hne : vpcId ≠ Vid) :
    ∀ (ss : List AwsSubnetInfo) (db : DB), (prefixIds db.prefixes).Nodup →
    List.filter (fun p => p.vpc_id == some Vid)
        (List.foldl (fun d s => updateSubnetPrefix now d vpcId s) db ss).prefixes =
      List.filter (fun p => p.vpc_id == some Vid) db.prefixes ∧
    prefixIds (List.foldl (fun d s => updateSubnetPrefix now d vpcId s) db ss).prefixes =
      prefixIds db.prefixes := by
  intro ss
  induction ss with
  | nil => intro db _; exact ⟨rfl, rfl⟩
  | cons s tl ih =>
    intro db hnd
    simp only [List.foldl_cons]
    have h1 := @updateSubnetPrefix_filter now db vpcId Vid s hnd hne
    have h2 := updateSubnetPrefix_ids now db vpcId s
    have hnd' : (prefixIds (updateSubnetPrefix now db vpcId s).prefixes).Nodup := by
      rw [h2]; exact hnd
    obtain ⟨ht1, ht2⟩ := ih (updateSubnetPrefix now db vpcId s) hnd'
    exact ⟨ht1.trans h1, ht2.trans h2⟩

theorem sync_pipeline_frame {now Vid : String} {vpc : VPC}
    (news upds : List AwsSubnetInfo) (dels : List Prefix) (db : DB)
    (hne : vpc.vpc_id ≠ Vid)
    (hnd : (prefixIds db.prefixes).Nodup)
    (hdels : ∀ x ∈ dels, x ∈ db.prefixes ∧ x.vpc_id = some vpc.vpc_id) :
    List.filter (fun p => p.vpc_id == some Vid)
        (List.foldl (fun d s => updateSubnetPrefix now d vpc.vpc_id s)
          (List.foldl (fun d x => tombstoneSubnetPrefix now d x.prefix_id)
            (List.foldl (fun d s => createSubnetPrefix now d vpc s) db news) dels)
          upds).prefixes =
      List.filter (fun p => p.vpc_id == some Vid) db.prefixes ∧
    (prefixIds (List.foldl (fun d s => updateSubnetPrefix now d vpc.vpc_id s)
        (List.foldl (fun d x => tombstoneSubnetPrefix now d x.prefix_id)
          (List.foldl (fun d s => createSubnetPrefix now d vpc s) db news) dels)
        upds).prefixes).Nodup := by
  obtain ⟨suffix, hc1, hc2, hc3⟩ := create_fold_shape now vpc news db
  have hnd1 : (prefixIds
      (List.foldl (fun d s => createSubnetPrefix now d vpc s) db news).prefixes).Nodup := by
    rw [hc1]; exact hc3 hnd
  have hvne : (some vpc.vpc_id == some Vid) = false := by simp [hne]
  have hfc : List.filter (fun p => p.vpc_id == some Vid)
      (List.foldl (fun d s => createSubnetPrefix now d vpc s) db news).prefixes =
      List.filter (fun p => p.vpc_id == some Vid) db.prefixes := by
    rw [hc1, List.filter_append]
    have hsuf : List.filter (fun p => p.vpc_id == some Vid) suffix = [] := by
      rw [List.filter_eq_nil_iff]
      intro r hr
      rw [(hc2 r hr).1]
      simp [hne]
    rw [hsuf, List.append_nil]
  have hall : ∀ x ∈ dels,
      ∀ q ∈ (List.foldl (fun d s => createSubnetPrefix now d vpc s) db news).prefixes,
      q.prefix_id = x.prefix_id → (q.vpc_id == some Vid) = false := by
    intro x hx q hq hqid
    rw [hc1] at hq
    rcases List.mem_append.mp hq with hq | hq
    · have hxd := (hdels x hx).1
      have hqx : q = x := List.inj_on_of_nodup_map hnd hq hxd hqid
      rw [hqx, (hdels x hx).2]
      exact hvne
    · rw [(hc2 q hq).1]
      exact hvne
  obtain ⟨ht1, ht2⟩ := tombstone_fold_frame dels _ hall
  have hnd2 : (prefixIds (List.foldl (fun d x => tombstoneSubnetPrefix now d x.prefix_id)
      (List.foldl (fun d s => createSubnetPrefix now d vpc s) db news) dels).prefixes).Nodup := by
    rw [ht2]; exact hnd1
  obtain ⟨hu1, hu2⟩ := @update_fold_frame now vpc.vpc_id Vid hne upds _ hnd2
  constructor
  · rw [hu1, ht1, hfc]
  · rw [hu2]
    exact hnd2

theorem syncVpcSubnets_frame {now Vid : String} {vpc : VPC} (db : DB)
    (subnets : List AwsSubnetInfo) (hne : vpc.vpc_id ≠ Vid)
    (hnd : (prefixIds db.prefixes).Nodup) :
    List.filter (fun p => p.vpc_id == some Vid) (syncVpcSubnets now db vpc subnets).prefixes =
      List.filter (fun p => p.vpc_id == some Vid) db.prefixes ∧
    (prefixIds (syncVpcSubnets now db vpc subnets).prefixes).Nodup := by
  unfold syncVpcSubnets
  dsimp only
  refine sync_pipeline_frame _ _ _ db hne hnd ?_
  intro x hx
  have h1 := List.mem_filter.mp hx
  have h2 := List.mem_filter.mp h1.1
  refine ⟨h2.1, ?_⟩
  have h3 := h2.2
  simp only [Bool.and_eq_true, beq_iff_eq] at h3
  exact h3.1

/-- **C9**: for a VPC whose reachability probe fails, the sync cycle
performs no creates, tombstone taggings or updates for that VPC: the
stored prefixes carrying that `vpc_id` come out of the cycle
bit-identical (the other VPCs of the registry may be synced, under the
primary-key `Nodup` invariants of the store). -/
theorem claim_C9_unreachable_preserved (now : String) (db : DB)
    (report : String → CloudReport) (V : VPC)
    (hV : V ∈ db.vpcs)
    (hvnd : (List.map (fun v => v.vpc_id) db.vpcs).Nodup)
    (hnd : (prefixIds db.prefixes).Nodup)
    (hunreach : (report V.provider_vpc_id).reachable = false) :
    List.filter (fun p => p.vpc_id == some V.vpc_id) (runSyncCycle now db report).prefixes =
      List.filter (fun p => p.vpc_id == some V.vpc_id) db.prefixes := by
  unfold runSyncCycle
  dsimp only
  have main : ∀ (reg : List VPC) (d : DB),
      (∀ w ∈ reg, w ∈ db.vpcs) →
      (prefixIds d.prefixes).Nodup →
      List.filter (fun p => p.vpc_id == some V.vpc_id) d.prefixes =
        List.filter (fun p => p.vpc_id == some V.vpc_id) db.prefixes →
      List.filter (fun p => p.vpc_id == some V.vpc_id)
          (List.foldl (fun d vpc =>
            if !(report vpc.provider_vpc_id).reachable then d
            else syncVpcSubnets now d vpc (report vpc.provider_vpc_id).subnets) d reg).prefixes =
        List.filter (fun p => p.vpc_id == some V.vpc_id) db.prefixes := by
    intro reg
    induction reg with
    | nil => intro d _ _ hbase; simpa using hbase
    | cons w tl ih =>
      intro d hmem hndd hbase
      simp only [List.foldl_cons]
      by_cases hr : (report w.provider_vpc_id).reachable = true
      · have hwne : w.vpc_id ≠ V.vpc_id := by
          intro he
          have hwV : w = V :=
            List.inj_on_of_nodup_map hvnd (hmem w (List.mem_cons_self w tl)) hV he
          rw [hwV, hunreach] at hr
          exact Bool.noConfusion hr
        have hstep : (if !(report w.provider_vpc_id).reachable then d
            else syncVpcSubnets now d w (report w.provider_vpc_id).subnets) =
            syncVpcSubnets now d w (report w.provider_vpc_id).subnets := by
          simp [hr]
        rw [hstep]
        obtain ⟨hf, hn⟩ :=
          @syncVpcSubnets_frame now V.vpc_id w d (report w.provider_vpc_id).subnets hwne hndd
        exact ih _ (fun y hy => hmem y (List.mem_cons_of_mem w hy)) hn (hf.trans hbase)
      · have hrf : (report w.provider_vpc_id).reachable = false := by simpa using hr
        have hstep : (if !(report w.provider_vpc_id).reachable then d
            else syncVpcSubnets now d w (report w.provider_vpc_id).subnets) = d := by
          simp [hrf]
        rw [hstep]
        exact ih d (fun y hy => hmem y (List.mem_cons_of_mem w hy)) hndd hbase
  exact main _ db (fun w hw => (List.mem_filter.mp hw).1) hnd rfl

/-! #### Keep/hit lemmas: what one sync does to a tracked row -/

theorem bnot_eq_true {b : Bool} (h : (!b) = true) : b = false := by
  cases b with
  | false => rfl
  | true => exact Bool.noConfusion h

theorem contains_eq_false_iff {α : Type} [BEq α] [LawfulBEq α] {l : List α} {a : α} :
    (l.contains a = false) ↔ ¬ a ∈ l := by
  constructor
  · intro h hm
    exact Bool.noConfusion ((List.elem_eq_true_of_mem hm).symm.trans h)
  · intro h
    cases he : List.elem a l with
    | false => exact he
    | true => exact absurd (List.mem_of_elem_eq_true he) h

theorem tombstone_fold_ids {now : String} :
    ∀ (ds : List Prefix) (d : DB),
    prefixIds (List.foldl (fun d x => tombstoneSubnetPrefix now d x.prefix_id) d ds).prefixes =
      prefixIds d.prefixes := by
  intro ds
  induction ds with
  | nil => intro d; rfl
  | cons x tl ih =>
    intro d
    simp only [List.foldl_cons]
    rw [ih, tombstoneSubnetPrefix_ids]

theorem tombstone_fold_keep {now : String} :
    ∀ (ds : List Prefix) (d : DB) (r : Prefix),
    r ∈ d.prefixes → (∀ x ∈ ds, x.prefix_id ≠ r.prefix_id) →
    r ∈ (List.foldl (fun d x => tombstoneSubnetPrefix now d x.prefix_id) d ds).prefixes := by
  intro ds
  induction ds with
  | nil => intro d r hr _; exact hr
  | cons x tl ih =>
    intro d r hr hne
    simp only [List.foldl_cons]
    refine ih _ r ?_ (fun y hy => hne y (List.mem_cons_of_mem x hy))
    exact tombstoneSubnetPrefix_keep hr (hne x (List.mem_cons_self x tl)).symm

theorem update_fold_keep {now vpcId : String} :
    ∀ (ss : List AwsSubnetInfo) (d : DB) (r : Prefix),
    (prefixIds d.prefixes).Nodup → r ∈ d.prefixes →
    (∀ s ∈ ss, s.cidr_block ≠ r.cidr) →
    r ∈ (List.foldl (fun d s => updateSubnetPrefix now d vpcId s) d ss).prefixes := by
  intro ss
  induction ss with
  | nil => intro d r _ hr _; exact hr
  | cons s tl ih =>
    intro d r hnd hr hne
    simp only [List.foldl_cons]
    have hnd' : (prefixIds (updateSubnetPrefix now d vpcId s).prefixes).Nodup := by
      rw [updateSubnetPrefix_ids]; exact hnd
    refine ih _ r hnd' ?_ (fun y hy => hne y (List.mem_cons_of_mem s hy))
    exact updateSubnetPrefix_keep hnd hr (hne s (List.mem_cons_self s tl))

theorem tombstone_fold_hits {now : String} :
    ∀ (ds : List Prefix) (d : DB) (p : Prefix),
    (prefixIds d.prefixes).Nodup →
    (List.map (fun x => x.prefix_id) ds).Nodup →
    (∀ x ∈ ds, x ∈ d.prefixes) →
    p ∈ ds →
    tombstonedRow now p ∈
      (List.foldl (fun d x => tombstoneSubnetPrefix now d x.prefix_id) d ds).prefixes := by
  intro ds
  induction ds with
  | nil => intro d p _ _ _ hp; cases hp
  | cons x tl ih =>
    intro d p hnd hdnd hmem hp
    simp only [List.foldl_cons]
    rw [List.map_cons, List.nodup_cons] at hdnd
    obtain ⟨hxn, htlnd⟩ := hdnd
    by_cases hc : x.prefix_id = p.prefix_id
    · have hxd := hmem x (List.mem_cons_self x tl)
      have hpd : p ∈ d.prefixes := by
        rcases List.mem_cons.mp hp with h | h
        · rw [h]; exact hxd
        · exact hmem p (List.mem_cons_of_mem x h)
      have hxp : x = p := List.inj_on_of_nodup_map hnd hxd hpd hc
      rw [hxp]
      have hhit := @tombstoneSubnetPrefix_hit now d p hnd hpd
      apply tombstone_fold_keep tl _ _ hhit
      intro y hy he
      apply hxn
      have he' : y.prefix_id = p.prefix_id := he
      rw [hc, ← he']
      exact List.mem_map_of_mem _ hy
    · have hptl : p ∈ tl := by
        rcases List.mem_cons.mp hp with h | h
        · exact absurd (by rw [h]) hc
        · exact h
      refine ih (tombstoneSubnetPrefix now d x.prefix_id) p ?_ htlnd ?_ hptl
      · rw [tombstoneSubnetPrefix_ids]; exact hnd
      · intro y hy
        refine tombstoneSubnetPrefix_keep (hmem y (List.mem_cons_of_mem x hy)) ?_
        intro he
        apply hxn
        rw [← he]
        exact List.mem_map_of_mem _ hy

theorem tombstone_fold_uniq {now vpcId : String} {p : Prefix} :
    ∀ (ds : List Prefix) (d : DB),
    (∀ x ∈ ds, x.prefix_id ≠ p.prefix_id) →
    (∀ q ∈ d.prefixes, q.vpc_id = some vpcId → q.cidr = p.cidr →
      q.source = Source.vpc → q = p) →
    ∀ q ∈ (List.foldl (fun d x => tombstoneSubnetPrefix now d x.prefix_id) d ds).prefixes,
      q.vpc_id = some vpcId → q.cidr = p.cidr → q.source = Source.vpc → q = p := by
  intro ds
  induction ds with
  | nil => intro d _ hu; exact hu
  | cons x tl ih =>
    intro d hne hu
    simp only [List.foldl_cons]
    refine ih _ (fun y hy => hne y (List.mem_cons_of_mem x hy)) ?_
    intro q hq hqv hqc hqs
    rcases tombstoneSubnetPrefix_mem hq with hold | ⟨q0, hq0, hq0id, hqe⟩
    · exact hu q hold hqv hqc hqs
    · exfalso
      have hq0v : q0.vpc_id = some vpcId := by rw [hqe] at hqv; exact hqv
      have hq0c : q0.cidr = p.cidr := by rw [hqe] at hqc; exact hqc
      have hq0s : q0.source = Source.vpc := by rw [hqe] at hqs; exact hqs
      have hq0p : q0 = p := hu q0 hq0 hq0v hq0c hq0s
      apply hne x (List.mem_cons_self x tl)
      rw [← hq0id, hq0p]

theorem update_fold_hits {now vpcId : String} :
    ∀ (ss : List AwsSubnetInfo) (d : DB) (p : Prefix) (s : AwsSubnetInfo),
    (prefixIds d.prefixes).Nodup →
    (List.map (fun x => x.cidr_block) ss).Nodup →
    p ∈ d.prefixes → s ∈ ss → s.cidr_block = p.cidr →
    p.vpc_id = some vpcId → p.source = Source.vpc →
    (∀ q ∈ d.prefixes, q.vpc_id = some vpcId → q.cidr = p.cidr →
      q.source = Source.vpc → q = p) →
    updatedSubnetRow now s p ∈
      (List.foldl (fun d s => updateSubnetPrefix now d vpcId s) d ss).prefixes := by
  intro ss
  induction ss with
  | nil => intro d p s _ _ _ hs; cases hs
  | cons s0 tl ih =>
    intro d p s hnd hcnd hp hs hcid hpv hps hu
    simp only [List.foldl_cons]
    rw [List.map_cons, List.nodup_cons] at hcnd
    obtain ⟨hc0n, htlnd⟩ := hcnd
    by_cases hc : s0.cidr_block = p.cidr
    · have hss : s = s0 := by
        rcases List.mem_cons.mp hs with h | h
        · exact h
        · exfalso
          apply hc0n
          have hsc : s0.cidr_block = s.cidr_block := hc.trans hcid.symm
          rw [hsc]
          exact List.mem_map_of_mem _ h
      rw [hss]
      have hhit := @updateSubnetPrefix_hit now d vpcId s0 p hp hpv hc.symm hps
        (fun q hq hv hcd hsrc => hu q hq hv (hcd.trans hc) hsrc)
      refine update_fold_keep tl _ _ ?_ hhit ?_
      · rw [updateSubnetPrefix_ids]; exact hnd
      · intro y hy he
        apply hc0n
        have he' : y.cidr_block = p.cidr := he
        rw [hc, ← he']
        exact List.mem_map_of_mem _ hy
    · have hstl : s ∈ tl := by
        rcases List.mem_cons.mp hs with h | h
        · exact absurd (by rw [← h]; exact hcid) hc
        · exact h
      have hnd' : (prefixIds (updateSubnetPrefix now d vpcId s0).prefixes).Nodup := by
        rw [updateSubnetPrefix_ids]; exact hnd
      have hp' : p ∈ (updateSubnetPrefix now d vpcId s0).prefixes :=
        updateSubnetPrefix_keep hnd hp hc
      have hu' : ∀ q ∈ (updateSubnetPrefix now d vpcId s0).prefixes,
          q.vpc_id = some vpcId → q.cidr = p.cidr → q.source = Source.vpc → q = p := by
        intro q hq hv hcd hsrc
        rcases updateSubnetPrefix_mem hq with hold | ⟨q0, hq0, hq0v, hq0c, hq0s, hqe⟩
        · exact hu q hold hv hcd hsrc
        · exfalso
          apply hc
          have hqc0 : q.cidr = q0.cidr := by rw [hqe]; rfl
          exact (hq0c.symm.trans (hqc0.symm.trans hcd))
      exact ih (updateSubnetPrefix now d vpcId s0) p s hnd' htlnd hp' hstl hcid hpv hps hu'

theorem sync_pipeline_tombstones {now : String} {vpc : VPC}
    (news upds : List AwsSubnetInfo) (dels : List Prefix) (db : DB) (p : Prefix)
    (hnd : (prefixIds db.prefixes).Nodup)
    (hdels_sub : ∀ x ∈ dels, x ∈ db.prefixes)
    (hdndd : (List.map (fun x => x.prefix_id) dels).Nodup)
    (hp : p ∈ dels)
    (hupd : ∀ s ∈ upds, s.cidr_block ≠ p.cidr) :
    tombstonedRow now p ∈
      (List.foldl (fun d s => updateSubnetPrefix now d vpc.vpc_id s)
        (List.foldl (fun d x => tombstoneSubnetPrefix now d x.prefix_id)
          (List.foldl (fun d s => createSubnetPrefix now d vpc s) db news) dels)
        upds).prefixes := by
  obtain ⟨suffix, hc1, hc2, hc3⟩ := create_fold_shape now vpc news db
  have hnd1 : (prefixIds
      (List.foldl (fun d s => createSubnetPrefix now d vpc s) db news).prefixes).Nodup := by
    rw [hc1]; exact hc3 hnd
  have hmem1 : ∀ x ∈ dels,
      x ∈ (List.foldl (fun d s => createSubnetPrefix now d vpc s) db news).prefixes := by
    intro x hx
    rw [hc1]
    exact List.mem_append_left _ (hdels_sub x hx)
  have hhit := @tombstone_fold_hits now dels
    (List.foldl (fun d s => createSubnetPrefix now d vpc s) db news) p hnd1 hdndd hmem1 hp
  have hnd2 : (prefixIds (List.foldl (fun d x => tombstoneSubnetPrefix now d x.prefix_id)
      (List.foldl (fun d s => createSubnetPrefix now d vpc s) db news) dels).prefixes).Nodup := by
    rw [tombstone_fold_ids]; exact hnd1
  refine update_fold_keep upds _ _ hnd2 hhit ?_
  intro y hy he
  exact hupd y hy he

theorem sync_pipeline_resurrect {now : String} {vpc : VPC}
    (news upds : List AwsSubnetInfo) (dels : List Prefix) (db : DB) (p : Prefix)
    (s : AwsSubnetInfo)
    (hnd : (prefixIds db.prefixes).Nodup)
    (hp : p ∈ db.prefixes)
    (hpv : p.vpc_id = some vpc.vpc_id) (hps : p.source = Source.vpc)
    (hnewc : ∀ t ∈ news, t.cidr_block ≠ p.cidr)
    (hdels_sub : ∀ x ∈ dels, x ∈ db.prefixes)
    (hdelc : ∀ x ∈ dels, x.cidr ≠ p.cidr)
    (hs : s ∈ upds) (hcid : s.cidr_block = p.cidr)
    (hcnd : (List.map (fun x => x.cidr_block) upds).Nodup)
    (huniq : ∀ q ∈ db.prefixes, q.vpc_id = some vpc.vpc_id → q.cidr = p.cidr →
      q.source = Source.vpc → q = p) :
    updatedSubnetRow now s p ∈
      (List.foldl (fun d s => updateSubnetPrefix now d vpc.vpc_id s)
        (List.foldl (fun d x => tombstoneSubnetPrefix now d x.prefix_id)
          (List.foldl (fun d s => createSubnetPrefix now d vpc s) db news) dels)
        upds).prefixes := by
  obtain ⟨suffix, hc1, hc2, hc3⟩ := create_fold_shape now vpc news db
  have hnd1 : (prefixIds
      (List.foldl (fun d s => createSubnetPrefix now d vpc s) db news).prefixes).Nodup := by
    rw [hc1]; exact hc3 hnd
  have hp1 : p ∈ (List.foldl (fun d s => createSubnetPrefix now d vpc s) db news).prefixes := by
    rw [hc1]
    exact List.mem_append_left _ hp
  have hu1 : ∀ q ∈ (List.foldl (fun d s => createSubnetPrefix now d vpc s) db news).prefixes,
      q.vpc_id = some vpc.vpc_id → q.cidr = p.cidr → q.source = Source.vpc → q = p := by
    intro q hq hv hcd hsrc
    rw [hc1] at hq
    rcases List.mem_append.mp hq with h | h
    · exact huniq q h hv hcd hsrc
    · exfalso
      obtain ⟨_, _, t, ht, htc⟩ := hc2 q h
      exact hnewc t ht (htc.symm.trans hcd)
  have hdne : ∀ x ∈ dels, x.prefix_id ≠ p.prefix_id := by
    intro x hx he
    have hxp : x = p := List.inj_on_of_nodup_map hnd (hdels_sub x hx) hp he
    exact hdelc x hx (by rw [hxp])
  have hp2 := @tombstone_fold_keep now dels
    (List.foldl (fun d s => createSubnetPrefix now d vpc s) db news) p hp1 hdne
  have hnd2 : (prefixIds (List.foldl (fun d x => tombstoneSubnetPrefix now d x.prefix_id)
      (List.foldl (fun d s => createSubnetPrefix now d vpc s) db news) dels).prefixes).Nodup := by
    rw [tombstone_fold_ids]; exact hnd1
  have hu2 := @tombstone_fold_uniq now vpc.vpc_id p dels _ hdne hu1
  exact update_fold_hits upds _ p s hnd2 hcnd hp2 hs hcid hpv hps hu2

/-- **C8**: a stored subnet of the VPC whose CIDR disappears from the
cloud report is tombstoned in place — the same row (same primary key)
stays in the store with the `deleted_from_aws` timestamp and the
`deletion_reason` tag added, never hard-deleted; and a tombstoned row
whose CIDR is reported again is refreshed in place: same `prefix_id`,
both deletion markers removed, and a `resurrected_at` timestamp added
(under the primary-key `Nodup` invariant; for the resurrection the
report lists each CIDR once and the row is the store's unique
`(vpc_id, cidr, source='vpc')` match, the uniqueness the sync's lookup
`first()` relies on). -/
theorem claim_C8_tombstone_resurrection (now : String) (db : DB) (vpc : VPC)
    (subnets : List AwsSubnetInfo) (p : Prefix)
    (hnd : (prefixIds db.prefixes).Nodup)
    (hp : p ∈ db.prefixes) (hpv : p.vpc_id = some vpc.vpc_id)
    (hps : p.source = Source.vpc) :
    ((∀ s ∈ subnets, s.cidr_block ≠ p.cidr) →
      tombstonedRow now p ∈ (syncVpcSubnets now db vpc subnets).prefixes ∧
      (tombstonedRow now p).prefix_id = p.prefix_id ∧
      Tags.get (tombstonedRow now p).tags "deleted_from_aws" = some now ∧
      Tags.get (tombstonedRow now p).tags "deletion_reason" = some "aws_subnet_not_found") ∧
    ((Tags.get p.tags "deleted_from_aws").isSome = true →
      ∀ s ∈ subnets, s.cidr_block = p.cidr →
      (List.map (fun x => x.cidr_block) subnets).Nodup →
      (∀ q ∈ db.prefixes, q.vpc_id = some vpc.vpc_id → q.cidr = p.cidr →
        q.source = Source.vpc → q = p) →
      updatedSubnetRow now s p ∈ (syncVpcSubnets now db vpc subnets).prefixes ∧
      (updatedSubnetRow now s p).prefix_id = p.prefix_id ∧
      Tags.get (updatedSubnetRow now s p).tags "deleted_from_aws" = none ∧
      Tags.get (updatedSubnetRow now s p).tags "deletion_reason" = none ∧
      Tags.get (updatedSubnetRow now s p).tags "resurrected_at" = some now) := by
  have hex : p ∈ List.filter
      (fun q => q.vpc_id == some vpc.vpc_id && q.source == Source.vpc) db.prefixes := by
    rw [List.mem_filter]
    exact ⟨hp, by simp [hpv, hps]⟩
  constructor
  · intro hA
    have hnm : ¬ p.cidr ∈ List.map (fun s => s.cidr_block) subnets := by
      intro hm
      obtain ⟨t, ht, hte⟩ := List.mem_map.mp hm
      exact hA t ht hte
    have hcf : List.contains (List.map (fun s => s.cidr_block) subnets) p.cidr = false :=
      contains_eq_false_iff.mpr hnm
    refine ⟨?_, rfl, ?_, ?_⟩
    · unfold syncVpcSubnets
      dsimp only
      refine sync_pipeline_tombstones _ _ _ db p hnd ?_ ?_ ?_ ?_
      · intro x hx
        exact (List.mem_filter.mp (List.mem_filter.mp hx).1).1
      · refine List.Nodup.sublist ?_ hnd
        exact List.Sublist.map _ ((List.filter_sublist _).trans (List.filter_sublist _))
      · rw [List.mem_filter]
        refine ⟨hex, ?_⟩
        rw [hcf]
        rfl
      · intro t ht hte
        exact hA t (List.mem_filter.mp ht).1 hte
    · show Tags.get (Tags.set (Tags.set p.tags "deleted_from_aws" now)
          "deletion_reason" "aws_subnet_not_found") "deleted_from_aws" = some now
      rw [Tags.get_set_ne _ _ (by decide)]
      exact Tags.get_set_self _ _ _
    · exact Tags.get_set_self _ _ _
  · intro hB s hs hcid hcnd huniq
    have hexc : p.cidr ∈ List.map (fun q => q.cidr) (List.filter
        (fun q => q.vpc_id == some vpc.vpc_id && q.source == Source.vpc) db.prefixes) :=
      List.mem_map_of_mem _ hex
    have hrow : (updatedSubnetRow now s p).tags =
        Tags.set (Tags.erase (Tags.erase (Tags.set (Tags.set (Tags.set (Tags.set p.tags
          "aws_subnet_id" s.subnet_id) "availability_zone" s.availability_zone)
          "state" s.state) "last_sync" now) "deleted_from_aws") "deletion_reason")
          "resurrected_at" now := by
      unfold updatedSubnetRow
      dsimp only
      rw [if_pos hB]
    refine ⟨?_, rfl, ?_, ?_, ?_⟩
    · unfold syncVpcSubnets
      dsimp only
      refine sync_pipeline_resurrect _ _ _ db p s hnd hp hpv hps ?_ ?_ ?_ ?_ hcid ?_ huniq
      · intro t ht hte
        have h2 := bnot_eq_true (List.mem_filter.mp ht).2
        apply contains_eq_false_iff.mp h2
        rw [hte]
        exact hexc
      · intro x hx
        exact (List.mem_filter.mp (List.mem_filter.mp hx).1).1
      · intro x hx hxe
        have h2 := bnot_eq_true (List.mem_filter.mp hx).2
        apply contains_eq_false_iff.mp h2
        rw [hxe, ← hcid]
        exact List.mem_map_of_mem _ hs
      · rw [List.mem_filter]
        refine ⟨hs, ?_⟩
        have hct : List.contains (List.map (fun q => q.cidr) (List.filter
            (fun q => q.vpc_id == some vpc.vpc_id && q.source == Source.vpc) db.prefixes))
            s.cidr_block = true := by
          apply List.elem_eq_true_of_mem
          rw [hcid]
          exact hexc
        rw [hct]
      · refine List.Nodup.sublist ?_ hcnd
        exact List.Sublist.map _ (List.filter_sublist _)
    · rw [hrow]
      rw [Tags.get_set_ne _ _ (by decide)]
      rw [Tags.get_erase_ne _ (by decide)]
      exact Tags.get_erase_self _ _
    · rw [hrow]
      rw [Tags.get_set_ne _ _ (by decide)]
      exact Tags.get_erase_self _ _
    · rw [hrow]
      exact Tags.get_set_self _ _ _

/-- **C8 witness**: on a one-row store, a sync with an empty report
tombstones the row in place, and a second sync re-announcing the CIDR
resurrects the tombstoned row; evaluated concretely through the claim
theorem. -/
theorem claim_C8_witness :
    (tombstonedRow "t1" rowP8 ∈ (syncVpcSubnets "t1" dbC8 vpcC8 []).prefixes ∧
      Tags.get (tombstonedRow "t1" rowP8).tags "deleted_from_aws" = some "t1" ∧
      Tags.get (tombstonedRow "t1" rowP8).tags "deletion_reason" = some "aws_subnet_not_found") ∧
    (updatedSubnetRow "t2" subC8 rowP8t ∈ (syncVpcSubnets "t2" dbC8t vpcC8 [subC8]).prefixes ∧
      (updatedSubnetRow "t2" subC8 rowP8t).prefix_id = rowP8t.prefix_id ∧
      Tags.get (updatedSubnetRow "t2" subC8 rowP8t).tags "deleted_from_aws" = none ∧
      Tags.get (updatedSubnetRow "t2" subC8 rowP8t).tags "deletion_reason" = none ∧
      Tags.get (updatedSubnetRow "t2" subC8 rowP8t).tags "resurrected_at" = some "t2") := by
  constructor
  · have h := (claim_C8_tombstone_resurrection "t1" dbC8 vpcC8 [] rowP8
      (by decide) (by decide) (by decide) (by decide)).1 (by intro s hs; cases hs)
    exact ⟨h.1, h.2.2.1, h.2.2.2⟩
  · exact (claim_C8_tombstone_resurrection "t2" dbC8t vpcC8 [subC8] rowP8t
      (by decide) (by decide) (by decide) (by decide)).2 (by decide) subC8
      (by decide) (by decide) (by decide) (by decide)

/-- **C9 witness**: a cycle whose report marks the registered VPC
unreachable leaves the VPC's stored prefix list untouched. -/
theorem claim_C9_witness :
    List.filter (fun p => p.vpc_id == some vpcC8.vpc_id)
        (runSyncCycle "t" dbC8 repC9).prefixes =
      List.filter (fun p => p.vpc_id == some vpcC8.vpc_id) dbC8.prefixes :=
  claim_C9_unreachable_preserved "t" dbC8 repC9 vpcC8 (by decide) (by decide) (by decide)
    (by decide)

/-! #### The indentation invariant -/

theorem IndentInv_congr {db db' : DB} (h : db'.prefixes = db.prefixes)
    (hinv : IndentInv db) : IndentInv db' := by
  obtain ⟨hnd, hall⟩ := hinv
  refine ⟨by rw [h]; exact hnd, ?_⟩
  intro p hp
  rw [h] at hp
  obtain ⟨h1, h2⟩ := hall p hp
  refine ⟨h1, ?_⟩
  intro pid hpid
  obtain ⟨q, hq, hqa, hqb⟩ := h2 pid hpid
  exact ⟨q, by rw [h]; exact hq, hqa, hqb⟩

theorem dbInsertPrefix_ok_indent {db : DB} {p row : Prefix} {db2 : DB}
    (h : dbInsertPrefix db p = .ok (row, db2)) :
    row.parent_prefix_id = p.parent_prefix_id ∧
    row.indentation_level = materializeIndentation db p.parent_prefix_id ∧
    (match p.parent_prefix_id with
     | none => true
     | some pid => (db.findPrefixById pid).isSome) = true := by
  unfold dbInsertPrefix at h
  split at h
  next => exact absurd h (by simp)
  next =>
    split at h
    next => exact absurd h (by simp)
    next =>
      split at h
      next => exact absurd h (by simp)
      next =>
        split at h
        next hc4 =>
          exact absurd h (by simp)
        next hc4 =>
          split at h
          next => exact absurd h (by simp)
          next =>
            dsimp only at h
            simp only [Except.ok.injEq, Prod.mk.injEq] at h
            obtain ⟨hrow, hdb⟩ := h
            subst hdb
            subst hrow
            refine ⟨rfl, rfl, ?_⟩
            cases hm : (match p.parent_prefix_id with
                | none => true
                | some pid => (db.findPrefixById pid).isSome) with
            | true => rfl
            | false =>
              rw [hm] at hc4
              exact absurd rfl hc4

theorem IndentInv_insert {db : DB} {p row : Prefix} {db2 : DB}
    (hinv : IndentInv db) (h : dbInsertPrefix db p = .ok (row, db2)) :
    IndentInv db2 := by
  obtain ⟨h1, hid, _, _, _, hfresh⟩ := dbInsertPrefix_ok_shape h
  obtain ⟨hpar, hind, hfk⟩ := dbInsertPrefix_ok_indent h
  obtain ⟨hnd, hall⟩ := hinv
  constructor
  · have hnew : (List.map (fun q => q.prefix_id) db2.prefixes) =
        List.map (fun q => q.prefix_id) db.prefixes ++ [row.prefix_id] := by
      rw [h1, List.map_append]
      rfl
    rw [hnew]
    refine List.Nodup.append hnd (by simp) ?_
    intro a ha hb
    have hae : a = row.prefix_id := by simpa using hb
    subst hae
    obtain ⟨q, hq, hqe⟩ := List.mem_map.mp ha
    have ht : List.any db.prefixes (fun q => q.prefix_id == p.prefix_id) = true :=
      List.any_eq_true.mpr ⟨q, hq, by simp [hqe, hid]⟩
    rw [hfresh] at ht
    exact Bool.noConfusion ht
  · intro r hr
    rw [h1] at hr
    rcases List.mem_append.mp hr with hr | hr
    · obtain ⟨ha, hb⟩ := hall r hr
      refine ⟨ha, ?_⟩
      intro pid hpid
      obtain ⟨q, hq, hqa, hqb⟩ := hb pid hpid
      refine ⟨q, ?_, hqa, hqb⟩
      rw [h1]
      exact List.mem_append_left _ hq
    · have hre : r = row := by simpa using hr
      subst hre
      constructor
      · intro hnone
        have hpn : p.parent_prefix_id = none := by rw [← hpar]; exact hnone
        rw [hind, hpn]
        rfl
      · intro pid hpid
        have hppid : p.parent_prefix_id = some pid := by rw [← hpar]; exact hpid
        simp only [hppid] at hfk
        cases hq : db.findPrefixById pid with
        | none => rw [hq] at hfk; exact absurd hfk (by simp)
        | some q =>
          have hqm : q ∈ db.prefixes := List.mem_of_find?_eq_some hq
          have hqid : q.prefix_id = pid := by simpa using List.find?_some hq
          refine ⟨q, ?_, hqid, ?_⟩
          · rw [h1]
            exact List.mem_append_left _ hqm
          · rw [hind, hppid]
            simp [materializeIndentation, hq]

theorem createManualPrefix_as_insert {db : DB} {vrf : String} {cidr : Cidr}
    {parent : Option String} {tags : Tags} {r f : Bool} {row : Prefix} {db2 : DB}
    (h : createManualPrefix db vrf cidr parent tags r f = .ok (row, db2)) :
    ∃ p0, dbInsertPrefix db p0 = .ok (row, db2) := by
  unfold createManualPrefix at h
  cases hv : validatePrefixConflicts db vrf cidr parent with
  | error e => rw [hv] at h; exact absurd h (by simp [Bind.bind, Except.bind])
  | ok u =>
    cases u
    rw [hv] at h
    cases hp : dbParentCheck db vrf cidr parent with
    | error e => rw [hp] at h; exact absurd h (by simp [Bind.bind, Except.bind])
    | ok u =>
      cases u
      rw [hp] at h
      simp only [Bind.bind, Except.bind] at h
      exact ⟨_, h⟩

theorem allocateSubnet_ok_create {db : DB} {vrf : String} {size : Nat} {tags : Tags}
    {routable : Bool} {pidOpt : Option String} {desc : Option String} {flag : Bool}
    {now : String} {alloc : Allocation} {db2 : DB}
    (h : allocateSubnet db vrf size tags routable pidOpt desc flag now = .ok (alloc, db2)) :
    ∃ cidr parent stags row,
      createManualPrefix db vrf cidr parent stags routable flag = .ok (row, db2) := by
  unfold allocateSubnet at h
  dsimp only at h
  split at h
  · exact absurd h (by simp)
  · obtain ⟨par, more, row, hrest⟩ := allocateFrom_ok h
    exact ⟨_, _, _, _, hrest.2.2.2.2.2.2.1⟩

theorem IndentInv_replaceRows {db : DB} {pid : String} {new : Prefix}
    (hinv : IndentInv db) (hid : new.prefix_id = pid)
    (hskel : ∀ q ∈ db.prefixes, q.prefix_id = pid →
      new.parent_prefix_id = q.parent_prefix_id ∧
      new.indentation_level = q.indentation_level) :
    IndentInv (replacePrefixRow db pid new) := by
  obtain ⟨hnd, hall⟩ := hinv
  constructor
  · have hids : List.map (fun p => p.prefix_id) (replacePrefixRow db pid new).prefixes =
        List.map (fun p => p.prefix_id) db.prefixes := @replacePrefixRow_ids db pid new hid
    rw [hids]
    exact hnd
  · intro r hr
    have htrans : ∀ q ∈ db.prefixes,
        ∃ q2 ∈ (replacePrefixRow db pid new).prefixes,
          q2.prefix_id = q.prefix_id ∧ q2.indentation_level = q.indentation_level := by
      intro q hq
      by_cases hc : (q.prefix_id == pid) = true
      · have hcq : q.prefix_id = pid := by simpa using hc
        exact ⟨new, replaceRows_hit hq hcq, hid.trans hcq.symm, (hskel q hq hcq).2⟩
      · have hcf : q.prefix_id ≠ pid := by simpa using hc
        exact ⟨q, replaceRows_keep hq hcf, rfl, rfl⟩
    replace hr : r ∈ List.map (fun q => if q.prefix_id == pid then new else q) db.prefixes := hr
    obtain ⟨x, hx, hxe⟩ := List.mem_map.mp hr
    obtain ⟨hx1, hx2⟩ := hall x hx
    by_cases hc : (x.prefix_id == pid) = true
    · have hcx : x.prefix_id = pid := by simpa using hc
      have hre : r = new := by rw [← hxe]; simp [hc]
      obtain ⟨hp1, hp2⟩ := hskel x hx hcx
      subst hre
      constructor
      · intro hn
        rw [hp2]
        exact hx1 (by rw [← hp1]; exact hn)
      · intro pid2 hpid2
        have hxp : x.parent_prefix_id = some pid2 := by rw [← hp1]; exact hpid2
        obtain ⟨q, hq, hqa, hqb⟩ := hx2 pid2 hxp
        obtain ⟨q2, hq2, hq2a, hq2b⟩ := htrans q hq
        refine ⟨q2, hq2, hq2a.trans hqa, ?_⟩
        rw [hp2, hqb, hq2b]
    · have hcf : (x.prefix_id == pid) = false := by simpa using hc
      have hre : r = x := by rw [← hxe]; simp [hcf]
      subst hre
      refine ⟨hx1, ?_⟩
      intro pid2 hpid2
      obtain ⟨q, hq, hqa, hqb⟩ := hx2 pid2 hpid2
      obtain ⟨q2, hq2, hq2a, hq2b⟩ := htrans q hq
      refine ⟨q2, hq2, hq2a.trans hqa, ?_⟩
      rw [hqb, hq2b]

theorem nodup_ids_rename {rows : List Prefix} {oldId : String} {new : Prefix}
    (hnd : (List.map (fun p => p.prefix_id) rows).Nodup)
    (hfresh : ∀ q ∈ rows, q.prefix_id ≠ new.prefix_id) :
    (List.map (fun p => p.prefix_id)
      (List.map (fun q => if q.prefix_id == oldId then new else q) rows)).Nodup := by
  induction rows with
  | nil => exact List.nodup_nil
  | cons a tl ih =>
    rw [List.map_cons, List.map_cons, List.nodup_cons]
    rw [List.map_cons, List.nodup_cons] at hnd
    obtain ⟨han, hndtl⟩ := hnd
    have hftl := fun q hq => hfresh q (List.mem_cons_of_mem a hq)
    have hsub : ∀ x, x ∈ List.map (fun p => p.prefix_id)
        (List.map (fun q => if q.prefix_id == oldId then new else q) tl) →
        x ∈ List.map (fun p => p.prefix_id) tl ∨ x = new.prefix_id := by
      intro x hx
      obtain ⟨q2, hq2, hqe⟩ := List.mem_map.mp hx
      obtain ⟨q, hq, hqe2⟩ := List.mem_map.mp hq2
      by_cases hc : (q.prefix_id == oldId) = true
      · right
        rw [← hqe, ← hqe2]
        simp [hc]
      · left
        have hcf : (q.prefix_id == oldId) = false := by simpa using hc
        have hqq : (if (q.prefix_id == oldId) = true then new else q) = q := by simp [hcf]
        rw [← hqe, ← hqe2, hqq]
        exact List.mem_map_of_mem _ hq
    constructor
    · by_cases hc : (a.prefix_id == oldId) = true
      · have hcq : a.prefix_id = oldId := by simpa using hc
        have hto : ∀ q ∈ tl, q.prefix_id ≠ oldId := by
          intro q hq he
          apply han
          rw [hcq, ← he]
          exact List.mem_map_of_mem _ hq
        have hmape : List.map (fun p => p.prefix_id)
            (List.map (fun q => if q.prefix_id == oldId then new else q) tl) =
            List.map (fun p => p.prefix_id) tl := by
          rw [List.map_map]
          refine List.map_congr_left ?_
          intro q hq
          have hb : (q.prefix_id == oldId) = false := by simp [hto q hq]
          simp [Function.comp, hb]
        have hha : ((if (a.prefix_id == oldId) = true then new else a) : Prefix) = new := by
          simp [hc]
        rw [hha, hmape]
        intro hmem
        obtain ⟨q, hq, hqe⟩ := List.mem_map.mp hmem
        exact hfresh q (List.mem_cons_of_mem a hq) hqe
      · have hcf : (a.prefix_id == oldId) = false := by simpa using hc
        have hha : ((if (a.prefix_id == oldId) = true then new else a) : Prefix) = a := by
          simp [hcf]
        rw [hha]
        intro hmem
        rcases hsub _ hmem with hin | heq
        · exact han hin
        · exact hfresh a (List.mem_cons_self a tl) heq
    · exact ih hndtl hftl

theorem IndentInv_dbWrite {db : DB} {oldId : String} {new : Prefix} {db2 : DB}
    (hinv : IndentInv db) (h : dbWritePrefix db oldId new = .ok db2)
    (hskel : ∀ q ∈ db.prefixes, q.prefix_id = oldId →
      new.parent_prefix_id = q.parent_prefix_id ∧
      new.indentation_level = q.indentation_level) :
    IndentInv db2 := by
  obtain ⟨hnd, hall⟩ := hinv
  unfold dbWritePrefix at h
  split at h
  next => exact absurd h (by simp)
  next hg1 =>
    split at h
    next => exact absurd h (by simp)
    next =>
      split at h
      next => exact absurd h (by simp)
      next =>
        split at h
        next => exact absurd h (by simp)
        next =>
          split at h
          next => exact absurd h (by simp)
          next =>
            dsimp only at h
            simp only [Except.ok.injEq] at h
            subst h
            by_cases hid : new.prefix_id = oldId
            · exact IndentInv_replaceRows ⟨hnd, hall⟩ hid hskel
            · have hB : ¬ (List.any db.prefixes (fun q => q.prefix_id == new.prefix_id) = true ∨
                  List.any db.prefixes (fun q => q.parent_prefix_id == some oldId) = true ∨
                  List.any db.associations (fun a => a.parent_prefix_id == oldId) = true) :=
                fun b => hg1 ⟨hid, b⟩
              have hdup : ∀ q ∈ db.prefixes, q.prefix_id ≠ new.prefix_id := by
                intro q hq he
                exact hB (Or.inl (List.any_eq_true.mpr ⟨q, hq, by simp [he]⟩))
              have href : ∀ q ∈ db.prefixes, q.parent_prefix_id ≠ some oldId := by
                intro q hq he
                exact hB (Or.inr (Or.inl (List.any_eq_true.mpr ⟨q, hq, by simp [he]⟩)))
              constructor
              · exact nodup_ids_rename hnd hdup
              · intro r hr
                replace hr : r ∈ List.map
                    (fun q => if q.prefix_id == oldId then new else q) db.prefixes := hr
                obtain ⟨x, hx, hxe⟩ := List.mem_map.mp hr
                have hpx : r.parent_prefix_id = x.parent_prefix_id ∧
                    r.indentation_level = x.indentation_level := by
                  by_cases hc : (x.prefix_id == oldId) = true
                  · have hcx : x.prefix_id = oldId := by simpa using hc
                    have hre : r = new := by rw [← hxe]; simp [hc]
                    obtain ⟨h1, h2⟩ := hskel x hx hcx
                    rw [hre]
                    exact ⟨h1, h2⟩
                  · have hcf : (x.prefix_id == oldId) = false := by simpa using hc
                    have hre : r = x := by rw [← hxe]; simp [hcf]
                    rw [hre]
                    exact ⟨rfl, rfl⟩
                obtain ⟨hrp, hri⟩ := hpx
                obtain ⟨hx1, hx2⟩ := hall x hx
                constructor
                · intro hn
                  rw [hri]
                  exact hx1 (by rw [← hrp]; exact hn)
                · intro pid2 hpid2
                  have hxp : x.parent_prefix_id = some pid2 := by rw [← hrp]; exact hpid2
                  obtain ⟨q, hq, hqa, hqb⟩ := hx2 pid2 hxp
                  have hqo : q.prefix_id ≠ oldId := by
                    intro he
                    exact href x hx (by rw [hxp, ← hqa, he])
                  refine ⟨q, ?_, hqa, by rw [hri, hqb]⟩
                  exact replaceRows_keep hq hqo

theorem IndentInv_updateManual {db : DB} {pid : String} {kwargs : Kwargs}
    {p2 : Prefix} {db2 : DB}
    (hinv : IndentInv db) (hnorep : reparents kwargs = false)
    (h : updateManualPrefix db pid kwargs = .ok (p2, db2)) :
    IndentInv db2 := by
  cases hf : db.findPrefixById pid with
  | none =>
    simp only [updateManualPrefix, hf] at h
    exact absurd h (by simp)
  | some p =>
    simp only [updateManualPrefix, hf] at h
    by_cases hs : p.source ≠ Source.manual
    · simp [hs] at h
    · simp only [hs, if_false] at h
      cases hw : dbWritePrefix db pid (applyPrefixKwargs p kwargs) with
      | error e => rw [hw] at h; exact absurd h (by simp)
      | ok db3 =>
        rw [hw] at h
        simp only [Except.ok.injEq, Prod.mk.injEq] at h
        obtain ⟨_, hdb⟩ := h
        subst hdb
        refine IndentInv_dbWrite hinv hw ?_
        intro q hq hqid
        have hppid : p.prefix_id = pid := by simpa using List.find?_some hf
        have hqp : q = p := List.inj_on_of_nodup_map hinv.1 hq
          (List.mem_of_find?_eq_some hf) (hqid.trans hppid.symm)
        subst hqp
        constructor
        · exact applyPrefixKwargs_proj (fun r => r.parent_prefix_id) "parent_prefix_id"
            (fun r k v hk => ((setPrefixAttr_fields r k v).2.2.2.2.1 hk)) kwargs q hnorep
        · exact applyPrefixKwargs_proj_all (fun r => r.indentation_level)
            (fun r k v => (setPrefixAttr_fields r k v).2.2.2.2.2.2.2.2.1) kwargs q

theorem updateVpc_prefixes {db : DB} {vpcId : String} {kwargs : Kwargs}
    {v2 : VPC} {db2 : DB}
    (h : updateVpc db vpcId kwargs = .ok (v2, db2)) : db2.prefixes = db.prefixes := by
  cases hf : List.find? (fun w => w.vpc_id == vpcId) db.vpcs with
  | none =>
    simp only [updateVpc, hf] at h
    exact absurd h (by simp)
  | some v =>
    simp only [updateVpc, hf] at h
    cases hw : dbWriteVpc db vpcId (applyVpcKwargs v kwargs) with
    | error e => rw [hw] at h; exact absurd h (by simp)
    | ok db3 =>
      rw [hw] at h
      simp only [Except.ok.injEq, Prod.mk.injEq] at h
      obtain ⟨_, hdb⟩ := h
      subst hdb
      unfold dbWriteVpc at hw
      split at hw
      next => exact absurd hw (by simp)
      next =>
        split at hw
        next => exact absurd hw (by simp)
        next =>
          simp only [Except.ok.injEq] at hw
          subst hw
          rfl

theorem IndentInv_delete {db : DB} {pid : String} {db2 : DB}
    (hinv : IndentInv db) (h : deleteManualPrefix db pid = .ok db2) :
    IndentInv db2 := by
  cases hf : db.findPrefixById pid with
  | none =>
    simp only [deleteManualPrefix, hf] at h
    exact absurd h (by simp)
  | some p =>
    simp only [deleteManualPrefix, hf] at h
    split at h
    next => exact absurd h (by simp)
    next =>
      split at h
      next => exact absurd h (by simp)
      next hchild =>
        split at h
        next => exact absurd h (by simp)
        next =>
          simp only [Except.ok.injEq] at h
          subst h
          obtain ⟨hnd, hall⟩ := hinv
          constructor
          · refine List.Nodup.sublist ?_ hnd
            exact List.Sublist.map _ (List.filter_sublist _)
          · intro r hr
            have hrmem := (List.mem_filter.mp hr).1
            obtain ⟨h1, h2⟩ := hall r hrmem
            refine ⟨h1, ?_⟩
            intro pid2 hpid2
            obtain ⟨q, hq, hqa, hqb⟩ := h2 pid2 hpid2
            refine ⟨q, ?_, hqa, hqb⟩
            rw [List.mem_filter]
            refine ⟨hq, ?_⟩
            have hne : pid2 ≠ pid := by
              intro he
              apply hchild
              have hrc : r ∈ db.childrenOf pid := by
                unfold DB.childrenOf
                rw [List.mem_filter]
                refine ⟨hrmem, ?_⟩
                rw [← he]
                simp [hpid2]
              exact List.length_pos.mpr (List.ne_nil_of_mem hrc)
            simp [hqa, hne]

theorem IndentInv_createSubnet (now : String) (db : DB) (vpc : VPC) (s : AwsSubnetInfo)
    (hinv : IndentInv db) : IndentInv (createSubnetPrefix now db vpc s) := by
  obtain ⟨hpre, _, _, _⟩ := subnetRowFor_spec now db vpc s
  unfold createSubnetPrefix
  dsimp only
  cases hok : dbInsertPrefix (subnetRowFor now db vpc s).2 (subnetRowFor now db vpc s).1 with
  | error e => exact IndentInv_congr hpre hinv
  | ok pr =>
    obtain ⟨r, db2⟩ := pr
    exact IndentInv_insert (IndentInv_congr hpre hinv) hok

theorem IndentInv_tombstone (now : String) (db : DB) (pid : String)
    (hinv : IndentInv db) : IndentInv (tombstoneSubnetPrefix now db pid) := by
  unfold tombstoneSubnetPrefix
  cases hf : db.findPrefixById pid with
  | none => exact hinv
  | some p =>
    have hpid : p.prefix_id = pid := by simpa using List.find?_some hf
    refine IndentInv_replaceRows hinv hpid ?_
    intro q hq hqid
    have hqp : q = p := List.inj_on_of_nodup_map hinv.1 hq
      (List.mem_of_find?_eq_some hf) (hqid.trans hpid.symm)
    rw [hqp]
    exact ⟨rfl, rfl⟩

theorem IndentInv_updateSubnet (now : String) (db : DB) (vpcId : String)
    (s : AwsSubnetInfo) (hinv : IndentInv db) :
    IndentInv (updateSubnetPrefix now db vpcId s) := by
  unfold updateSubnetPrefix
  cases hf : List.find? (fun p => p.vpc_id == some vpcId && p.cidr == s.cidr_block &&
      p.source == Source.vpc) db.prefixes with
  | none => exact hinv
  | some p =>
    refine IndentInv_replaceRows hinv rfl ?_
    intro q hq hqid
    have hqp : q = p := List.inj_on_of_nodup_map hinv.1 hq
      (List.mem_of_find?_eq_some hf) hqid
    rw [hqp]
    exact ⟨rfl, rfl⟩

theorem IndentInv_sync (now : String) (db : DB) (vpc : VPC)
    (subnets : List AwsSubnetInfo) (hinv : IndentInv db) :
    IndentInv (syncVpcSubnets now db vpc subnets) := by
  have hcfold : ∀ (ss : List AwsSubnetInfo) (d : DB), IndentInv d →
      IndentInv (List.foldl (fun d s => createSubnetPrefix now d vpc s) d ss) := by
    intro ss
    induction ss with
    | nil => intro d hd; exact hd
    | cons s0 tl ih =>
      intro d hd
      simp only [List.foldl_cons]
      exact ih _ (IndentInv_createSubnet now d vpc s0 hd)
  have htfold : ∀ (ds : List Prefix) (d : DB), IndentInv d →
      IndentInv (List.foldl (fun d x => tombstoneSubnetPrefix now d x.prefix_id) d ds) := by
    intro ds
    induction ds with
    | nil => intro d hd; exact hd
    | cons x tl ih =>
      intro d hd
      simp only [List.foldl_cons]
      exact ih _ (IndentInv_tombstone now d x.prefix_id hd)
  have hufold : ∀ (ss : List AwsSubnetInfo) (d : DB), IndentInv d →
      IndentInv (List.foldl (fun d s => updateSubnetPrefix now d vpc.vpc_id s) d ss) := by
    intro ss
    induction ss with
    | nil => intro d hd; exact hd
    | cons s0 tl ih =>
      intro d hd
      simp only [List.foldl_cons]
      exact ih _ (IndentInv_updateSubnet now d vpc.vpc_id s0 hd)
  unfold syncVpcSubnets
  dsimp only
  exact hufold _ _ (htfold _ _ (hcfold _ _ hinv))

theorem IndentInv_cycle (now : String) (db : DB) (report : String → CloudReport)
    (hinv : IndentInv db) : IndentInv (runSyncCycle now db report) := by
  unfold runSyncCycle
  dsimp only
  have hfold : ∀ (reg : List VPC) (d : DB), IndentInv d →
      IndentInv (List.foldl (fun d vpc =>
        if !(report vpc.provider_vpc_id).reachable then d
        else syncVpcSubnets now d vpc (report vpc.provider_vpc_id).subnets) d reg) := by
    intro reg
    induction reg with
    | nil => intro d hd; exact hd
    | cons w tl ih =>
      intro d hd
      simp only [List.foldl_cons]
      by_cases hr : (report w.provider_vpc_id).reachable = true
      · have hstep : (if !(report w.provider_vpc_id).reachable then d
            else syncVpcSubnets now d w (report w.provider_vpc_id).subnets) =
            syncVpcSubnets now d w (report w.provider_vpc_id).subnets := by
          simp [hr]
        rw [hstep]
        exact ih _ (IndentInv_sync now d w (report w.provider_vpc_id).subnets hd)
      · have hrf : (report w.provider_vpc_id).reachable = false := by simpa using hr
        have hstep : (if !(report w.provider_vpc_id).reachable then d
            else syncVpcSubnets now d w (report w.provider_vpc_id).subnets) = d := by
          simp [hrf]
        rw [hstep]
        exact ih d hd
  exact hfold _ db hinv

theorem IndentInv_applyOp {db : DB} (op : Op) (hinv : IndentInv db)
    (hop : preservesParents op = true) : IndentInv (applyOp db op) := by
  cases op with
  | createManual vrf cidr parent tags r f =>
    simp only [applyOp]
    cases hc : createManualPrefix db vrf cidr parent tags r f with
    | error e => exact hinv
    | ok pr =>
      obtain ⟨row, db2⟩ := pr
      obtain ⟨p0, hins⟩ := createManualPrefix_as_insert hc
      exact IndentInv_insert hinv hins
  | allocate vrf size tags r parent desc f now =>
    simp only [applyOp]
    cases hc : allocateSubnet db vrf size tags r parent desc f now with
    | error e => exact hinv
    | ok pr =>
      obtain ⟨alloc, db2⟩ := pr
      obtain ⟨cidr, par, stags, row, hcreate⟩ := allocateSubnet_ok_create hc
      obtain ⟨p0, hins⟩ := createManualPrefix_as_insert hcreate
      exact IndentInv_insert hinv hins
  | updateManual pid kwargs =>
    simp only [preservesParents] at hop
    have hnorep : reparents kwargs = false := bnot_eq_true hop
    simp only [applyOp]
    cases hc : updateManualPrefix db pid kwargs with
    | error e => exact hinv
    | ok pr =>
      obtain ⟨p2, db2⟩ := pr
      exact IndentInv_updateManual hinv hnorep hc
  | updateVpcOp vpcId kwargs =>
    simp only [applyOp]
    cases hc : updateVpc db vpcId kwargs with
    | error e => exact hinv
    | ok pr =>
      obtain ⟨v2, db2⟩ := pr
      exact IndentInv_congr (updateVpc_prefixes hc) hinv
  | deleteManual pid =>
    simp only [applyOp]
    cases hc : deleteManualPrefix db pid with
    | error e => exact hinv
    | ok db2 => exact IndentInv_delete hinv hc
  | syncCycle now reports =>
    simp only [applyOp]
    exact IndentInv_cycle now db (reportFor reports) hinv

theorem distToRoot_of_inv {db : DB} (hinv : IndentInv db) :
    ∀ fuel, ∀ p ∈ db.prefixes, p.indentation_level < fuel →
      distToRoot db fuel p = p.indentation_level := by
  intro fuel
  induction fuel with
  | zero => intro p _ hlt; exact absurd hlt (by omega)
  | succ n ih =>
    intro p hp hlt
    obtain ⟨h1, h2⟩ := hinv.2 p hp
    cases hpar : p.parent_prefix_id with
    | none =>
      simp only [distToRoot, hpar]
      exact (h1 hpar).symm
    | some pid =>
      obtain ⟨q, hq, hqa, hqb⟩ := h2 pid hpar
      have hfq : db.findPrefixById pid = some q := find_by_id_nodup hinv.1 hq hqa
      simp only [distToRoot, hpar, hfq]
      have hqlt : q.indentation_level < n := by omega
      rw [ih q hq hqlt]
      omega

set_option maxRecDepth 10000 in
/-- **C6 counterexample**: after four creates and one re-parenting
update (`opsC6`), the moved `/12` row still carries
`indentation_level = 1` while its distance to the root is 2, and its
`/16` child carries 2 while its distance is 3 — `indentation_level` is
only materialized at insert time, and `update_manual_prefix` (whose
`PrefixUpdate` payload includes `parent_prefix_id`) rewrites the parent
pointer without recomputing any level. -/
theorem claim_C6_counterexample :
    ∃ p ∈ (applyOps dbV0 opsC6).prefixes,
      p.prefix_id = "manual-v-10-64-0-0-12" ∧
      p.indentation_level = 1 ∧
      distToRoot (applyOps dbV0 opsC6) (applyOps dbV0 opsC6).prefixes.length p = 2 ∧
      ∃ c ∈ (applyOps dbV0 opsC6).prefixes,
        c.prefix_id = "manual-v-10-64-0-0-16" ∧
        c.indentation_level = 2 ∧
        distToRoot (applyOps dbV0 opsC6) (applyOps dbV0 opsC6).prefixes.length c = 3 := by
  decide

/-- **C6 (amended)**: starting from a store satisfying the indentation
invariant, after any sequence of operations *none of which re-parents an
existing prefix* (`preservesParents`), every prefix's
`indentation_level` equals its distance to the root: each insert
materializes it as the parent's level plus one (0 for a root), updates
and tombstones never touch it, and the parent walk of any stored row
terminates at a root in exactly `indentation_level` steps for every
sufficient fuel. -/
theorem claim_C6_indentation_amended (db0 : DB) (ops : List Op)
    (hinv : IndentInv db0)
    (hops : ∀ op ∈ ops, preservesParents op = true) :
    IndentInv (applyOps db0 ops) ∧
    ∀ p ∈ (applyOps db0 ops).prefixes, ∀ fuel, p.indentation_level < fuel →
      distToRoot (applyOps db0 ops) fuel p = p.indentation_level := by
  have hmain : ∀ (ops2 : List Op) (db : DB), IndentInv db →
      (∀ op ∈ ops2, preservesParents op = true) → IndentInv (applyOps db ops2) := by
    intro ops2
    induction ops2 with
    | nil => intro db h _; exact h
    | cons op rest ih =>
      intro db h hops2
      simp only [applyOps, List.foldl_cons]
      exact ih (applyOp db op)
        (IndentInv_applyOp op h (hops2 op (List.mem_cons_self op rest)))
        (fun o ho => hops2 o (List.mem_cons_of_mem op ho))
  have hres := hmain ops db0 hinv hops
  refine ⟨hres, ?_⟩
  intro p hp fuel hlt
  exact distToRoot_of_inv hres fuel p hp hlt

/-- **C6 amended witness**: the amended theorem evaluated on the
four-create sequence. -/
theorem claim_C6_amended_witness :
    IndentInv (applyOps dbV0 opsC6w) ∧
    ∀ p ∈ (applyOps dbV0 opsC6w).prefixes, ∀ fuel, p.indentation_level < fuel →
      distToRoot (applyOps dbV0 opsC6w) fuel p = p.indentation_level :=
  claim_C6_indentation_amended dbV0 opsC6w (by unfold IndentInv; decide) (by decide)

/-! #### Canonical serialisation under key reordering -/

theorem render_eq_map_toList : (gs : JsonFields) →
    JsonFields.render gs =
      List.map (fun kv => (kv.1, Json.dumps kv.2)) (JsonFields.toList gs)
  | .nil => rfl
  | .cons k v tl => by
    simp [JsonFields.render, JsonFields.toList, render_eq_map_toList tl]

theorem render_keys : (fs : JsonFields) →
    (JsonFields.render fs).map Prod.fst = JsonFields.keys fs
  | .nil => rfl
  | .cons k v tl => by simp [JsonFields.render, JsonFields.keys, render_keys tl]

theorem keys_erase_sublist : (fs : JsonFields) →
    List.Sublist (JsonFields.keys (JsonFields.eraseRequestId fs)) (JsonFields.keys fs)
  | .nil => List.Sublist.refl _
  | .cons k v tl => by
    by_cases hc : (k == "request_id") = true
    · simp only [JsonFields.eraseRequestId, hc, if_true, JsonFields.keys]
      exact (keys_erase_sublist tl).cons k
    · have hcf : (k == "request_id") = false := by simpa using hc
      simp only [JsonFields.eraseRequestId, hcf, Bool.false_eq_true, if_false, JsonFields.keys]
      exact (keys_erase_sublist tl).cons₂ k

theorem wfValues_erase : (fs : JsonFields) → JsonFields.wfValues fs = true →
    JsonFields.wfValues (JsonFields.eraseRequestId fs) = true
  | .nil, h => h
  | .cons k v tl, h => by
    simp only [JsonFields.wfValues, Bool.and_eq_true] at h
    by_cases hc : (k == "request_id") = true
    · simp only [JsonFields.eraseRequestId, hc, if_true]
      exact wfValues_erase tl h.2
    · have hcf : (k == "request_id") = false := by simpa using hc
      simp only [JsonFields.eraseRequestId, hcf, Bool.false_eq_true, if_false,
        JsonFields.wfValues, Bool.and_eq_true]
      exact ⟨h.1, wfValues_erase tl h.2⟩

theorem wfKeys_strip {a : Json} (h : Json.wfKeys a = true) :
    Json.wfKeys (stripRequestId a) = true := by
  cases a with
  | obj fs =>
    simp only [Json.wfKeys, Bool.and_eq_true] at h
    obtain ⟨h1, h2⟩ := h
    simp only [stripRequestId, Json.wfKeys, Bool.and_eq_true]
    constructor
    · exact decide_eq_true
        (List.Nodup.sublist (keys_erase_sublist fs) (of_decide_eq_true h1))
    · exact wfValues_erase fs h2
  | null => exact h
  | boolVal b => exact h
  | num n => exact h
  | str s => exact h
  | arr xs => exact h

theorem toList_erase : (gs : JsonFields) →
    JsonFields.toList (JsonFields.eraseRequestId gs) =
      List.filter (fun m => !(m.1 == "request_id")) (JsonFields.toList gs)
  | .nil => rfl
  | .cons k v tl => by
    by_cases hc : (k == "request_id") = true
    · simp only [JsonFields.eraseRequestId, hc, if_true, JsonFields.toList, List.filter_cons]
      simp only [hc, Bool.not_true, Bool.false_eq_true, if_false]
      exact toList_erase tl
    · have hcf : (k == "request_id") = false := by simpa using hc
      simp only [JsonFields.eraseRequestId, hcf, Bool.false_eq_true, if_false,
        JsonFields.toList, List.filter_cons]
      simp only [hcf, Bool.not_false, if_true]
      rw [toList_erase tl]

theorem keyOrderEqFields_filter : (fs : JsonFields) → (mid : List (String × Json)) →
    KeyOrderEqFields fs mid →
    KeyOrderEqFields (JsonFields.eraseRequestId fs)
      (List.filter (fun m => !(m.1 == "request_id")) mid)
  | .nil, [], _ => True.intro
  | .nil, m :: rest, h => absurd h (by simp [KeyOrderEqFields])
  | .cons k v tl, [], h => absurd h (by simp [KeyOrderEqFields])
  | .cons k v tl, m :: rest, h => by
    obtain ⟨hk, hv, hrest⟩ := h
    by_cases hc : (k == "request_id") = true
    · have hm : (!(m.1 == "request_id")) = false := by
        rw [hk]
        simp [hc]
      simp only [JsonFields.eraseRequestId, hc, if_true, List.filter_cons, hm,
        Bool.false_eq_true, if_false]
      exact keyOrderEqFields_filter tl rest hrest
    · have hcf : (k == "request_id") = false := by simpa using hc
      have hm : (!(m.1 == "request_id")) = true := by
        rw [hk]
        simp [hcf]
      simp only [JsonFields.eraseRequestId, hcf, Bool.false_eq_true, if_false,
        List.filter_cons, hm, if_true]
      exact ⟨hk, hv, keyOrderEqFields_filter tl rest hrest⟩

theorem keyOrderEq_strip {a b : Json} (h : KeyOrderEq a b) :
    KeyOrderEq (stripRequestId a) (stripRequestId b) := by
  cases a with
  | obj fs =>
    cases b with
    | obj gs =>
      simp only [KeyOrderEq] at h
      obtain ⟨mid, hf, hperm⟩ := h
      simp only [stripRequestId, KeyOrderEq]
      refine ⟨List.filter (fun m => !(m.1 == "request_id")) mid, ?_, ?_⟩
      · exact keyOrderEqFields_filter fs mid hf
      · rw [toList_erase]
        exact hperm.filter _
    | null => exact h
    | boolVal c => exact h
    | num n => exact h
    | str t => exact h
    | arr ys => exact h
  | null => cases b <;> exact h
  | boolVal c => cases b <;> exact h
  | num n => cases b <;> exact h
  | str t => cases b <;> exact h
  | arr xs => cases b <;> exact h

theorem sorted_strict_keys (m : List (String × String))
    (hnd : (m.map Prod.fst).Nodup) :
    (List.insertionSort (fun a b => a.1 ≤ b.1) m).Pairwise
      (fun a b => a.1 < b.1) := by
  haveI : IsTotal (String × String) (fun a b => a.1 ≤ b.1) := ⟨fun a b => le_total a.1 b.1⟩
  haveI : IsTrans (String × String) (fun a b => a.1 ≤ b.1) :=
    ⟨fun a b c hab hbc => le_trans hab hbc⟩
  have hsorted := List.sorted_insertionSort (fun a b => a.1 ≤ b.1) m
  have hmap : ((List.insertionSort (fun a b => a.1 ≤ b.1) m).map Prod.fst).Nodup := by
    refine (List.Perm.nodup_iff ?_).mpr hnd
    exact (List.perm_insertionSort _ m).map Prod.fst
  have hne : (List.insertionSort (fun a b => a.1 ≤ b.1) m).Pairwise
      (fun a b => a.1 ≠ b.1) := by
    rw [List.Nodup, List.pairwise_map] at hmap
    exact hmap
  exact (hsorted.and hne).imp (fun h => lt_of_le_of_ne h.1 h.2)

theorem sortKeyEq {m₁ m₂ : List (String × String)}
    (hp : m₁.Perm m₂) (hnd : (m₁.map Prod.fst).Nodup) :
    List.insertionSort (fun a b => a.1 ≤ b.1) m₁ =
      List.insertionSort (fun a b => a.1 ≤ b.1) m₂ := by
  have hperm : (List.insertionSort (fun a b => a.1 ≤ b.1) m₁).Perm
      (List.insertionSort (fun a b => a.1 ≤ b.1) m₂) :=
    ((List.perm_insertionSort _ m₁).trans hp).trans (List.perm_insertionSort _ m₂).symm
  have hnd2 : (m₂.map Prod.fst).Nodup := (hp.map Prod.fst).nodup_iff.mp hnd
  have hs1 := sorted_strict_keys m₁ hnd
  have hs2 := sorted_strict_keys m₂ hnd2
  haveI : IsAntisymm (String × String) (fun a b => a.1 < b.1) :=
    ⟨fun a b hab hba => absurd (lt_trans hab hba) (lt_irrefl _)⟩
  exact List.eq_of_perm_of_sorted hperm hs1 hs2

theorem dumps_koe_bound : ∀ n : Nat,
    (∀ a b : Json, sizeOf a ≤ n → KeyOrderEq a b → Json.wfKeys a = true →
      Json.dumps a = Json.dumps b) ∧
    (∀ xs ys : JsonList, sizeOf xs ≤ n → KeyOrderEqList xs ys →
      JsonList.wfList xs = true → JsonList.dumpsList xs = JsonList.dumpsList ys) ∧
    (∀ (fs : JsonFields) (mid : List (String × Json)), sizeOf fs ≤ n →
      KeyOrderEqFields fs mid → JsonFields.wfValues fs = true →
      JsonFields.render fs = List.map (fun kv => (kv.1, Json.dumps kv.2)) mid ∧
      JsonFields.keys fs = mid.map Prod.fst) := by
  intro n
  induction n using Nat.strong_induction_on with
  | _ n ih =>
    refine ⟨?_, ?_, ?_⟩
    · intro a b hsz hk hwf
      cases a with
      | null => cases b <;> first | rfl | exact absurd hk (by simp [KeyOrderEq])
      | boolVal c =>
        cases b with
        | boolVal d => simp only [KeyOrderEq] at hk; rw [hk]
        | null => exact absurd hk (by simp [KeyOrderEq])
        | num x => exact absurd hk (by simp [KeyOrderEq])
        | str x => exact absurd hk (by simp [KeyOrderEq])
        | arr x => exact absurd hk (by simp [KeyOrderEq])
        | obj x => exact absurd hk (by simp [KeyOrderEq])
      | num c =>
        cases b with
        | num d => simp only [KeyOrderEq] at hk; rw [hk]
        | null => exact absurd hk (by simp [KeyOrderEq])
        | boolVal x => exact absurd hk (by simp [KeyOrderEq])
        | str x => exact absurd hk (by simp [KeyOrderEq])
        | arr x => exact absurd hk (by simp [KeyOrderEq])
        | obj x => exact absurd hk (by simp [KeyOrderEq])
      | str c =>
        cases b with
        | str d => simp only [KeyOrderEq] at hk; rw [hk]
        | null => exact absurd hk (by simp [KeyOrderEq])
        | boolVal x => exact absurd hk (by simp [KeyOrderEq])
        | num x => exact absurd hk (by simp [KeyOrderEq])
        | arr x => exact absurd hk (by simp [KeyOrderEq])
        | obj x => exact absurd hk (by simp [KeyOrderEq])
      | arr xs =>
        cases b with
        | arr ys =>
          simp only [KeyOrderEq] at hk
          simp only [Json.wfKeys] at hwf
          have hlt : sizeOf xs < n := by
            have := Json.arr.sizeOf_spec xs
            omega
          have hrec := (ih (sizeOf xs) hlt).2.1 xs ys (le_refl _) hk hwf
          simp only [Json.dumps, hrec]
        | null => exact absurd hk (by simp [KeyOrderEq])
        | boolVal x => exact absurd hk (by simp [KeyOrderEq])
        | num x => exact absurd hk (by simp [KeyOrderEq])
        | str x => exact absurd hk (by simp [KeyOrderEq])
        | obj x => exact absurd hk (by simp [KeyOrderEq])
      | obj fs =>
        cases b with
        | obj gs =>
          simp only [KeyOrderEq] at hk
          obtain ⟨mid, hf, hperm⟩ := hk
          simp only [Json.wfKeys, Bool.and_eq_true] at hwf
          obtain ⟨h1, h2⟩ := hwf
          have hlt : sizeOf fs < n := by
            have := Json.obj.sizeOf_spec fs
            omega
          obtain ⟨hrender, hkeys⟩ := (ih (sizeOf fs) hlt).2.2 fs mid (le_refl _) hf h2
          have hrg := render_eq_map_toList gs
          have hpr : (JsonFields.render fs).Perm (JsonFields.render gs) := by
            rw [hrender, hrg]
            exact hperm.map _
          have hnr : ((JsonFields.render fs).map Prod.fst).Nodup := by
            rw [render_keys]
            exact of_decide_eq_true h1
          have hsorted := sortKeyEq hpr hnr
          simp only [Json.dumps]
          rw [hsorted]
        | null => exact absurd hk (by simp [KeyOrderEq])
        | boolVal x => exact absurd hk (by simp [KeyOrderEq])
        | num x => exact absurd hk (by simp [KeyOrderEq])
        | str x => exact absurd hk (by simp [KeyOrderEq])
        | arr x => exact absurd hk (by simp [KeyOrderEq])
    · intro xs ys hsz hk hwf
      cases xs with
      | nil =>
        cases ys with
        | nil => rfl
        | cons y yt => exact absurd hk (by simp [KeyOrderEqList])
      | cons x xt =>
        cases ys with
        | nil => exact absurd hk (by simp [KeyOrderEqList])
        | cons y yt =>
          obtain ⟨hk1, hk2⟩ := hk
          simp only [JsonList.wfList, Bool.and_eq_true] at hwf
          have hszx : sizeOf x < n := by
            have := JsonList.cons.sizeOf_spec x xt
            omega
          have hszt : sizeOf xt < n := by
            have := JsonList.cons.sizeOf_spec x xt
            omega
          have hx := (ih (sizeOf x) hszx).1 x y (le_refl _) hk1 hwf.1
          have ht := (ih (sizeOf xt) hszt).2.1 xt yt (le_refl _) hk2 hwf.2
          simp only [JsonList.dumpsList, hx, ht]
    · intro fs mid hsz hk hwf
      cases fs with
      | nil =>
        cases mid with
        | nil => exact ⟨rfl, rfl⟩
        | cons m rest => exact absurd hk (by simp [KeyOrderEqFields])
      | cons k v tl =>
        cases mid with
        | nil => exact absurd hk (by simp [KeyOrderEqFields])
        | cons m rest =>
          obtain ⟨hk1, hk2, hk3⟩ := hk
          simp only [JsonFields.wfValues, Bool.and_eq_true] at hwf
          have hszv : sizeOf v < n := by
            have := JsonFields.cons.sizeOf_spec k v tl
            omega
          have hszt : sizeOf tl < n := by
            have := JsonFields.cons.sizeOf_spec k v tl
            omega
          have hv := (ih (sizeOf v) hszv).1 v m.2 (le_refl _) hk2 hwf.1
          obtain ⟨ht1, ht2⟩ := (ih (sizeOf tl) hszt).2.2 tl rest (le_refl _) hk3 hwf.2
          constructor
          · simp only [JsonFields.render, List.map_cons, ht1, hv, hk1]
          · simp only [JsonFields.keys, List.map_cons, ht2, hk1]

theorem dumps_of_keyOrderEq {a b : Json} (hk : KeyOrderEq a b)
    (hwf : Json.wfKeys a = true) : Json.dumps a = Json.dumps b :=
  (dumps_koe_bound (sizeOf a)).1 a b (le_refl _) hk hwf

/-! #### The idempotency layer -/

theorem storeResponse_fresh {recs : List IdemRecord} {R e m : String} {P resp : Json}
    {status : Nat} (hfresh : List.find? (fun r => r.request_id == R) recs = none) :
    storeResponse recs R e m P resp status =
      recs ++ [{ request_id := R, endpoint := e, method := m,
                 request_hash := calculateRequestHash P, request_params := P,
                 response_data := resp, status_code := status }] := by
  have hany : List.any recs (fun r => r.request_id == R) = false := by
    cases ha : List.any recs (fun r => r.request_id == R) with
    | false => rfl
    | true =>
      obtain ⟨r, hr, hrb⟩ := List.any_eq_true.mp ha
      exact absurd hrb (List.find?_eq_none.mp hfresh r hr)
  unfold storeResponse
  simp only [hany, Bool.false_eq_true, if_false]

theorem checkIdempotency_replay {recs : List IdemRecord} {R e m : String} {P resp : Json}
    (hfresh : List.find? (fun r => r.request_id == R) recs = none) :
    checkIdempotency (storeResponse recs R e m P resp 200) R e m P =
      .ok (some (resp, 200)) := by
  rw [storeResponse_fresh hfresh]
  unfold checkIdempotency
  rw [find_append_none hfresh]
  simp [List.find?_cons]

theorem checkIdempotency_mismatch {recs : List IdemRecord} {R e m : String}
    {P resp : Json} {e2 m2 : String} {P2 : Json}
    (hfresh : List.find? (fun r => r.request_id == R) recs = none)
    (hdiff : ¬ (e = e2 ∧ m = m2) ∨ calculateRequestHash P2 ≠ calculateRequestHash P) :
    checkIdempotency (storeResponse recs R e m P resp 200) R e2 m2 P2 =
      .error "parameter_mismatch" := by
  rw [storeResponse_fresh hfresh]
  unfold checkIdempotency
  rw [find_append_none hfresh]
  rcases hdiff with hne | hne
  · rcases not_and_or.mp hne with h1 | h1 <;> simp [List.find?_cons, h1]
  · by_cases hem : e = e2 ∧ m = m2
    · obtain ⟨h1, h2⟩ := hem
      subst h1
      subst h2
      simp [List.find?_cons, Ne.symm hne]
    · rcases not_and_or.mp hem with h1 | h1 <;> simp [List.find?_cons, h1]

theorem processRequest_fresh {σ : Type} {recs : List IdemRecord} {st : σ}
    {R e m : String} {P : Json} {proc : σ → Json × σ}
    (hfresh : List.find? (fun r => r.request_id == R) recs = none) :
    processRequest recs st R e m P proc =
      (storeResponse recs R e m P (proc st).1 200, (proc st).2,
        .ok ((proc st).1, 200)) := by
  have hchk : checkIdempotency recs R e m P = .ok none := by
    unfold checkIdempotency
    rw [hfresh]
  unfold processRequest
  rw [hchk]

/-- Claim C3: for every mutating operation behind the idempotency
façade — abstracted as a processor `proc` over a mutable state — and a
fresh request id `R` with parameter map `P`: the first call runs the
processor once, stores its response with status 200 and returns it; a
replay with the same `R`, endpoint, method and parameters returns the
identical stored response without running any processor and without
touching the record table or the state; a call reusing `R` with a
different endpoint/method or a parameter map of different hash raises
`parameter_mismatch` (HTTP 409), again without mutation; and the
comparison hash — SHA-256 of the canonical `sort_keys=True` JSON of the
parameters without `request_id` — is insensitive to object key order,
so two parameter maps equal up to recursive key permutation hash
identically. -/
theorem claim_C3_idempotency {σ : Type} (recs : List IdemRecord) (st : σ)
    (R endpoint method : String) (P : Json) (proc proc2 : σ → Json × σ)
    (hfresh : List.find? (fun r => r.request_id == R) recs = none) :
    processRequest recs st R endpoint method P proc =
      (storeResponse recs R endpoint method P (proc st).1 200, (proc st).2,
        .ok ((proc st).1, 200)) ∧
    (∀ st1 : σ,
      processRequest (storeResponse recs R endpoint method P (proc st).1 200) st1
          R endpoint method P proc2 =
        (storeResponse recs R endpoint method P (proc st).1 200, st1,
          .ok ((proc st).1, 200))) ∧
    (∀ (st1 : σ) (endpoint2 method2 : String) (P2 : Json),
      (¬ (endpoint = endpoint2 ∧ method = method2) ∨
        calculateRequestHash P2 ≠ calculateRequestHash P) →
      processRequest (storeResponse recs R endpoint method P (proc st).1 200) st1
          R endpoint2 method2 P2 proc2 =
        (storeResponse recs R endpoint method P (proc st).1 200, st1,
          .error "parameter_mismatch")) ∧
    (∀ Q Q2 : Json, KeyOrderEq Q Q2 → Json.wfKeys Q = true →
      calculateRequestHash Q = calculateRequestHash Q2) := by
  refine ⟨processRequest_fresh hfresh, ?_, ?_, ?_⟩
  · intro st1
    unfold processRequest
    rw [checkIdempotency_replay hfresh]
  · intro st1 endpoint2 method2 P2 hdiff
    unfold processRequest
    rw [checkIdempotency_mismatch hfresh hdiff]
  · intro Q Q2 hk hwf
    unfold calculateRequestHash
    rw [dumps_of_keyOrderEq (keyOrderEq_strip hk) (wfKeys_strip hwf)]

/-- Claim C3 witness: the façade evaluated on a fresh request id over a
counter state. -/
theorem claim_C3_witness :
    processRequest recsC3 0 "r1" "/api/prefixes" "POST" paramsC3 procC3 =
      (storeResponse recsC3 "r1" "/api/prefixes" "POST" paramsC3 (procC3 0).1 200,
        (procC3 0).2, .ok ((procC3 0).1, 200)) ∧
    (∀ st1 : Nat,
      processRequest (storeResponse recsC3 "r1" "/api/prefixes" "POST" paramsC3
          (procC3 0).1 200) st1 "r1" "/api/prefixes" "POST" paramsC3 procC3 =
        (storeResponse recsC3 "r1" "/api/prefixes" "POST" paramsC3 (procC3 0).1 200, st1,
          .ok ((procC3 0).1, 200))) ∧
    (∀ (st1 : Nat) (endpoint2 method2 : String) (P2 : Json),
      (¬ ("/api/prefixes" = endpoint2 ∧ "POST" = method2) ∨
        calculateRequestHash P2 ≠ calculateRequestHash paramsC3) →
      processRequest (storeResponse recsC3 "r1" "/api/prefixes" "POST" paramsC3
          (procC3 0).1 200) st1 "r1" endpoint2 method2 P2 procC3 =
        (storeResponse recsC3 "r1" "/api/prefixes" "POST" paramsC3 (procC3 0).1 200, st1,
          .error "parameter_mismatch")) ∧
    (∀ Q Q2 : Json, KeyOrderEq Q Q2 → Json.wfKeys Q = true →
      calculateRequestHash Q = calculateRequestHash Q2) :=
  claim_C3_idempotency recsC3 0 "r1" "/api/prefixes" "POST" paramsC3 procC3 procC3 (by rfl)

end Ipam
